import Mathlib

/-!
# vita-libdl: a shallow embedding of `source/dl.c`

The C file keeps a database of modules (a uthash table keyed by name), each
with a table of symbols (name to NID), and offers `dldbadd`, `dldbfreeall`,
`dlopen`, `dlclose`, `dlsym` and `dlerror` on top of it.

Modelling choices:

* a C string is a `List Char` without the terminating NUL;
* the four globals of `dl.c` are the fields of `State`; the field `trace`
  is the log of every call that leaves the file (kernel, sysmodule, taihen,
  `calloc`, `stderr`), in call order, each with the value it returned;
* what those calls return is not decided by `dl.c`: it is read from `Env`,
  as a function of the log so far and of the call;
* a uthash table is the list of its records in insertion order, and a
  pointer to a record is its position in that list;
* a NULL pointer dereference is the result `none`.
-/

namespace VitaLibdl

/-- A C string, without its terminating NUL. -/
abbrev CStr := List Char

def SYMBOL_LENGTH_MAX : Nat := 59
def MODNAME_LENGTH_MAX : Nat := 59
def DLERRMSG_LENGTH_MAX : Nat := 127

def DL_MODULE_TYPE_SYS : Char := 's'
def DL_MODULE_TYPE_FILE : Char := 'f'
def DL_MODULE_TYPE_PRELOADED : Char := 'p'

/-- The byte that ends a C string. -/
def NUL : Char := Char.ofNat 0

/-- Record `dl_symbol_info`. The C field `name` is `char[60]`; the model keeps
the whole token that `sscanf` read, where C writes past the field for a token
of 60 bytes or more. `nid` is the 32-bit pattern stored by `%X`. -/
structure dl_symbol_info where
  name : CStr
  nid : Nat
deriving DecidableEq, Repr

/-- Record `dl_module_info`. `type` holds the character read by `%c`; `sid`
is a 32-bit pattern; `uid` and `refcount` are C `int`s. -/
structure dl_module_info where
  type : Char
  sid : Nat
  uid : Int
  refcount : Int
  name : CStr
  dl_symbols : List dl_symbol_info
deriving DecidableEq, Repr

/-- Record `dl_handle`: the name of the module it was opened for. -/
structure dl_handle where
  name : CStr
deriving DecidableEq, Repr

/-- The calls that leave `dl.c`. -/
inductive Call where
  | sceKernelLockWriteRWLock
  | sceKernelUnlockWriteRWLock
  | sceKernelLockReadRWLock
  | sceKernelUnlockReadRWLock
  | sceKernelLoadStartModule (path : CStr)
  | sceKernelStopUnloadModule (uid : Int)
  | sceSysmoduleLoadModule (sid : Nat)
  | sceSysmoduleUnloadModule (sid : Nat)
  | taiGetModuleExportFunc (modname : CStr) (nid : Nat)
  | calloc
  | stderr (msg : CStr)
deriving DecidableEq, Repr

/-- One entry of the log: the call, the value it returned, and the name of the
module record on whose behalf it was made (empty for locks, `calloc` and
`stderr`). -/
structure Event where
  who : CStr
  call : Call
  ret : Int
deriving DecidableEq, Repr

/-- What the world outside `dl.c` answers. `ret` is the return value of a call
given the log so far (for `calloc`, non-zero is a fresh pointer and zero is
NULL); `func` is the address that `taiGetModuleExportFunc` stores through its
last argument; `fopen` is the content of the file at a path, `none` when it
cannot be opened; `heap` is what a freshly allocated line buffer holds. -/
structure Env where
  ret : List Event → Call → Int
  func : List Event → CStr → Nat → Nat
  fopen : CStr → Option (List Char)
  heap : List Char

/-- The globals `_dl_err`, `_dl_errmsg` and `_dl_module_db`, and the log. -/
structure State where
  _dl_err : Bool
  _dl_errmsg : CStr
  _dl_module_db : List dl_module_info
  trace : List Event
deriving DecidableEq, Repr

/-- Perform a call that leaves the file: ask the environment and log it. -/
def sys (env : Env) (s : State) (who : CStr) (c : Call) : Int × State :=
  let r := env.ret s.trace c
  (r, { s with trace := s.trace ++ [⟨who, c, r⟩] })

/-- Macro `DLERR`: `snprintf` into the 128-byte message buffer, raise the flag. -/
def DLERR (s : State) (msg : CStr) : State :=
  { s with _dl_errmsg := msg.take DLERRMSG_LENGTH_MAX, _dl_err := true }

/-! ## uthash -/

/-- `HASH_FIND_STR` on the module table: the position of the record whose name
is the key. `HASH_ADD_STR` does not look for a record of the same name, so a
table can hold several; which of them uthash finds depends on the order of its
bucket, and the model answers the oldest. -/
def HASH_FIND_STR : List dl_module_info → CStr → Option Nat
  | [], _ => none
  | m :: ms, key =>
    if m.name = key then some 0 else (HASH_FIND_STR ms key).map (· + 1)

/-- `HASH_FIND_STR` on a symbol table. -/
def HASH_FIND_SYM : List dl_symbol_info → CStr → Option dl_symbol_info
  | [], _ => none
  | e :: es, key => if e.name = key then some e else HASH_FIND_SYM es key

/-- Remove the first entry of a symbol table that has the given name. -/
def HASH_DEL_SYM : List dl_symbol_info → CStr → List dl_symbol_info
  | [], _ => []
  | e :: es, key => if e.name = key then es else e :: HASH_DEL_SYM es key

/-- `HASH_REPLACE_STR` on a symbol table: find an entry with the key of `add`,
delete it if there is one (it is the `replaced` output), then add `add`. -/
def HASH_REPLACE_STR (tbl : List dl_symbol_info) (add : dl_symbol_info) :
    List dl_symbol_info × Option dl_symbol_info :=
  (HASH_DEL_SYM tbl add.name ++ [add], HASH_FIND_SYM tbl add.name)

/-- Write through a record pointer: apply `f` to the record at position `i`. -/
def updateAt (f : dl_module_info → dl_module_info) :
    List dl_module_info → Nat → List dl_module_info
  | [], _ => []
  | m :: ms, 0 => f m :: ms
  | m :: ms, i + 1 => m :: updateAt f ms i

/-- Write through a record pointer, in the state. -/
def setModule (s : State) (i : Nat) (f : dl_module_info → dl_module_info) : State :=
  { s with _dl_module_db := updateAt f s._dl_module_db i }

/-! ## libc pieces -/

/-- `isspace` in the C locale. -/
def isspace (c : Char) : Bool :=
  c = ' ' || c = '\t' || c = '\n' || c = Char.ofNat 11 || c = Char.ofNat 12 || c = '\r'

/-- Value of a hexadecimal digit. -/
def hexval (c : Char) : Option Nat :=
  if '0' ≤ c ∧ c ≤ '9' then some (c.toNat - '0'.toNat)
  else if 'a' ≤ c ∧ c ≤ 'f' then some (c.toNat - 'a'.toNat + 10)
  else if 'A' ≤ c ∧ c ≤ 'F' then some (c.toNat - 'A'.toNat + 10)
  else none

/-- Read hexadecimal digits from the front of the input: the number read so far
extended by them, how many there were, and the rest of the input. -/
def scanDigits : CStr → Nat → Nat → Nat × Nat × CStr
  | [], acc, n => (acc, n, [])
  | c :: cs, acc, n =>
    match hexval c with
    | some d => scanDigits cs (acc * 16 + d) (n + 1)
    | none => (acc, n, c :: cs)

/-- The 32-bit pattern of a scanned number, as `strtoul` yields it where
`unsigned long` has 32 bits: a magnitude that does not fit saturates, and a
minus sign negates modulo 2^32. -/
def toU32 (neg : Bool) (v : Nat) : Nat :=
  if 2 ^ 32 ≤ v then 2 ^ 32 - 1
  else if neg then (2 ^ 32 - v) % 2 ^ 32 else v

/-- The digits of `%X` after the sign: an optional `0x` or `0X`, then at least
one digit. A `0x` that no digit follows is a matching failure. -/
def scanMagnitude (inp : CStr) : Option (Nat × CStr) :=
  let body : CStr :=
    match inp with
    | c0 :: c1 :: rest => if c0 = '0' ∧ (c1 = 'x' ∨ c1 = 'X') then rest else inp
    | _ => inp
  match scanDigits body 0 0 with
  | (_, 0, _) => none
  | (v, _ + 1, rest) => some (v, rest)

/-- Conversion `%X` of `sscanf`: skip white space, an optional sign, then the
magnitude. -/
def scan_X (inp : CStr) : Option (Nat × CStr) :=
  match inp.dropWhile isspace with
  | [] => none
  | c :: cs =>
    if c = '-' then (scanMagnitude cs).map (fun r => (toU32 true r.1, r.2))
    else if c = '+' then (scanMagnitude cs).map (fun r => (toU32 false r.1, r.2))
    else (scanMagnitude (c :: cs)).map (fun r => (toU32 false r.1, r.2))

/-- Conversion `%s` of `sscanf`: skip white space, then the longest run of
bytes that are not white space, which must not be empty. -/
def scan_s (inp : CStr) : Option (CStr × CStr) :=
  let inp1 := inp.dropWhile isspace
  match inp1.takeWhile (fun c => !isspace c) with
  | [] => none
  | c :: tok => some (c :: tok, inp1.dropWhile (fun c => !isspace c))

/-- Conversion `%c` of `sscanf`: the next byte, whatever it is. -/
def scan_c : CStr → Option (Char × CStr)
  | [] => none
  | c :: cs => some (c, cs)

/-- An ordinary character of a `sscanf` format: the next byte must be it. -/
def lit (c : Char) : CStr → Option CStr
  | [] => none
  | d :: rest => if d = c then some rest else none

/-- White space in a `sscanf` format: skip any white space of the input. -/
def skipSpace (inp : CStr) : CStr := inp.dropWhile isspace

/-- The call `sscanf(linebuf, "#0x%X", &sid)`: the value stored when the call
returns 1. -/
def sscanf_sid (line : CStr) : Option Nat :=
  (lit '#' line).bind fun r0 =>
  (lit '0' r0).bind fun r1 =>
  (lit 'x' r1).bind fun r2 =>
  (scan_X r2).map fun r => r.1

/-- The call `sscanf(linebuf, "*%s 0x%X", name, &nid)`: the two values stored
when the call returns 2. -/
def sscanf_symbol (line : CStr) : Option (CStr × Nat) :=
  (lit '*' line).bind fun r0 =>
  (scan_s r0).bind fun t =>
  (lit '0' (skipSpace t.2)).bind fun r1 =>
  (lit 'x' r1).bind fun r2 =>
  (scan_X r2).map fun r => (t.1, r.1)

/-- The call `sscanf(linebuf, "$%c %s", &module_type, name)`: the two values
stored when the call returns 2. -/
def sscanf_module (line : CStr) : Option (Char × CStr) :=
  (lit '$' line).bind fun r0 =>
  (scan_c r0).bind fun t =>
  (scan_s (skipSpace t.2)).map fun r => (t.1, r.1)

/-- The C string that starts `off` bytes into a buffer. -/
def cstrAt (buf : List Char) (off : Nat) : CStr :=
  (buf.drop off).takeWhile (fun c => c ≠ NUL)

/-- Call `strcspn(buf, "\r\n")`. -/
def strcspn_crlf (buf : List Char) : Nat :=
  (buf.takeWhile (fun c => c ≠ NUL ∧ c ≠ '\r' ∧ c ≠ '\n')).length

/-- The line buffer after `getline` stored the line `raw` in it: the line, its
terminator, and behind them what the buffer held before. -/
def getline_store (old raw : List Char) : List Char :=
  raw ++ NUL :: old.drop (raw.length + 1)

/-- Overwrite the byte at position `k` with NUL. -/
def putNUL : List Char → Nat → List Char
  | [], _ => []
  | _ :: cs, 0 => NUL :: cs
  | c :: cs, k + 1 => c :: putNUL cs k

/-- The lines that successive `getline` calls return on a content: each ends
with its newline, except a last one that the content leaves unterminated. -/
def getlines : List Char → List Char → List (List Char)
  | [], acc => if acc = [] then [] else [acc.reverse]
  | c :: cs, acc =>
    if c = '\n' then (c :: acc).reverse :: getlines cs []
    else getlines cs (c :: acc)

/-- Decimal digits, for `%d`. -/
def fmtInt (n : Nat) : CStr := (Nat.repr n).toList

/-- Function `basename` of `dl.c`: what follows the last `/`, or all of it. -/
def basename : CStr → CStr
  | [] => []
  | c :: cs =>
    if cs.contains '/' then basename cs
    else if c = '/' then cs else c :: cs

/-- Cut a string at its last `.`, as `*strrchr(name, '.') = 0` does; `none`
when there is no `.`, where `strrchr` returns NULL and the store faults. -/
def cutLastDot : CStr → Option CStr
  | [] => none
  | c :: cs =>
    match cutLastDot cs with
    | some r => some (c :: r)
    | none => if c = '.' then some [] else none

/-! ## The functions of `dl.c` -/

instance : Inhabited dl_module_info := ⟨⟨NUL, 0, 0, 0, [], []⟩⟩

/-- The record at a position of the table; the zeroed record where there is none. -/
def recordAt : List dl_module_info → Nat → dl_module_info
  | [], _ => default
  | m :: _, 0 => m
  | _ :: ms, i + 1 => recordAt ms i

/-- Read through a record pointer. -/
def getModule (s : State) (i : Nat) : dl_module_info :=
  recordAt s._dl_module_db i

/-- Function `free_module`: the return value and the state after. -/
def free_module (env : Env) (s : State) (m : dl_module_info) : Int × State :=
  if m.type = DL_MODULE_TYPE_FILE then
    sys env s m.name (.sceKernelStopUnloadModule m.uid)
  else if m.type = DL_MODULE_TYPE_SYS then
    sys env s m.name (.sceSysmoduleUnloadModule m.sid)
  else (-1, s)

/-- Function `load_module` on the record at position `i`. -/
def load_module (env : Env) (s : State) (i : Nat) : Int × State :=
  let m := getModule s i
  if m.type = DL_MODULE_TYPE_FILE then
    let r := sys env s m.name (.sceKernelLoadStartModule m.name)
    (r.1, if 0 ≤ r.1 then setModule r.2 i (fun m => { m with uid := r.1 }) else r.2)
  else if m.type = DL_MODULE_TYPE_SYS then
    sys env s m.name (.sceSysmoduleLoadModule m.sid)
  else (-1, s)

/-- Release the read lock. -/
def unlockRead (env : Env) (s : State) : State :=
  (sys env s [] .sceKernelUnlockReadRWLock).2

/-- Release the write lock. -/
def unlockWrite (env : Env) (s : State) : State :=
  (sys env s [] .sceKernelUnlockWriteRWLock).2

/-- Function `symbol_lookup`: the address returned (0 is NULL) and the state
after; `none` when the store through the NULL result of `strrchr` faults.
`strdup` is taken to succeed. -/
def symbol_lookup (env : Env) (s : State) (module symbol : CStr) : Option (Nat × State) :=
  let l := sys env s [] .sceKernelLockReadRWLock
  if l.1 < 0 then
    some (0, DLERR l.2 "Error: failed to acquire read lock\n".toList)
  else
    match HASH_FIND_STR l.2._dl_module_db module with
    | none =>
      some (0, unlockRead env
        (DLERR l.2 ("Error: failed to find module ".toList ++ module ++ " in database\n".toList)))
    | some i =>
      let module_info := getModule l.2 i
      match HASH_FIND_SYM module_info.dl_symbols symbol with
      | none => some (0, unlockRead env l.2)
      | some symbol_info =>
        if module_info.type = DL_MODULE_TYPE_FILE then
          match cutLastDot (basename module) with
          | none => none
          | some name =>
            let r := sys env l.2 module_info.name (.taiGetModuleExportFunc name symbol_info.nid)
            let func := env.func l.2.trace name symbol_info.nid
            some (if r.1 = 0 then func else 0, unlockRead env r.2)
        else
          let r := sys env l.2 module_info.name (.taiGetModuleExportFunc module symbol_info.nid)
          let func := env.func l.2.trace module symbol_info.nid
          some (if r.1 = 0 then func else 0, unlockRead env r.2)

/-- The loop of `dldbfreeall` over the records still in the table: unload the
record, take it out of the table. -/
def dldbfreeall_loop (env : Env) : List dl_module_info → State → State
  | [], s => s
  | m :: ms, s =>
    dldbfreeall_loop env ms { (free_module env s m).2 with _dl_module_db := ms }

/-- Function `dldbfreeall`. -/
def dldbfreeall (env : Env) (s : State) : Int × State :=
  let l := sys env s [] .sceKernelLockWriteRWLock
  if l.1 < 0 then
    (-1, DLERR l.2 "Error: failed to acquire write lock\n".toList)
  else
    (0, unlockWrite env (dldbfreeall_loop env l.2._dl_module_db l.2))

/-- The message of a line that `sscanf` could not read. -/
def parseErrMsg (path : CStr) (linenum : Nat) : CStr :=
  "Error: could not parse ".toList ++ path ++ " at line ".toList ++ fmtInt linenum ++ "\n".toList

/-- The message of a `#` or `*` line met while `current_module` is NULL. -/
def noModuleMsg (path : CStr) : CStr :=
  "Error: no modules found in ".toList ++ path ++ "\n".toList

/-- The body of the `while` loop of `dldbadd` for one line, `buf` being the
line buffer after the newline was cut off: whether `failed` was set, the state
after, and `current_module`. -/
def dldbadd_line (env : Env) (path : CStr) (linenum : Nat) (buf : List Char)
    (s : State) (current_module : Option Nat) : Bool × State × Option Nat :=
  let line := cstrAt buf 0
  if line.head? = some '#' then
    match current_module with
    | none => (true, DLERR s (noModuleMsg path), none)
    | some i =>
      match sscanf_sid line with
      | none => (true, DLERR s (parseErrMsg path linenum), some i)
      | some v => (false, setModule s i (fun m => { m with sid := v }), some i)
  else if line.head? = some '*' then
    match current_module with
    | none => (true, DLERR s (noModuleMsg path), none)
    | some i =>
      let a := sys env s [] .calloc
      if a.1 = 0 then (true, DLERR a.2 "Error: no memory\n".toList, some i)
      else
        match sscanf_symbol line with
        | none => (true, DLERR a.2 (parseErrMsg path linenum), some i)
        | some (name, nid) =>
          let r := HASH_REPLACE_STR (getModule a.2 i).dl_symbols ⟨name, nid⟩
          let s2 := setModule a.2 i (fun m => { m with dl_symbols := r.1 })
          match r.2 with
          | some duplicated_symbol =>
            (false, (sys env s2 [] (.stderr ("Warning: duplicated symbol ".toList
              ++ duplicated_symbol.name ++ " at line ".toList ++ fmtInt linenum
              ++ "\n".toList))).2, some i)
          | none => (false, s2, some i)
  else if line.head? = some '$' then
    match HASH_FIND_STR s._dl_module_db (cstrAt buf 3) with
    | some i => (false, s, some i)
    | none =>
      let a := sys env s [] .calloc
      if a.1 = 0 then (true, DLERR a.2 "Error: no memory\n".toList, none)
      else
        match sscanf_module line with
        | none => (true, DLERR a.2 (parseErrMsg path linenum), none)
        | some (module_type, name) =>
          (false,
            { a.2 with _dl_module_db :=
                a.2._dl_module_db ++ [⟨module_type, 0, 0, 0, name, []⟩] },
            some a.2._dl_module_db.length)
  else (false, s, current_module)

/-- The `while` loop of `dldbadd` over the lines that `getline` still has to
return: whether `failed` was set, and the state at label `fail`. -/
def dldbadd_loop (env : Env) (path : CStr) :
    List (List Char) → List Char → Nat → State → Option Nat → Bool × State
  | [], _, _, s, _ => (false, s)
  | raw :: rest, linebuf, linenum, s, current_module =>
    let stored := getline_store linebuf raw
    let buf := putNUL stored (strcspn_crlf stored)
    match dldbadd_line env path linenum buf s current_module with
    | (true, s1, _) => (true, s1)
    | (false, s1, cur1) => dldbadd_loop env path rest buf (linenum + 1) s1 cur1

/-- Function `dldbadd`. -/
def dldbadd (env : Env) (s : State) (path : CStr) : Int × State :=
  let l := sys env s [] .sceKernelLockWriteRWLock
  if l.1 < 0 then
    (-1, DLERR l.2 "Error: failed to acquire write lock\n".toList)
  else
    match env.fopen path with
    | none =>
      (-1, unlockWrite env (DLERR l.2 ("Error: could not open ".toList ++ path ++ "\n".toList)))
    | some content =>
      let p := dldbadd_loop env path (getlines content []) env.heap 1 l.2 none
      let s3 := if p.1 then (dldbfreeall env p.2).2 else p.2
      (0, unlockWrite env s3)

/-- Function `dlopen`; the flag argument is not used by the C code. -/
def dlopen (env : Env) (s : State) (filename : CStr) : Option dl_handle × State :=
  match HASH_FIND_STR s._dl_module_db filename with
  | none =>
    (none, DLERR s ("Error: failed to find module ".toList ++ filename ++ " in database\n".toList))
  | some i =>
    let l := sys env s [] .sceKernelLockWriteRWLock
    if l.1 < 0 then
      (none, DLERR l.2 "Error: failed to acquire write lock\n".toList)
    else
      let ld := if (getModule l.2 i).refcount = 0 then load_module env l.2 i else (0, l.2)
      if (getModule l.2 i).refcount = 0 ∧ ld.1 < 0 then
        (none, unlockWrite env
          (DLERR ld.2 ("Error: failed to load module ".toList ++ (getModule ld.2 i).name
            ++ "\n".toList)))
      else
        let a := sys env ld.2 [] .calloc
        if a.1 = 0 then
          let e := DLERR a.2 "Error: no memory\n".toList
          let f := if (getModule e i).refcount = 0 then (free_module env e (getModule e i)).2 else e
          (none, unlockWrite env f)
        else
          let m := getModule a.2 i
          (some ⟨m.name⟩,
            unlockWrite env (setModule a.2 i (fun m => { m with refcount := m.refcount + 1 })))

/-- Function `dlerror`: the message returned (`none` is NULL) and the state. -/
def dlerror (s : State) : Option CStr × State :=
  if s._dl_err then (some s._dl_errmsg, { s with _dl_err := false }) else (none, s)

/-- Function `dlclose`: the return value and the state after; `none` when the
module is not found and `module->refcount` dereferences NULL. The handle is a
value here; that C clears and frees it is not part of the state. -/
def dlclose (env : Env) (s : State) (handle : dl_handle) : Option (Int × State) :=
  let module := HASH_FIND_STR s._dl_module_db handle.name
  let l := sys env s [] .sceKernelLockWriteRWLock
  if l.1 < 0 then
    some (-1, DLERR l.2 "Error: failed to acquire write lock\n".toList)
  else
    match module with
    | none => none
    | some i =>
      let f := if (getModule l.2 i).refcount = 1
        then (free_module env l.2 (getModule l.2 i)).2 else l.2
      some (0, unlockWrite env (setModule f i (fun m => { m with refcount := m.refcount - 1 })))

def _dl_default_module : List CStr := ["SceLibKernel".toList]

/-- The `for` loop of `dlsym` over the default modules, and what follows it. -/
def dlsym_default (env : Env) (symbol : CStr) : List CStr → State → Option (Nat × State)
  | [], s =>
    some (0, if s._dl_err then s
      else DLERR s ("Error: failed to find symbol ".toList ++ symbol
        ++ " in default modules\n".toList))
  | m :: ms, s =>
    match symbol_lookup env s m symbol with
    | none => none
    | some (ret, s1) => if ret ≠ 0 then some (ret, s1) else dlsym_default env symbol ms s1

/-- Function `dlsym`; the handle `none` is `RTLD_DEFAULT`. -/
def dlsym (env : Env) (s : State) (handle : Option dl_handle) (symbol : CStr) :
    Option (Nat × State) :=
  match handle with
  | none => dlsym_default env symbol _dl_default_module s
  | some h =>
    match symbol_lookup env s h.name symbol with
    | none => none
    | some (ret, s1) =>
      some (ret, if ret = 0 ∧ s1._dl_err = false
        then DLERR s1 ("Error: failed to find symbol ".toList ++ symbol ++ " in module ".toList
          ++ h.name ++ "\n".toList)
        else s1)

/-- The state before any call: no error, no module, empty log. The message
buffer is the zeroed one that `dlinit` allocates. -/
def State.init : State := ⟨false, [], [], []⟩

/-! ## Example environments -/

/-- An environment in which every call succeeds and every path opens on
`content`; the resolver yields the address `nid + 4096`. -/
def Env.ok (content : List Char) : Env where
  ret := fun _ c => match c with
    | .calloc => 1
    | _ => 0
  func := fun _ _ nid => nid + 4096
  fopen := fun _ => some content
  heap := []

/-- The text of a raw line up to its first NUL, CR or LF. -/
def cutLine (raw : List Char) : CStr :=
  raw.takeWhile (fun c => c ≠ NUL ∧ c ≠ '\r' ∧ c ≠ '\n')

/-- A raw line that the loop body of `dldbadd` rejects in every state: a `*`
line or a `#` line that `sscanf` cannot read in full. -/
def badLine (raw : List Char) : Prop :=
  ((cutLine raw).head? = some '*' ∧ sscanf_symbol (cutLine raw) = none) ∨
  ((cutLine raw).head? = some '#' ∧ sscanf_sid (cutLine raw) = none)

instance (raw : List Char) : Decidable (badLine raw) := by
  unfold badLine
  infer_instance

/-- The path used in the examples. -/
def db_path : CStr := "ux0:data/nid.db".toList

/-- A database with one file module, as `dldbadd` builds it from the empty
state. -/
def db_foo : State :=
  (dldbadd (Env.ok "$f foo.suprx\n*bar 0x0000AAAA\n".toList) State.init db_path).2

/-- The records of a state without what is not part of the claim at hand: the
names of the modules. -/
def moduleNames (s : State) : List CStr := s._dl_module_db.map (·.name)

/-- A database with one preloaded module. -/
def db_preloaded : State :=
  (dldbadd (Env.ok "$p SceLibKernel\n*sceKernelExitProcess 0x7595D9AA\n".toList)
    State.init db_path).2

/-- A database with one file module whose name has no extension. -/
def db_noext : State :=
  (dldbadd (Env.ok "$f foo\n*bar 0x0000AAAA\n".toList) State.init db_path).2

/-- A database with one file module given with its directory. -/
def db_dir : State :=
  (dldbadd (Env.ok "$f ux0:app/foo.suprx\n*bar 0x0000AAAA\n".toList) State.init db_path).2

/-- The calls of a log, without who made them and what they returned. -/
def calls (t : List Event) : List Call := t.map (·.call)

/-- A database with one file module that has the symbol `baz`. -/
def db_baz : State :=
  (dldbadd (Env.ok "$f foo.suprx\n*baz 0x00000003\n".toList) State.init db_path).2

/-- Whether a call is one of the two external loaders. -/
def Call.isLoad : Call → Bool
  | .sceKernelLoadStartModule _ => true
  | .sceSysmoduleLoadModule _ => true
  | _ => false

/-- Whether a call is one of the two external unloaders. -/
def Call.isUnload : Call → Bool
  | .sceKernelStopUnloadModule _ => true
  | .sceSysmoduleUnloadModule _ => true
  | _ => false

/-- The loader calls of a log. -/
def loads (t : List Event) : List Event := t.filter (fun e => e.call.isLoad)

/-- The unloader calls of a log. -/
def unloads (t : List Event) : List Event := t.filter (fun e => e.call.isUnload)

/-- A call of the caller on one module: `dlopen` of its name, or `dlclose` of a
handle that an earlier `dlopen` returned and that was not closed since. -/
inductive Op where
  | doOpen
  | doClose
deriving DecidableEq, Repr

/-- Run a sequence of calls on the module name `n`, every one of which has to
succeed, keeping the handles that are open: `dlopen` has to return a handle and
`dlclose` has to return 0 (`dlclose` takes the handle opened last). The result
is `none` when a call fails, or when a `dlclose` is asked for with no handle
open. -/
def run (env : Env) (n : CStr) : List Op → State → List dl_handle →
    Option (State × List dl_handle)
  | [], s, hs => some (s, hs)
  | .doOpen :: ops, s, hs =>
    match dlopen env s n with
    | (some h, s1) => run env n ops s1 (h :: hs)
    | (none, _) => none
  | .doClose :: ops, s, hs =>
    match hs with
    | [] => none
    | h :: hs1 =>
      match dlclose env s h with
      | some (r, s1) => if r = 0 then run env n ops s1 hs1 else none
      | none => none

/-- How often a counter that starts at `r` goes from 0 to 1 along a sequence of
calls, `doOpen` adding one and `doClose` taking one off. -/
def transitions01 : List Op → Nat → Nat
  | [], _ => 0
  | .doOpen :: ops, r => (if r = 0 then 1 else 0) + transitions01 ops (r + 1)
  | .doClose :: ops, r => transitions01 ops (r - 1)

/-- How often that counter goes from 1 to 0. -/
def transitions10 : List Op → Nat → Nat
  | [], _ => 0
  | .doOpen :: ops, r => transitions10 ops (r + 1)
  | .doClose :: ops, r => (if r = 1 then 1 else 0) + transitions10 ops (r - 1)

/-- The database of Scenario B: the system module `SceNet` with service 0x100. -/
def db_scenet : State :=
  (dldbadd (Env.ok "$s SceNet\n#0x00000100\n*sceNetInit 0x12345678\n".toList)
    State.init db_path).2

/-- The loader and unloader calls of a log. -/
def modEvents (t : List Event) : List Event :=
  t.filter (fun e => e.call.isLoad || e.call.isUnload)

/-- What `load_module`, `dlopen` and `dlclose` write to a record: the `uid`, and
the `refcount` moved by `d`. -/
def touch (u d : Int) (m : dl_module_info) : dl_module_info :=
  { m with uid := u, refcount := m.refcount + d }

/-- Whether `load_module` and `free_module` have a case for a module type. -/
def hasLoader (ty : Char) : Prop := ty = DL_MODULE_TYPE_FILE ∨ ty = DL_MODULE_TYPE_SYS

instance (ty : Char) : Decidable (hasLoader ty) := by
  unfold hasLoader
  infer_instance

/-- The ways a `dlopen` of the name `n` can go for a record of type `ty` and
refcount `rc`: the handle returned, the change of the refcount, and the loader
and unloader calls made. -/
inductive OpenOutcome (n : CStr) (ty : Char) (rc : Int) :
    Option dl_handle → Int → List Event → Prop where
  | reuse : rc ≠ 0 → OpenOutcome n ty rc (some ⟨n⟩) 1 []
  | load (c : Call) (ret : Int) : rc = 0 → hasLoader ty → c.isLoad = true → 0 ≤ ret →
      OpenOutcome n ty rc (some ⟨n⟩) 1 [⟨n, c, ret⟩]
  | refused : OpenOutcome n ty rc none 0 []
  | loadFailed (c : Call) (ret : Int) : rc = 0 → c.isLoad = true → ret < 0 →
      OpenOutcome n ty rc none 0 [⟨n, c, ret⟩]
  | rolledBack (c : Call) (ret : Int) (c' : Call) (ret' : Int) : rc = 0 → hasLoader ty →
      c.isLoad = true → 0 ≤ ret → c'.isUnload = true →
      OpenOutcome n ty rc none 0 [⟨n, c, ret⟩, ⟨n, c', ret'⟩]

/-- The ways a `dlclose` of a handle of the name `n` can go when the record is
found: the value returned, the change of the refcount, and the unloader call
made. -/
inductive CloseOutcome (n : CStr) (ty : Char) (rc : Int) : Int → Int → List Event → Prop where
  | refused : CloseOutcome n ty rc (-1) 0 []
  | last (c : Call) (ret : Int) : rc = 1 → hasLoader ty → c.isUnload = true →
      CloseOutcome n ty rc 0 (-1) [⟨n, c, ret⟩]
  | lastNoUnloader : rc = 1 → ¬ hasLoader ty → CloseOutcome n ty rc 0 (-1) []
  | notLast : rc ≠ 1 → CloseOutcome n ty rc 0 (-1) []

/-- The state and the open handles after `dlopen`, `dlclose`, `dlopen` of
`SceNet` on the database of Scenario B. -/
def scenet_after : State × List dl_handle :=
  (run (Env.ok []) "SceNet".toList [.doOpen, .doClose, .doOpen] db_scenet []).getD
    (db_scenet, [])

/-- Whether some unloader call made for the module `who` failed. -/
def unloadFailed (who : CStr) (t : List Event) : Bool :=
  t.any (fun e => decide (e.who = who) && e.call.isUnload && decide (e.ret < 0))

/-- A freshly populated database: every refcount is 0, and no loader call has
been made. -/
def Fresh (s : State) : Prop :=
  (∀ m ∈ s._dl_module_db, m.refcount = 0) ∧ loads s.trace = []

instance (s : State) : Decidable (Fresh s) := by
  unfold Fresh
  infer_instance

/-- The states that `dlopen` and `dlclose` calls reach from a freshly populated
database, with the handles that are open: `dlopen` of any name, and `dlclose` of
a handle that is open. A `dlclose` that returns -1 leaves its handle open. -/
inductive Reachable (env : Env) : State → List dl_handle → Prop where
  | fresh (s : State) : Fresh s → Reachable env s []
  | dlopen_some (s : State) (hs : List dl_handle) (n : CStr) (h : dl_handle) (s1 : State) :
      Reachable env s hs → dlopen env s n = (some h, s1) → Reachable env s1 (h :: hs)
  | dlopen_none (s : State) (hs : List dl_handle) (n : CStr) (s1 : State) :
      Reachable env s hs → dlopen env s n = (none, s1) → Reachable env s1 hs
  | dlclose (s : State) (hs : List dl_handle) (h : dl_handle) (r : Int) (s1 : State) :
      Reachable env s hs → h ∈ hs → dlclose env s h = some (r, s1) →
      Reachable env s1 (if r = 0 then hs.erase h else hs)

/-- A property of records that the writes of `dldbadd` keep: the added record
has it, and a record keeps it when its `sid` is set and when an entry of its
symbol table is replaced. -/
def KeptByAdd (P : dl_module_info → Prop) : Prop :=
  (∀ t name, P ⟨t, 0, 0, 0, name, []⟩) ∧
  (∀ m v, P m → P { m with sid := v }) ∧
  (∀ m e, P m → P { m with dl_symbols := (HASH_REPLACE_STR m.dl_symbols e).1 })

/-- An environment with a write lock that cannot be taken while it is held, and
in which every other call succeeds and every path opens on `content`. -/
def Env.noRelock (content : List Char) : Env where
  ret := fun t c => match c with
    | .calloc => 1
    | .sceKernelLockWriteRWLock =>
      if (t.filter (fun e => e.call = Call.sceKernelUnlockWriteRWLock)).length
          < (t.filter (fun e => e.call = Call.sceKernelLockWriteRWLock ∧ 0 ≤ e.ret)).length
      then -1 else 0
    | _ => 0
  func := fun _ _ nid => nid + 4096
  fopen := fun _ => some content
  heap := []

/-- A name as `%s` reads it back: not empty, without white space and NUL. -/
def isName (m : CStr) : Prop := m ≠ [] ∧ ∀ c ∈ m, isspace c = false ∧ c ≠ NUL

instance (m : CStr) : Decidable (isName m) := by
  unfold isName
  infer_instance

/-- The number that a string of hexadecimal digits writes. -/
def hexValue (ds : CStr) : Nat := ds.foldl (fun acc c => acc * 16 + (hexval c).getD 0) 0

/-- A string of hexadecimal digits, not empty. -/
def isHex (ds : CStr) : Prop := ds ≠ [] ∧ ∀ c ∈ ds, (hexval c).isSome = true

instance (ds : CStr) : Decidable (isHex ds) := by
  unfold isHex
  infer_instance

/-- The source with the two lines `$<k> <m>` and `*<s> 0x<ds>`. -/
def roundTripSource (k : Char) (m s ds : CStr) : List Char :=
  '$' :: k :: ' ' :: m ++ '\n' :: '*' :: s ++ ' ' :: '0' :: 'x' :: ds ++ ['\n']

/-- The state after `dlopen` of `foo.suprx` on the database `db_foo`, then
`dldbfreeall`: the handle is still in the hands of the caller, and the database
is empty. -/
def foo_torn_down : State :=
  (dldbfreeall (Env.ok []) (dlopen (Env.ok []) db_foo "foo.suprx".toList).2).2

/-- A name of 60 bytes. -/
def name60 : CStr := List.replicate 60 'a'

/-- A source with a module name and a symbol name of 60 bytes. -/
def source60 : List Char :=
  "$f ".toList ++ name60 ++ "\n*".toList ++ name60 ++ " 0x00000001\n".toList

/-- A database with the system module `SceNet`, which has been opened once, and
the file module `foo.suprx`, which has not. -/
def db_two : State :=
  (dlopen (Env.ok [])
    (dldbadd (Env.ok "$s SceNet\n#0x00000100\n$f foo.suprx\n*bar 0x0000AAAA\n".toList)
      State.init db_path).2 "SceNet".toList).2

/-- The refcounts against the handles that are open: the record that a name finds
has as refcount the number of open handles of that name, a record that its own
name does not find has refcount 0, and every open handle finds a record. -/
def RcInv (s : State) (hs : List dl_handle) : Prop :=
  (∀ k i, HASH_FIND_STR s._dl_module_db k = some i →
    (getModule s i).refcount = ((hs.count ⟨k⟩ : Nat) : Int)) ∧
  (∀ i, i < s._dl_module_db.length →
    HASH_FIND_STR s._dl_module_db (getModule s i).name ≠ some i →
    (getModule s i).refcount = 0) ∧
  (∀ h ∈ hs, HASH_FIND_STR s._dl_module_db h.name ≠ none)

/-- The name and the kind of every record, in the order of the table. -/
def kinds (s : State) : List (CStr × Char) :=
  s._dl_module_db.map (fun m => (m.name, m.type))

/-- The states that a sequence of `dldbadd`, `dlopen`, `dlclose` and `dlsym` calls
reaches from a state; a call that faults reaches none. -/
inductive Calls (env : Env) : State → State → Prop where
  | refl (s : State) : Calls env s s
  | dldbadd (s0 s : State) (path : CStr) : Calls env s0 s → Calls env s0 (dldbadd env s path).2
  | dlopen (s0 s : State) (n : CStr) : Calls env s0 s → Calls env s0 (dlopen env s n).2
  | dlclose (s0 s : State) (h : dl_handle) (r : Int) (s1 : State) :
      Calls env s0 s → dlclose env s h = some (r, s1) → Calls env s0 s1
  | dlsym (s0 s : State) (handle : Option dl_handle) (symbol : CStr) (r : Nat) (s1 : State) :
      Calls env s0 s → dlsym env s handle symbol = some (r, s1) → Calls env s0 s1

/-- The line buffer after `getline` stored a raw line and its newline was cut. -/
def lineBuffer (linebuf raw : List Char) : List Char :=
  putNUL (getline_store linebuf raw) (strcspn_crlf (getline_store linebuf raw))

/-- The database of `db_foo` after a second source that names `foo.suprx` again,
with the kind character `s`, and gives it a symbol and a SID. -/
def db_foo_reopened : State :=
  (dldbadd (Env.ok "$s foo.suprx\n*baz 0x0000BBBB\n#0x00000005\n".toList) db_foo db_path).2

/-- The database of `db_foo` after a second source whose `$` line names
`foo.suprx` again, with the kind character `s` and two blanks before the name,
and gives it a symbol. -/
def db_foo_twice : State :=
  (dldbadd (Env.ok "$s  foo.suprx\n*baz 0x0000BBBB\n".toList) db_foo db_path).2

/-- An environment in which the write lock is refused and every other call
succeeds. -/
def Env.lockRefused : Env where
  ret := fun _ c => match c with
    | .calloc => 1
    | .sceKernelLockWriteRWLock => -1
    | _ => 0
  func := fun _ _ nid => nid + 4096
  fopen := fun _ => none
  heap := []

/-- The digits of `%X` as the libraries of the BSD family read them: as
`scanMagnitude`, except that a `0x` that no digit follows is the number 0, with
the `x` left in the input. -/
def scanMagnitude_bsd (inp : CStr) : Option (Nat × CStr) :=
  match scanMagnitude inp with
  | some r => some r
  | none =>
    match inp with
    | c0 :: c1 :: rest =>
      if c0 = '0' ∧ (c1 = 'x' ∨ c1 = 'X') then some (0, c1 :: rest) else none
    | _ => none

/-- Conversion `%X` with the digits read as by `scanMagnitude_bsd`. -/
def scan_X_bsd (inp : CStr) : Option (Nat × CStr) :=
  match inp.dropWhile isspace with
  | [] => none
  | c :: cs =>
    if c = '-' then (scanMagnitude_bsd cs).map (fun r => (toU32 true r.1, r.2))
    else if c = '+' then (scanMagnitude_bsd cs).map (fun r => (toU32 false r.1, r.2))
    else (scanMagnitude_bsd (c :: cs)).map (fun r => (toU32 false r.1, r.2))

/-- The call `sscanf(linebuf, "#0x%X", &sid)` with `%X` read as by `scan_X_bsd`. -/
def sscanf_sid_bsd (line : CStr) : Option Nat :=
  (lit '#' line).bind fun r0 =>
  (lit '0' r0).bind fun r1 =>
  (lit 'x' r1).bind fun r2 =>
  (scan_X_bsd r2).map fun r => r.1

/-- The call `sscanf(linebuf, "*%s 0x%X", name, &nid)` with `%X` read as by
`scan_X_bsd`. -/
def sscanf_symbol_bsd (line : CStr) : Option (CStr × Nat) :=
  (lit '*' line).bind fun r0 =>
  (scan_s r0).bind fun t =>
  (lit '0' (skipSpace t.2)).bind fun r1 =>
  (lit 'x' r1).bind fun r2 =>
  (scan_X_bsd r2).map fun r => (t.1, r.1)

/-- A raw `*` line or `#` line that `sscanf` cannot read in full, under either
reading of a `0x` that no digit follows. -/
def unreadable (raw : List Char) : Prop :=
  ((cutLine raw).head? = some '*' ∧ sscanf_symbol_bsd (cutLine raw) = none) ∨
  ((cutLine raw).head? = some '#' ∧ sscanf_sid_bsd (cutLine raw) = none)

instance (raw : List Char) : Decidable (unreadable raw) := by
  unfold unreadable
  infer_instance

/-- A raw `$` line of three bytes or more that `sscanf` cannot read: nothing but
white space follows the kind character. -/
def unreadableModule (raw : List Char) : Prop :=
  (cutLine raw).head? = some '$' ∧ 3 ≤ (cutLine raw).length ∧
    sscanf_module (cutLine raw) = none

instance (raw : List Char) : Decidable (unreadableModule raw) := by
  unfold unreadableModule
  infer_instance

/-- A word, as `%s` stores it: not empty and without white space. -/
def isWord (name : CStr) : Prop := name ≠ [] ∧ ∀ c ∈ name, isspace c = false

instance (name : CStr) : Decidable (isWord name) := by
  unfold isWord
  infer_instance

/-- Every module name of the database is a word, as every name is that `dldbadd`
registers. -/
def Words (s : State) : Prop := ∀ m ∈ s._dl_module_db, isWord m.name

instance (s : State) : Decidable (Words s) := by
  unfold Words
  infer_instance

/-- The lines of a source have a `#` line or a `*` line before the first `$`
line. -/
def beforeModule (lines : List (List Char)) : Prop :=
  ∃ pre raw post, lines = pre ++ raw :: post ∧
    (∀ l ∈ pre, (cutLine l).head? ≠ some '$') ∧
    ((cutLine raw).head? = some '#' ∨ (cutLine raw).head? = some '*')

theorem takeWhile_append_NUL (raw tail : List Char) :
    (raw ++ NUL :: tail).takeWhile (fun c => c ≠ NUL ∧ c ≠ '\r' ∧ c ≠ '\n')
      = raw.takeWhile (fun c => c ≠ NUL ∧ c ≠ '\r' ∧ c ≠ '\n') := by
  induction raw with
  | nil => simp
  | cons c cs ih =>
    by_cases h : c ≠ NUL ∧ c ≠ '\r' ∧ c ≠ '\n'
    · simp only [List.cons_append, List.takeWhile_cons, h, decide_True, and_self, if_true, ih]
    · simp only [List.cons_append, List.takeWhile_cons, h, decide_False, if_false]
      simp

theorem takeWhile_putNUL (l : List Char) :
    (putNUL l (l.takeWhile (fun c => c ≠ NUL ∧ c ≠ '\r' ∧ c ≠ '\n')).length).takeWhile
        (fun c => c ≠ NUL)
      = l.takeWhile (fun c => c ≠ NUL ∧ c ≠ '\r' ∧ c ≠ '\n') := by
  induction l with
  | nil => simp [putNUL]
  | cons c cs ih =>
    by_cases h : c ≠ NUL ∧ c ≠ '\r' ∧ c ≠ '\n'
    · simp [List.takeWhile_cons, h, putNUL]
      simpa using ih
    · simp [List.takeWhile_cons, h, putNUL]

/-- The line that the loop body sees is the raw line cut at its first NUL, CR
or LF, whatever the buffer held before. -/
theorem cstrAt_stored (old raw : List Char) :
    cstrAt (putNUL (getline_store old raw) (strcspn_crlf (getline_store old raw))) 0
      = cutLine raw := by
  unfold cstrAt strcspn_crlf
  rw [List.drop_zero, takeWhile_putNUL]
  unfold getline_store cutLine
  exact takeWhile_append_NUL raw _

theorem takeWhile_append_stop (p : Char → Bool) (l rest : List Char) (c : Char)
    (hl : ∀ x ∈ l, p x = true) (hc : p c = false) :
    (l ++ c :: rest).takeWhile p = l := by
  induction l with
  | nil => simp [List.takeWhile_cons, hc]
  | cons x l ih =>
    have hx : p x = true := hl x (List.mem_cons_self _ _)
    simp only [List.cons_append, List.takeWhile_cons, hx, if_true]
    rw [ih (fun y hy => hl y (List.mem_cons_of_mem _ hy))]

theorem takeWhile_all (p : Char → Bool) (l : List Char) (hl : ∀ x ∈ l, p x = true) :
    l.takeWhile p = l := by
  induction l with
  | nil => rfl
  | cons x l ih =>
    have hx : p x = true := hl x (List.mem_cons_self _ _)
    simp only [List.takeWhile_cons, hx, if_true]
    rw [ih (fun y hy => hl y (List.mem_cons_of_mem _ hy))]

theorem dropWhile_append_stop (p : Char → Bool) (l rest : List Char) (c : Char)
    (hl : ∀ x ∈ l, p x = true) (hc : p c = false) :
    (l ++ c :: rest).dropWhile p = c :: rest := by
  induction l with
  | nil => simp [List.dropWhile_cons, hc]
  | cons x l ih =>
    have hx : p x = true := hl x (List.mem_cons_self _ _)
    simp only [List.cons_append, List.dropWhile_cons, hx, if_true]
    rw [ih (fun y hy => hl y (List.mem_cons_of_mem _ hy))]

theorem dropWhile_all (p : Char → Bool) (l : List Char) (hl : ∀ x ∈ l, p x = true) :
    l.dropWhile p = [] := by
  induction l with
  | nil => rfl
  | cons x l ih =>
    have hx : p x = true := hl x (List.mem_cons_self _ _)
    simp only [List.dropWhile_cons, hx, if_true]
    rw [ih (fun y hy => hl y (List.mem_cons_of_mem _ hy))]

theorem putNUL_append (l rest : List Char) (c : Char) :
    putNUL (l ++ c :: rest) l.length = l ++ NUL :: rest := by
  induction l with
  | nil => rfl
  | cons x l ih => simp [putNUL, ih]

/-- The text that the loop body sees `off` bytes into the buffer of a line that
ends with its newline, when the line has no NUL, CR or LF before it. -/
theorem cstrAt_stored_off (old line : List Char) (off : Nat)
    (hline : ∀ c ∈ line, c ≠ NUL ∧ c ≠ '\r' ∧ c ≠ '\n') (hoff : off ≤ line.length) :
    cstrAt (putNUL (getline_store old (line ++ ['\n']))
      (strcspn_crlf (getline_store old (line ++ ['\n'])))) off = line.drop off := by
  have hstore : getline_store old (line ++ ['\n'])
      = line ++ '\n' :: NUL :: old.drop ((line ++ ['\n']).length + 1) := by
    simp [getline_store]
  have hlen : strcspn_crlf (getline_store old (line ++ ['\n'])) = line.length := by
    unfold strcspn_crlf
    rw [hstore, takeWhile_append_stop _ line _ '\n' (fun x hx => by simpa using hline x hx)
      (by decide)]
  rw [hlen, hstore, putNUL_append]
  unfold cstrAt
  rw [List.drop_append_of_le_length hoff]
  exact takeWhile_append_stop _ _ _ NUL
    (fun x hx => by simpa using (hline x (List.mem_of_mem_drop hx)).1) (by decide)

theorem getlines_line (l rest : List Char) (h : ∀ c ∈ l, c ≠ '\n') :
    ∀ acc, getlines (l ++ '\n' :: rest) acc = (acc.reverse ++ l ++ ['\n']) :: getlines rest [] := by
  induction l with
  | nil => intro acc; simp [getlines]
  | cons c l ih =>
    intro acc
    have hc : c ≠ '\n' := h c (List.mem_cons_self _ _)
    have := ih (fun x hx => h x (List.mem_cons_of_mem _ hx)) (c :: acc)
    rw [List.cons_append, getlines, if_neg hc, this]
    simp

/-! ## Record pointers and tables -/

theorem updateAt_map {β : Type} (g : dl_module_info → β) (f : dl_module_info → dl_module_info)
    (hf : ∀ m, g (f m) = g m) (db : List dl_module_info) :
    ∀ i, (updateAt f db i).map g = db.map g := by
  induction db with
  | nil => intro i; rfl
  | cons m ms ih =>
    intro i
    cases i with
    | zero => simp [updateAt, hf]
    | succ i => simp [updateAt, ih]

theorem recordAt_updateAt (f : dl_module_info → dl_module_info) (db : List dl_module_info) :
    ∀ i j, recordAt (updateAt f db i) j
      = if j = i ∧ i < db.length then f (recordAt db i) else recordAt db j := by
  induction db with
  | nil => intro i j; simp [updateAt, recordAt]
  | cons m ms ih =>
    intro i j
    cases i with
    | zero =>
      cases j with
      | zero => simp [updateAt, recordAt]
      | succ j => simp [updateAt, recordAt]
    | succ i =>
      cases j with
      | zero => simp [updateAt, recordAt]
      | succ j => simp [updateAt, recordAt, ih]

theorem updateAt_length_eq (f : dl_module_info → dl_module_info) (db : List dl_module_info) :
    ∀ i, (updateAt f db i).length = db.length := by
  induction db with
  | nil => intro i; rfl
  | cons m ms ih =>
    intro i
    cases i with
    | zero => rfl
    | succ i => simp [updateAt, ih i]

theorem updateAt_congr (f g : dl_module_info → dl_module_info) (db : List dl_module_info) :
    ∀ i, f (recordAt db i) = g (recordAt db i) → updateAt f db i = updateAt g db i := by
  induction db with
  | nil => intro i _; rfl
  | cons m ms ih =>
    intro i h
    cases i with
    | zero => simp only [updateAt]; simp only [recordAt] at h; rw [h]
    | succ i => simp only [updateAt]; simp only [recordAt] at h; rw [ih i h]

theorem updateAt_updateAt (f g : dl_module_info → dl_module_info) (db : List dl_module_info) :
    ∀ i, updateAt g (updateAt f db i) i = updateAt (fun m => g (f m)) db i := by
  induction db with
  | nil => intro i; rfl
  | cons m ms ih =>
    intro i
    cases i with
    | zero => rfl
    | succ i => simp [updateAt, ih]

theorem updateAt_self (f : dl_module_info → dl_module_info) (db : List dl_module_info) :
    ∀ i, f (recordAt db i) = recordAt db i → updateAt f db i = db := by
  induction db with
  | nil => intro i _; rfl
  | cons m ms ih =>
    intro i h
    cases i with
    | zero => simp only [updateAt]; simp only [recordAt] at h; rw [h]
    | succ i => simp only [updateAt]; simp only [recordAt] at h; rw [ih i h]

theorem mem_updateAt (f : dl_module_info → dl_module_info) (db : List dl_module_info) :
    ∀ i m, m ∈ updateAt f db i → m ∈ db ∨ ∃ m0 ∈ db, m = f m0 := by
  induction db with
  | nil => intro i m h; simp [updateAt] at h
  | cons a as ih =>
    intro i m h
    cases i with
    | zero =>
      simp only [updateAt, List.mem_cons] at h
      rcases h with rfl | h
      · exact Or.inr ⟨a, List.mem_cons_self _ _, rfl⟩
      · exact Or.inl (List.mem_cons_of_mem _ h)
    | succ i =>
      simp only [updateAt, List.mem_cons] at h
      rcases h with rfl | h
      · exact Or.inl (List.mem_cons_self _ _)
      · rcases ih i m h with h | ⟨m0, h0, rfl⟩
        · exact Or.inl (List.mem_cons_of_mem _ h)
        · exact Or.inr ⟨m0, List.mem_cons_of_mem _ h0, rfl⟩

theorem forall_updateAt (P : dl_module_info → Prop) (f : dl_module_info → dl_module_info)
    (hf : ∀ m, P m → P (f m)) (db : List dl_module_info) (i : Nat) (h : ∀ m ∈ db, P m) :
    ∀ m ∈ updateAt f db i, P m := by
  intro m hm
  rcases mem_updateAt f db i m hm with h1 | ⟨m0, h0, rfl⟩
  · exact h m h1
  · exact hf m0 (h m0 h0)

theorem recordAt_mem (db : List dl_module_info) :
    ∀ i, i < db.length → recordAt db i ∈ db := by
  induction db with
  | nil => intro i h; simp at h
  | cons m ms ih =>
    intro i h
    cases i with
    | zero => simp [recordAt]
    | succ i =>
      simp only [recordAt]
      exact List.mem_cons_of_mem _ (ih i (by simpa using h))

theorem HASH_FIND_STR_updateAt (f : dl_module_info → dl_module_info)
    (hf : ∀ m, (f m).name = m.name) (db : List dl_module_info) (key : CStr) :
    ∀ i, HASH_FIND_STR (updateAt f db i) key = HASH_FIND_STR db key := by
  induction db with
  | nil => intro i; rfl
  | cons m ms ih =>
    intro i
    cases i with
    | zero => simp [updateAt, HASH_FIND_STR, hf]
    | succ i => simp [updateAt, HASH_FIND_STR, ih]

/-- What `HASH_FIND_STR` finds is a record of the table, and its name is the key. -/
theorem HASH_FIND_STR_some (db : List dl_module_info) (key : CStr) :
    ∀ i, HASH_FIND_STR db key = some i → i < db.length ∧ (recordAt db i).name = key := by
  induction db with
  | nil => intro i h; simp [HASH_FIND_STR] at h
  | cons m ms ih =>
    intro i h
    unfold HASH_FIND_STR at h
    by_cases hm : m.name = key
    · simp [hm] at h
      subst h
      simp [hm, recordAt]
    · simp only [hm, if_false, Option.map_eq_some'] at h
      obtain ⟨j, hj, rfl⟩ := h
      have := ih j hj
      simp [this.1, this.2, recordAt]

theorem HASH_FIND_STR_inj (db : List dl_module_info) (k n : CStr) (i : Nat)
    (hk : HASH_FIND_STR db k = some i) (hn : HASH_FIND_STR db n = some i) : k = n := by
  rw [← (HASH_FIND_STR_some db k i hk).2, ← (HASH_FIND_STR_some db n i hn).2]

/-- The writes of `dlopen` and `dlclose` keep every name where it is. -/
theorem HASH_FIND_STR_touch (db : List dl_module_info) (u d : Int) (i : Nat) (key : CStr) :
    HASH_FIND_STR (updateAt (touch u d) db i) key = HASH_FIND_STR db key :=
  HASH_FIND_STR_updateAt (touch u d) (fun _ => rfl) db key i

/-- In a table without two entries of one name, deleting the entry of a name
leaves the entries of the other names. -/
theorem HASH_DEL_SYM_eq_filter (tbl : List dl_symbol_info) (key : CStr)
    (h : (tbl.map (·.name)).Nodup) :
    HASH_DEL_SYM tbl key = tbl.filter (fun e => e.name ≠ key) := by
  induction tbl with
  | nil => rfl
  | cons e es ih =>
    rw [List.map_cons, List.nodup_cons] at h
    unfold HASH_DEL_SYM
    by_cases he : e.name = key
    · have hall : ∀ x ∈ es, x.name ≠ key := by
        intro x hx hxk
        exact h.1 (List.mem_map.mpr ⟨x, hx, by rw [hxk, he]⟩)
      simp only [he, if_true, ne_eq, not_true_eq_false, decide_False, List.filter_cons_of_neg,
        Bool.false_eq_true, not_false_eq_true]
      symm
      rw [List.filter_eq_self]
      intro x hx
      simpa using hall x hx
    · simp [he, ih h.2]

/-- Replacing the entry of a name twice leaves the entries of the other names
and the second entry. -/
theorem HASH_DEL_SYM_twice (tbl : List dl_symbol_info) (key : CStr) (v1 v2 : Nat)
    (h : (tbl.map (·.name)).Nodup) :
    HASH_DEL_SYM (HASH_DEL_SYM tbl key ++ [⟨key, v1⟩]) key ++ [⟨key, v2⟩]
      = tbl.filter (fun e => e.name ≠ key) ++ [⟨key, v2⟩] := by
  rw [HASH_DEL_SYM_eq_filter tbl key h]
  have hnd : (((tbl.filter (fun e => e.name ≠ key) ++ [⟨key, v1⟩] : List dl_symbol_info)).map
      (fun e => e.name)).Nodup := by
    rw [List.map_append, List.nodup_append]
    refine ⟨(h.sublist ((List.filter_sublist tbl).map _)), by simp, ?_⟩
    intro a ha hb
    simp only [List.map_cons, List.map_nil, List.mem_singleton] at hb
    subst hb
    obtain ⟨e, he, hek⟩ := List.mem_map.mp ha
    have := (List.mem_filter.mp he).2
    simp [hek] at this
  rw [HASH_DEL_SYM_eq_filter _ key hnd]
  simp [List.filter_append, List.filter_filter]

/-! ## The state and the log -/

@[simp] theorem sys_db (env : Env) (s : State) (who : CStr) (c : Call) :
    (sys env s who c).2._dl_module_db = s._dl_module_db := rfl

@[simp] theorem DLERR_db (s : State) (msg : CStr) :
    (DLERR s msg)._dl_module_db = s._dl_module_db := rfl

@[simp] theorem unlockWrite_db (env : Env) (s : State) :
    (unlockWrite env s)._dl_module_db = s._dl_module_db := rfl

@[simp] theorem sys_fst (env : Env) (s : State) (who : CStr) (c : Call) :
    (sys env s who c).1 = env.ret s.trace c := rfl

theorem sys_trace (env : Env) (s : State) (who : CStr) (c : Call) :
    (sys env s who c).2.trace = s.trace ++ [⟨who, c, env.ret s.trace c⟩] := rfl

@[simp] theorem DLERR_trace (s : State) (msg : CStr) : (DLERR s msg).trace = s.trace := rfl

@[simp] theorem setModule_trace (s : State) (i : Nat) (f : dl_module_info → dl_module_info) :
    (setModule s i f).trace = s.trace := rfl

@[simp] theorem setModule_db (s : State) (i : Nat) (f : dl_module_info → dl_module_info) :
    (setModule s i f)._dl_module_db = updateAt f s._dl_module_db i := rfl

theorem unlockWrite_trace (env : Env) (s : State) :
    (unlockWrite env s).trace = s.trace
      ++ [⟨[], Call.sceKernelUnlockWriteRWLock,
          env.ret s.trace Call.sceKernelUnlockWriteRWLock⟩] := rfl

@[simp] theorem getModule_sys (env : Env) (s : State) (who : CStr) (c : Call) (i : Nat) :
    getModule (sys env s who c).2 i = getModule s i := rfl

@[simp] theorem getModule_DLERR (s : State) (msg : CStr) (i : Nat) :
    getModule (DLERR s msg) i = getModule s i := rfl

@[simp] theorem getModule_unlockWrite (env : Env) (s : State) (i : Nat) :
    getModule (unlockWrite env s) i = getModule s i := rfl

@[simp] theorem free_module_db (env : Env) (s : State) (m : dl_module_info) :
    (free_module env s m).2._dl_module_db = s._dl_module_db := by
  unfold free_module
  split_ifs <;> rfl

theorem getModule_touch (s s1 : State) (i : Nat) (u d : Int)
    (h : s1._dl_module_db = updateAt (touch u d) s._dl_module_db i)
    (hi : i < s._dl_module_db.length) : getModule s1 i = touch u d (getModule s i) := by
  simp [getModule, h, recordAt_updateAt, hi]

theorem getModule_type_touch (s s1 : State) (i : Nat) (u d : Int)
    (h : s1._dl_module_db = updateAt (touch u d) s._dl_module_db i)
    (hi : i < s._dl_module_db.length) :
    (getModule s1 i).type = (getModule s i).type ∧
    (getModule s1 i).refcount = (getModule s i).refcount + d := by
  rw [getModule_touch s s1 i u d h hi]
  exact ⟨rfl, rfl⟩

@[simp] theorem loads_append (t u : List Event) : loads (t ++ u) = loads t ++ loads u := by
  simp [loads]

@[simp] theorem unloads_append (t u : List Event) : unloads (t ++ u) = unloads t ++ unloads u := by
  simp [unloads]

@[simp] theorem modEvents_append (t u : List Event) :
    modEvents (t ++ u) = modEvents t ++ modEvents u := by
  simp [modEvents]

@[simp] theorem modEvents_lockWrite (env : Env) (s : State) :
    modEvents (sys env s [] Call.sceKernelLockWriteRWLock).2.trace = modEvents s.trace := by
  simp [modEvents, Call.isLoad, Call.isUnload, sys_trace]

@[simp] theorem modEvents_calloc (env : Env) (s : State) :
    modEvents (sys env s [] Call.calloc).2.trace = modEvents s.trace := by
  simp [modEvents, Call.isLoad, Call.isUnload, sys_trace]

@[simp] theorem modEvents_unlockWrite (env : Env) (s : State) :
    modEvents (unlockWrite env s).trace = modEvents s.trace := by
  simp [modEvents, Call.isLoad, Call.isUnload, unlockWrite_trace]

@[simp] theorem modEvents_DLERR (s : State) (msg : CStr) :
    modEvents (DLERR s msg).trace = modEvents s.trace := rfl

@[simp] theorem modEvents_setModule (s : State) (i : Nat) (f : dl_module_info → dl_module_info) :
    modEvents (setModule s i f).trace = modEvents s.trace := rfl

@[simp] theorem modEvents_one_lockWrite (who : CStr) (r : Int) :
    modEvents [⟨who, Call.sceKernelLockWriteRWLock, r⟩] = [] := rfl

@[simp] theorem modEvents_one_unlockWrite (who : CStr) (r : Int) :
    modEvents [⟨who, Call.sceKernelUnlockWriteRWLock, r⟩] = [] := rfl

@[simp] theorem modEvents_one_calloc (who : CStr) (r : Int) :
    modEvents [⟨who, Call.calloc, r⟩] = [] := rfl

theorem loads_eq (t : List Event) : loads t = (modEvents t).filter (fun e => e.call.isLoad) := by
  simp only [loads, modEvents, List.filter_filter]
  congr 1
  funext e
  cases e.call.isLoad <;> simp

theorem unloads_eq (t : List Event) :
    unloads t = (modEvents t).filter (fun e => e.call.isUnload) := by
  simp only [unloads, modEvents, List.filter_filter]
  congr 1
  funext e
  cases e.call.isUnload <;> simp

theorem isLoad_not_isUnload (c : Call) (h : c.isLoad = true) : c.isUnload = false := by
  cases c <;> simp_all [Call.isLoad, Call.isUnload]

theorem isUnload_not_isLoad (c : Call) (h : c.isUnload = true) : c.isLoad = false := by
  cases c <;> simp_all [Call.isLoad, Call.isUnload]

/-! ## What `sscanf` reads -/

theorem hexval_not_space (c : Char) (h : (hexval c).isSome = true) :
    isspace c = false ∧ c ≠ '-' ∧ c ≠ '+' ∧ c ≠ 'x' ∧ c ≠ 'X' ∧
    c ≠ NUL ∧ c ≠ '\r' ∧ c ≠ '\n' := by
  refine ⟨?_, ?_, ?_, ?_, ?_, ?_, ?_, ?_⟩
  · by_contra hs
    simp only [Bool.not_eq_false, isspace, Bool.or_eq_true, decide_eq_true_eq] at hs
    rcases hs with ((((rfl | rfl) | rfl) | rfl) | rfl) | rfl <;> exact absurd h (by decide)
  all_goals (intro hc; subst hc; exact absurd h (by decide))

theorem scanDigits_hex (ds : CStr) (h : ∀ c ∈ ds, (hexval c).isSome = true) :
    ∀ acc n, scanDigits ds acc n
      = (ds.foldl (fun acc c => acc * 16 + (hexval c).getD 0) acc, n + ds.length, []) := by
  induction ds with
  | nil => intro acc n; rfl
  | cons c ds ih =>
    intro acc n
    have hc := h c (List.mem_cons_self _ _)
    obtain ⟨d, hd⟩ := Option.isSome_iff_exists.mp hc
    simp only [scanDigits, hd, List.foldl_cons, Option.getD_some, List.length_cons]
    rw [ih (fun x hx => h x (List.mem_cons_of_mem _ hx))]
    simp [Nat.add_assoc, Nat.add_comm 1]

/-- Conversion `%X` reads a string of hexadecimal digits that writes a number
below 2^32 as that number. -/
theorem scan_X_hex (ds : CStr) (hds : isHex ds) (hv : hexValue ds < 2 ^ 32) :
    scan_X ds = some (hexValue ds, []) := by
  obtain ⟨hne, hall⟩ := hds
  cases ds with
  | nil => exact absurd rfl hne
  | cons c cs =>
    obtain ⟨hsp, hm, hp, -⟩ := hexval_not_space c (hall c (List.mem_cons_self _ _))
    have hbody : scanMagnitude (c :: cs) = some (hexValue (c :: cs), []) := by
      have hsd := scanDigits_hex (c :: cs) hall 0 0
      cases cs with
      | nil =>
        simp only [scanMagnitude]
        rw [hsd]
        simp [hexValue]
      | cons c1 rest =>
        obtain ⟨-, -, -, hx, hX, -⟩ := hexval_not_space c1
          (hall c1 (List.mem_cons_of_mem _ (List.mem_cons_self _ _)))
        simp only [scanMagnitude, hx, hX, or_self, and_false, if_false]
        rw [hsd]
        simp [hexValue]
    unfold scan_X
    have hv' : ¬ 2 ^ 32 ≤ hexValue (c :: cs) := Nat.not_le.mpr hv
    simp only [List.dropWhile_cons, hsp, Bool.false_eq_true, if_false, hm, hp, hbody,
      Option.map_some', toU32, hv']

theorem dropWhile_isspace_name (m rest : CStr) (hm : isName m) :
    (m ++ rest).dropWhile isspace = m ++ rest := by
  obtain ⟨hne, hall⟩ := hm
  cases m with
  | nil => exact absurd rfl hne
  | cons c cs =>
    have hc : isspace c = false := (hall c (List.mem_cons_self _ _)).1
    simp only [List.cons_append, List.dropWhile_cons, hc, Bool.false_eq_true, if_false]

/-- Conversion `%s` reads a name back, up to the white space or the end that
follows it. -/
theorem scan_s_name (m rest : CStr) (hm : isName m)
    (hrest : rest = [] ∨ ∃ c r, rest = c :: r ∧ isspace c = true) :
    scan_s (m ++ rest) = some (m, rest) := by
  have hns : ∀ x ∈ m, (!isspace x) = true := by
    intro x hx
    simp [(hm.2 x hx).1]
  have h1 := dropWhile_isspace_name m rest hm
  have h2 : (m ++ rest).takeWhile (fun c => !isspace c) = m := by
    rcases hrest with rfl | ⟨d, r, rfl, hd⟩
    · rw [List.append_nil, takeWhile_all _ _ hns]
    · exact takeWhile_append_stop _ _ _ d hns (by simp [hd])
  have h3 : (m ++ rest).dropWhile (fun c => !isspace c) = rest := by
    rcases hrest with rfl | ⟨d, r, rfl, hd⟩
    · rw [List.append_nil, dropWhile_all _ _ hns]
    · exact dropWhile_append_stop _ _ _ d hns (by simp [hd])
  unfold scan_s
  simp only [h1, h2, h3]
  cases m with
  | nil => exact absurd rfl hm.1
  | cons c cs => rfl

/-- The call `sscanf(linebuf, "$%c %s", ...)` on the line `$<k> <m>`. -/
theorem sscanf_module_line (k : Char) (m : CStr) (hm : isName m) :
    sscanf_module ('$' :: k :: ' ' :: m) = some (k, m) := by
  have h0 := dropWhile_isspace_name m [] hm
  rw [List.append_nil] at h0
  have hskip : skipSpace (' ' :: m) = m := by
    simp only [skipSpace, List.dropWhile_cons, (by decide : isspace ' ' = true), if_true, h0]
  have hs := scan_s_name m [] hm (Or.inl rfl)
  rw [List.append_nil] at hs
  simp only [sscanf_module, lit, if_true, Option.bind, scan_c, hskip, hs, Option.map]

/-- The call `sscanf(linebuf, "*%s 0x%X", ...)` on the line `*<s> 0x<ds>`. -/
theorem sscanf_symbol_line (s ds : CStr) (hs : isName s) (hds : isHex ds)
    (hv : hexValue ds < 2 ^ 32) :
    sscanf_symbol ('*' :: s ++ ' ' :: '0' :: 'x' :: ds) = some (s, hexValue ds) := by
  have h1 := scan_s_name s (' ' :: '0' :: 'x' :: ds) hs (Or.inr ⟨' ', _, rfl, by decide⟩)
  have h2 : skipSpace (' ' :: '0' :: 'x' :: ds) = '0' :: 'x' :: ds := by
    simp only [skipSpace, List.dropWhile_cons, (by decide : isspace ' ' = true), if_true,
      (by decide : isspace '0' = false), Bool.false_eq_true, if_false]
  simp only [sscanf_symbol, List.cons_append, lit, if_true, Option.bind, h1, h2,
    scan_X_hex ds hds hv, Option.map]

/-! ## The loop of `dldbadd` and `dldbfreeall` -/

/-- The loop of `dldbfreeall` run over the whole table leaves no record. -/
theorem dldbfreeall_loop_db (env : Env) (ms : List dl_module_info) :
    ∀ s : State, s._dl_module_db = ms → (dldbfreeall_loop env ms s)._dl_module_db = [] := by
  induction ms with
  | nil => intro s h; simpa [dldbfreeall_loop] using h
  | cons m ms ih => intro s _; exact ih _ rfl

/-- When it gets the lock, `dldbfreeall` leaves no record. -/
theorem dldbfreeall_db (env : Env) (s : State)
    (h : 0 ≤ env.ret s.trace .sceKernelLockWriteRWLock) :
    (dldbfreeall env s).2._dl_module_db = [] := by
  have h1 : ¬ (sys env s [] .sceKernelLockWriteRWLock).1 < 0 := by
    simpa [sys] using h
  simp only [dldbfreeall, h1, if_false, unlockWrite_db]
  exact dldbfreeall_loop_db env _ _ rfl

/-- A bad line sets `failed`, whatever the state and the current module. -/
theorem dldbadd_line_bad (env : Env) (path : CStr) (n : Nat) (old raw : List Char)
    (s : State) (cur : Option Nat) (hbad : badLine raw) :
    (dldbadd_line env path n
      (putNUL (getline_store old raw) (strcspn_crlf (getline_store old raw))) s cur).1 = true := by
  unfold dldbadd_line
  rw [cstrAt_stored]
  rcases hbad with ⟨hh, hp⟩ | ⟨hh, hp⟩
  · have h1 : ¬ ((some '*' : Option Char) = some '#') := by decide
    simp only [hh, h1, if_true, if_false, hp]
    cases cur with
    | none => rfl
    | some i =>
      simp only []
      split_ifs <;> rfl
  · simp only [hh, if_true, hp]
    cases cur <;> rfl

/-- A source with a bad line anywhere makes the loop of `dldbadd` set `failed`. -/
theorem dldbadd_loop_bad (env : Env) (path : CStr) (lines : List (List Char)) :
    ∀ (buf : List Char) (n : Nat) (s : State) (cur : Option Nat),
      (∃ raw ∈ lines, badLine raw) → (dldbadd_loop env path lines buf n s cur).1 = true := by
  induction lines with
  | nil => intro _ _ _ _ h; simp at h
  | cons raw rest ih =>
    intro buf n s cur h
    unfold dldbadd_loop
    simp only []
    generalize hstep : dldbadd_line env path n
      (putNUL (getline_store buf raw) (strcspn_crlf (getline_store buf raw))) s cur = step
    obtain ⟨failed, s1, cur1⟩ := step
    cases failed with
    | true => rfl
    | false =>
      simp only []
      apply ih
      obtain ⟨r, hr, hb⟩ := h
      rcases List.mem_cons.mp hr with rfl | hr
      · have := dldbadd_line_bad env path n buf r s cur hb
        rw [hstep] at this
        simp at this
      · exact ⟨r, hr, hb⟩

/-- The loop body on a `*` line that `sscanf` reads in full, with a current
module and memory for the entry: `failed` stays clear, the current module stays,
and its table gets the entry through `HASH_REPLACE_STR`. -/
theorem dldbadd_line_symbol (env : Env) (path : CStr) (n : Nat) (buf : List Char) (s : State)
    (i : Nat) (name : CStr) (nid : Nat)
    (hstar : (cstrAt buf 0).head? = some '*')
    (hscan : sscanf_symbol (cstrAt buf 0) = some (name, nid))
    (hmem : env.ret s.trace Call.calloc ≠ 0) :
    (dldbadd_line env path n buf s (some i)).1 = false ∧
    (dldbadd_line env path n buf s (some i)).2.2 = some i ∧
    (dldbadd_line env path n buf s (some i)).2.1._dl_module_db
      = updateAt (fun m => { m with dl_symbols := HASH_DEL_SYM m.dl_symbols name ++ [⟨name, nid⟩] })
          s._dl_module_db i := by
  have h1 : ¬ ((some '*' : Option Char) = some '#') := by decide
  have h2 : ¬ (sys env s [] Call.calloc).1 = 0 := hmem
  have h3 : updateAt (fun m => { m with dl_symbols :=
        (HASH_REPLACE_STR (getModule s i).dl_symbols ⟨name, nid⟩).1 })
        s._dl_module_db i
      = updateAt (fun m => { m with dl_symbols := HASH_DEL_SYM m.dl_symbols name ++ [⟨name, nid⟩] })
          s._dl_module_db i := by
    apply updateAt_congr
    rfl
  unfold dldbadd_line
  simp only [hstar, h1, if_true, if_false, hscan, h2]
  split <;> simp [setModule, h3]

/-- The loop body on a `$` line that `sscanf` reads in full and whose text from
the fourth byte on is no registered name, with memory for the record: `failed`
stays clear, and the record is added and becomes the current module. -/
theorem dldbadd_line_module (env : Env) (path : CStr) (n : Nat) (buf : List Char) (s : State)
    (cur : Option Nat) (t : Char) (name : CStr)
    (hdollar : (cstrAt buf 0).head? = some '$')
    (hfind : HASH_FIND_STR s._dl_module_db (cstrAt buf 3) = none)
    (hscan : sscanf_module (cstrAt buf 0) = some (t, name))
    (hmem : env.ret s.trace Call.calloc ≠ 0) :
    (dldbadd_line env path n buf s cur).1 = false ∧
    (dldbadd_line env path n buf s cur).2.2 = some s._dl_module_db.length ∧
    (dldbadd_line env path n buf s cur).2.1._dl_module_db
      = s._dl_module_db ++ [⟨t, 0, 0, 0, name, []⟩] := by
  have h1 : ¬ ((some '$' : Option Char) = some '#') := by decide
  have h2 : ¬ ((some '$' : Option Char) = some '*') := by decide
  have h3 : ¬ (sys env s [] Call.calloc).1 = 0 := hmem
  unfold dldbadd_line
  simp only [hdollar, h1, h2, if_true, if_false, hfind, hscan, h3]
  simp

/-- The loop body of `dldbadd` keeps a property of all records that its writes
keep, and makes no loader call. -/
theorem dldbadd_line_keeps (P : dl_module_info → Prop) (hP : KeptByAdd P) (env : Env)
    (path : CStr) (n : Nat) (buf : List Char) (s : State) (cur : Option Nat)
    (h : ∀ m ∈ s._dl_module_db, P m) :
    (∀ m ∈ (dldbadd_line env path n buf s cur).2.1._dl_module_db, P m) ∧
    loads (dldbadd_line env path n buf s cur).2.1.trace = loads s.trace := by
  obtain ⟨hnew, hsid, hsym⟩ := hP
  have hcalloc : loads (sys env s [] Call.calloc).2.trace = loads s.trace := by
    simp [loads, sys_trace, Call.isLoad]
  unfold dldbadd_line
  simp only []
  by_cases h1 : (cstrAt buf 0).head? = some '#'
  · rw [if_pos h1]
    cases cur with
    | none => exact ⟨h, rfl⟩
    | some i =>
      cases sscanf_sid (cstrAt buf 0) with
      | none => exact ⟨h, rfl⟩
      | some v => exact ⟨forall_updateAt P _ (fun m hm => hsid m v hm) _ i h, rfl⟩
  rw [if_neg h1]
  by_cases h2 : (cstrAt buf 0).head? = some '*'
  · rw [if_pos h2]
    cases cur with
    | none => exact ⟨h, rfl⟩
    | some i =>
      simp only []
      by_cases h3 : (sys env s [] Call.calloc).1 = 0
      · rw [if_pos h3]
        exact ⟨h, hcalloc⟩
      rw [if_neg h3]
      cases hs : sscanf_symbol (cstrAt buf 0) with
      | none => exact ⟨h, hcalloc⟩
      | some p =>
        obtain ⟨name, nid⟩ := p
        have hdb : ∀ m ∈ updateAt (fun m => { m with dl_symbols :=
            (HASH_REPLACE_STR (getModule (sys env s [] Call.calloc).2 i).dl_symbols
              ⟨name, nid⟩).1 }) s._dl_module_db i, P m := by
          have : updateAt (fun m => { m with dl_symbols :=
              (HASH_REPLACE_STR (getModule (sys env s [] Call.calloc).2 i).dl_symbols
                ⟨name, nid⟩).1 }) s._dl_module_db i
              = updateAt (fun m => { m with dl_symbols :=
                  (HASH_REPLACE_STR m.dl_symbols ⟨name, nid⟩).1 }) s._dl_module_db i := by
            apply updateAt_congr
            rfl
          rw [this]
          exact forall_updateAt P _ (fun m hm => hsym m ⟨name, nid⟩ hm) _ i h
        simp only []
        split
        · exact ⟨hdb, by simp [loads, sys_trace, Call.isLoad, setModule]⟩
        · exact ⟨hdb, hcalloc⟩
  rw [if_neg h2]
  by_cases h3 : (cstrAt buf 0).head? = some '$'
  · rw [if_pos h3]
    cases HASH_FIND_STR s._dl_module_db (cstrAt buf 3) with
    | some i => exact ⟨h, rfl⟩
    | none =>
      simp only []
      by_cases h4 : (sys env s [] Call.calloc).1 = 0
      · rw [if_pos h4]
        exact ⟨h, hcalloc⟩
      rw [if_neg h4]
      cases sscanf_module (cstrAt buf 0) with
      | none => exact ⟨h, hcalloc⟩
      | some p =>
        obtain ⟨t, name⟩ := p
        refine ⟨?_, hcalloc⟩
        intro m hm
        simp only [sys_db, List.mem_append, List.mem_singleton] at hm
        rcases hm with hm | rfl
        · exact h m hm
        · exact hnew t name
  · rw [if_neg h3]
    exact ⟨h, rfl⟩

/-- The loop of `dldbadd` keeps a property of all records that its writes keep,
and makes no loader call. -/
theorem dldbadd_loop_keeps (P : dl_module_info → Prop) (hP : KeptByAdd P) (env : Env)
    (path : CStr) (lines : List (List Char)) :
    ∀ (buf : List Char) (n : Nat) (s : State) (cur : Option Nat),
      (∀ m ∈ s._dl_module_db, P m) →
      (∀ m ∈ (dldbadd_loop env path lines buf n s cur).2._dl_module_db, P m) ∧
      loads (dldbadd_loop env path lines buf n s cur).2.trace = loads s.trace := by
  induction lines with
  | nil => intro _ _ s _ h; exact ⟨h, rfl⟩
  | cons raw rest ih =>
    intro buf n s cur h
    have hstep := dldbadd_line_keeps P hP env path n
      (putNUL (getline_store buf raw) (strcspn_crlf (getline_store buf raw))) s cur h
    unfold dldbadd_loop
    simp only []
    generalize dldbadd_line env path n
      (putNUL (getline_store buf raw) (strcspn_crlf (getline_store buf raw))) s cur = step
      at hstep
    obtain ⟨failed, s1, cur1⟩ := step
    cases failed with
    | true => exact hstep
    | false =>
      simp only [] at hstep ⊢
      have := ih (putNUL (getline_store buf raw) (strcspn_crlf (getline_store buf raw)))
        (n + 1) s1 cur1 hstep.1
      exact ⟨this.1, this.2.trans hstep.2⟩

theorem dldbfreeall_loop_loads (env : Env) (ms : List dl_module_info) :
    ∀ s : State, loads (dldbfreeall_loop env ms s).trace = loads s.trace := by
  induction ms with
  | nil => intro s; rfl
  | cons m ms ih =>
    intro s
    simp only [dldbfreeall_loop]
    rw [ih]
    simp only [free_module]
    split_ifs <;> simp [loads, sys_trace, Call.isLoad]

/-- Function `dldbfreeall` adds no record and makes no loader call. -/
theorem dldbfreeall_keeps (env : Env) (s : State) :
    (∀ m ∈ (dldbfreeall env s).2._dl_module_db, m ∈ s._dl_module_db) ∧
    loads (dldbfreeall env s).2.trace = loads s.trace := by
  unfold dldbfreeall
  simp only []
  split_ifs
  · exact ⟨fun m hm => hm, by simp [loads, sys_trace, Call.isLoad]⟩
  · constructor
    · intro m hm
      rw [unlockWrite_db, dldbfreeall_loop_db env _ _ rfl] at hm
      exact absurd hm (List.not_mem_nil _)
    · simp [loads, unlockWrite_trace, Call.isLoad]
      have := dldbfreeall_loop_loads env (sys env s [] Call.sceKernelLockWriteRWLock).2._dl_module_db
        (sys env s [] Call.sceKernelLockWriteRWLock).2
      simpa [loads, sys_trace, Call.isLoad] using this

/-- Function `dldbadd` keeps a property of all records that its writes keep, and
makes no loader call. -/
theorem dldbadd_keeps (P : dl_module_info → Prop) (hP : KeptByAdd P) (env : Env) (s : State)
    (path : CStr) (h : ∀ m ∈ s._dl_module_db, P m) :
    (∀ m ∈ (dldbadd env s path).2._dl_module_db, P m) ∧
    loads (dldbadd env s path).2.trace = loads s.trace := by
  have hl : loads (sys env s [] Call.sceKernelLockWriteRWLock).2.trace = loads s.trace := by
    simp [loads, sys_trace, Call.isLoad]
  have hu : ∀ x : State, loads (unlockWrite env x).trace = loads x.trace := by
    intro x
    simp [loads, unlockWrite_trace, Call.isLoad]
  unfold dldbadd
  simp only []
  split_ifs
  · exact ⟨h, hl⟩
  · cases env.fopen path with
    | none => exact ⟨h, (hu _).trans hl⟩
    | some content =>
      simp only []
      have hloop := dldbadd_loop_keeps P hP env path (getlines content []) env.heap 1
        (sys env s [] Call.sceKernelLockWriteRWLock).2 none h
      generalize dldbadd_loop env path (getlines content []) env.heap 1
        (sys env s [] Call.sceKernelLockWriteRWLock).2 none = p at hloop
      obtain ⟨failed, s2⟩ := p
      cases failed with
      | false => exact ⟨hloop.1, (hu _).trans (hloop.2.trans hl)⟩
      | true =>
        simp only [if_true, unlockWrite_db]
        have hfree := dldbfreeall_keeps env s2
        exact ⟨fun m hm => hloop.1 m (hfree.1 m hm),
          (hu _).trans (hfree.2.trans (hloop.2.trans hl))⟩

/-- The writes of `dldbadd` keep a refcount of 0. -/
theorem refcount_zero_kept : KeptByAdd (fun m => m.refcount = 0) :=
  ⟨fun _ _ => rfl, fun _ _ h => h, fun _ _ h => h⟩

/-- The empty state is freshly populated. -/
theorem fresh_init : Fresh State.init :=
  ⟨fun _ h => absurd h (List.not_mem_nil _), rfl⟩

/-- The database that `dldbadd` calls build from the empty state is freshly
populated: `dldbadd` keeps every refcount 0 and makes no loader call. -/
theorem dldbadd_fresh (env : Env) (s : State) (path : CStr) (h : Fresh s) :
    Fresh (dldbadd env s path).2 := by
  have := dldbadd_keeps (fun m => m.refcount = 0) refcount_zero_kept env s path h.1
  exact ⟨this.1, this.2.trans h.2⟩

/-- The writes of `dldbadd` keep the names of a symbol table distinct. -/
theorem symbols_nodup_kept : KeptByAdd (fun m => (m.dl_symbols.map (·.name)).Nodup) := by
  refine ⟨fun _ _ => List.nodup_nil, fun _ _ h => h, fun m e h => ?_⟩
  simp only [HASH_REPLACE_STR]
  rw [HASH_DEL_SYM_eq_filter _ _ h, List.map_append, List.nodup_append]
  refine ⟨h.sublist ((List.filter_sublist _).map _), by simp, ?_⟩
  intro a ha hb
  simp only [List.map_cons, List.map_nil, List.mem_singleton] at hb
  subst hb
  obtain ⟨x, hx, hxe⟩ := List.mem_map.mp ha
  have := (List.mem_filter.mp hx).2
  simp [hxe] at this

/-- After `dldbadd`, no two entries of one symbol table have the same name, when
that held before. -/
theorem dldbadd_symbols_nodup (env : Env) (s : State) (path : CStr)
    (h : ∀ m ∈ s._dl_module_db, (m.dl_symbols.map (·.name)).Nodup) :
    ∀ m ∈ (dldbadd env s path).2._dl_module_db, (m.dl_symbols.map (·.name)).Nodup :=
  (dldbadd_keeps _ symbols_nodup_kept env s path h).1

/-! ## What `dlopen` and `dlclose` do to the database and to the log -/

/-- Function `load_module`: it writes the `uid` at most; a type without a case
gets -1 and no call, the other types get one loader call, whose value is
returned. -/
theorem load_module_summary (env : Env) (s : State) (i : Nat) :
    (∃ u, (load_module env s i).2._dl_module_db = updateAt (touch u 0) s._dl_module_db i) ∧
    ((hasLoader (getModule s i).type ∧ ∃ c, c.isLoad = true ∧
        modEvents (load_module env s i).2.trace
          = modEvents s.trace ++ [⟨(getModule s i).name, c, (load_module env s i).1⟩]) ∨
     (¬ hasLoader (getModule s i).type ∧ (load_module env s i).1 = -1 ∧
        modEvents (load_module env s i).2.trace = modEvents s.trace)) := by
  have hid : updateAt (touch (getModule s i).uid 0) s._dl_module_db i = s._dl_module_db := by
    apply updateAt_self
    simp [touch, getModule]
  unfold load_module
  simp only []
  by_cases hF : (getModule s i).type = DL_MODULE_TYPE_FILE
  · rw [if_pos hF]
    constructor
    · split_ifs
      · refine ⟨env.ret s.trace (Call.sceKernelLoadStartModule (getModule s i).name), ?_⟩
        simp only [setModule_db, sys_db, sys_fst]
        apply updateAt_congr
        simp [touch]
      · exact ⟨_, hid.symm⟩
    · left
      refine ⟨Or.inl hF, Call.sceKernelLoadStartModule (getModule s i).name, rfl, ?_⟩
      split_ifs <;>
        simp [modEvents, Call.isLoad, Call.isUnload, sys_trace]
  · rw [if_neg hF]
    by_cases hS : (getModule s i).type = DL_MODULE_TYPE_SYS
    · rw [if_pos hS]
      refine ⟨⟨_, hid.symm⟩, Or.inl ⟨Or.inr hS, Call.sceSysmoduleLoadModule (getModule s i).sid,
        rfl, ?_⟩⟩
      simp [modEvents, Call.isLoad, Call.isUnload, sys_trace]
    · rw [if_neg hS]
      refine ⟨⟨_, hid.symm⟩, Or.inr ⟨?_, rfl, rfl⟩⟩
      rintro (h | h)
      · exact hF h
      · exact hS h

/-- Function `free_module`: a type without a case gets no call, the other types
get one unloader call. -/
theorem free_module_summary (env : Env) (s : State) (m : dl_module_info) :
    (hasLoader m.type ∧ ∃ c, c.isUnload = true ∧
        modEvents (free_module env s m).2.trace
          = modEvents s.trace ++ [⟨m.name, c, (free_module env s m).1⟩]) ∨
    (¬ hasLoader m.type ∧ modEvents (free_module env s m).2.trace = modEvents s.trace) := by
  unfold free_module
  by_cases hF : m.type = DL_MODULE_TYPE_FILE
  · rw [if_pos hF]
    refine Or.inl ⟨Or.inl hF, Call.sceKernelStopUnloadModule m.uid, rfl, ?_⟩
    simp [modEvents, Call.isLoad, Call.isUnload, sys_trace]
  · rw [if_neg hF]
    by_cases hS : m.type = DL_MODULE_TYPE_SYS
    · rw [if_pos hS]
      refine Or.inl ⟨Or.inr hS, Call.sceSysmoduleUnloadModule m.sid, rfl, ?_⟩
      simp [modEvents, Call.isLoad, Call.isUnload, sys_trace]
    · rw [if_neg hS]
      refine Or.inr ⟨?_, rfl⟩
      rintro (h | h)
      · exact hF h
      · exact hS h

/-- Function `dlopen` on a name that is found: what it writes to the record, the
loader and unloader calls it makes, and what it returns. -/
theorem dlopen_summary (env : Env) (s : State) (n : CStr) (i : Nat)
    (hf : HASH_FIND_STR s._dl_module_db n = some i) :
    ∃ u d X, (dlopen env s n).2._dl_module_db = updateAt (touch u d) s._dl_module_db i ∧
      modEvents (dlopen env s n).2.trace = modEvents s.trace ++ X ∧
      OpenOutcome n (getModule s i).type (getModule s i).refcount (dlopen env s n).1 d X := by
  obtain ⟨hi, hname⟩ := HASH_FIND_STR_some _ _ _ hf
  have hname' : (getModule s i).name = n := hname
  have hid : s._dl_module_db = updateAt (touch (getModule s i).uid 0) s._dl_module_db i := by
    symm
    apply updateAt_self
    simp [touch, getModule]
  unfold dlopen
  rw [hf]
  simp only [sys_fst, getModule_sys]
  by_cases hl : env.ret s.trace Call.sceKernelLockWriteRWLock < 0
  · rw [if_pos hl]
    exact ⟨_, 0, [], hid, by simp, .refused⟩
  rw [if_neg hl]
  by_cases hrc : (getModule s i).refcount = 0
  · simp only [hrc, if_true, true_and]
    obtain ⟨⟨u, hdb⟩, hev⟩ := load_module_summary env (sys env s [] Call.sceKernelLockWriteRWLock).2 i
    simp only [sys_db, getModule_sys, modEvents_lockWrite, hname'] at hdb hev
    have hm := getModule_touch s _ i u 0 hdb hi
    generalize load_module env (sys env s [] Call.sceKernelLockWriteRWLock).2 i = ld at *
    by_cases hld : ld.1 < 0
    · rw [if_pos hld]
      rcases hev with ⟨_, c, hc, hev⟩ | ⟨_, _, hev⟩
      · exact ⟨u, 0, [⟨n, c, ld.1⟩], by simpa using hdb, by simpa using hev,
          .loadFailed c ld.1 rfl hc hld⟩
      · exact ⟨u, 0, [], by simpa using hdb, by simpa using hev, .refused⟩
    · rw [if_neg hld]
      rcases hev with ⟨hty, c, hc, hev⟩ | ⟨_, h1, _⟩
      · by_cases hmem : env.ret ld.2.trace Call.calloc = 0
        · rw [if_pos hmem]
          have hrc2 : (getModule ld.2 i).refcount = 0 := by simp [hm, touch, hrc]
          simp only [getModule_DLERR, getModule_sys, hrc2, if_true]
          have hfs := free_module_summary env
            (DLERR (sys env ld.2 [] Call.calloc).2 "Error: no memory\n".toList) (getModule ld.2 i)
          have hfdb := free_module_db env
            (DLERR (sys env ld.2 [] Call.calloc).2 "Error: no memory\n".toList) (getModule ld.2 i)
          generalize free_module env
            (DLERR (sys env ld.2 [] Call.calloc).2 "Error: no memory\n".toList) (getModule ld.2 i)
            = fm at hfs hfdb ⊢
          rcases hfs with ⟨_, c', hc', hev'⟩ | ⟨hno, _⟩
          · refine ⟨u, 0, [⟨n, c, ld.1⟩, ⟨n, c', fm.1⟩], ?_, ?_,
              .rolledBack c ld.1 c' fm.1 rfl hty hc (not_lt.mp hld) hc'⟩
            · simpa [hfdb] using hdb
            · simp only [modEvents_unlockWrite, hev', modEvents_DLERR, modEvents_calloc, hev, hm]
              simp [touch, hname']
          · exact absurd (by simpa [hm, touch] using hty) hno
        · rw [if_neg hmem]
          refine ⟨u, 1, [⟨n, c, ld.1⟩], ?_, by simpa using hev,
            by simpa [hm, touch, hname'] using OpenOutcome.load c ld.1 rfl hty hc (not_lt.mp hld)⟩
          simp only [unlockWrite_db, setModule_db, sys_db, hdb]
          rw [updateAt_updateAt]
          apply updateAt_congr
          simp [touch]
      · exact absurd (by rw [h1]; decide) hld
  · simp only [hrc, if_false, false_and]
    by_cases hmem : env.ret (sys env s [] Call.sceKernelLockWriteRWLock).2.trace Call.calloc = 0
    · rw [if_pos hmem]
      simp only [getModule_DLERR, getModule_sys, hrc, if_false]
      exact ⟨_, 0, [], by simpa using hid, by simp, .refused⟩
    · rw [if_neg hmem]
      refine ⟨(getModule s i).uid, 1, [], ?_, by simp, by simpa [hname'] using OpenOutcome.reuse hrc⟩
      simp only [unlockWrite_db, setModule_db, sys_db]
      apply updateAt_congr
      simp [touch, getModule]

/-- Function `dlclose` on a handle whose name is found: it returns, and what it
writes to the record, the unloader call it makes, and what it returns. -/
theorem dlclose_summary (env : Env) (s : State) (h : dl_handle) (i : Nat)
    (hf : HASH_FIND_STR s._dl_module_db h.name = some i) :
    ∃ r s1 u d X, dlclose env s h = some (r, s1) ∧
      s1._dl_module_db = updateAt (touch u d) s._dl_module_db i ∧
      modEvents s1.trace = modEvents s.trace ++ X ∧
      CloseOutcome h.name (getModule s i).type (getModule s i).refcount r d X := by
  obtain ⟨hi, hname⟩ := HASH_FIND_STR_some _ _ _ hf
  have hname' : (getModule s i).name = h.name := hname
  have hid : s._dl_module_db = updateAt (touch (getModule s i).uid 0) s._dl_module_db i := by
    symm
    apply updateAt_self
    simp [touch, getModule]
  have hdec : updateAt (fun m => { m with refcount := m.refcount - 1 }) s._dl_module_db i
      = updateAt (touch (getModule s i).uid (-1)) s._dl_module_db i := by
    apply updateAt_congr
    simp [touch, getModule, sub_eq_add_neg]
  unfold dlclose
  rw [hf]
  simp only [sys_fst, getModule_sys]
  by_cases hl : env.ret s.trace Call.sceKernelLockWriteRWLock < 0
  · rw [if_pos hl]
    exact ⟨_, _, (getModule s i).uid, 0, [], rfl, hid, by simp, .refused⟩
  rw [if_neg hl]
  by_cases hrc : (getModule s i).refcount = 1
  · rw [if_pos hrc]
    have hfs := free_module_summary env (sys env s [] Call.sceKernelLockWriteRWLock).2
      (getModule s i)
    have hfdb := free_module_db env (sys env s [] Call.sceKernelLockWriteRWLock).2 (getModule s i)
    generalize free_module env (sys env s [] Call.sceKernelLockWriteRWLock).2 (getModule s i)
      = fm at hfs hfdb ⊢
    rcases hfs with ⟨hty, c, hc, hev⟩ | ⟨hno, hev⟩
    · refine ⟨_, _, (getModule s i).uid, -1, [⟨h.name, c, fm.1⟩], rfl, ?_, ?_,
        .last c fm.1 hrc hty hc⟩
      · simp only [unlockWrite_db, setModule_db, hfdb, sys_db]
        exact hdec
      · simp only [modEvents_unlockWrite, modEvents_setModule, hev, modEvents_lockWrite, hname']
    · refine ⟨_, _, (getModule s i).uid, -1, [], rfl, ?_, ?_, .lastNoUnloader hrc hno⟩
      · simp only [unlockWrite_db, setModule_db, hfdb, sys_db]
        exact hdec
      · simp only [modEvents_unlockWrite, modEvents_setModule, hev, modEvents_lockWrite,
          List.append_nil]
  · rw [if_neg hrc]
    refine ⟨_, _, (getModule s i).uid, -1, [], rfl, ?_, ?_, .notLast hrc⟩
    · simp only [unlockWrite_db, setModule_db, sys_db]
      exact hdec
    · simp only [modEvents_unlockWrite, modEvents_setModule, modEvents_lockWrite,
        List.append_nil]

/-! ## Lines that `dldbadd` rejects -/

/-- The loop body with no current module: a `#` or `*` line sets `failed` and the
error `no modules found`, and changes nothing else; a line that does not start
with `#`, `*` or `$` changes nothing. -/
theorem dldbadd_line_no_module (env : Env) (path : CStr) (n : Nat) (buf : List Char)
    (s : State) (h : (cstrAt buf 0).head? ≠ some '$') :
    dldbadd_line env path n buf s none = (true, DLERR s (noModuleMsg path), none) ∨
    (dldbadd_line env path n buf s none = (false, s, none) ∧
      (cstrAt buf 0).head? ≠ some '#' ∧ (cstrAt buf 0).head? ≠ some '*') := by
  unfold dldbadd_line
  simp only []
  by_cases h1 : (cstrAt buf 0).head? = some '#'
  · rw [if_pos h1]
    exact Or.inl rfl
  rw [if_neg h1]
  by_cases h2 : (cstrAt buf 0).head? = some '*'
  · rw [if_pos h2]
    exact Or.inl rfl
  rw [if_neg h2, if_neg h]
  exact Or.inr ⟨rfl, h1, h2⟩

/-- The loop of `dldbadd`, entered with no current module, on lines of which none
before the first `#` or `*` line is a `$` line: it sets `failed` and the error
`no modules found`, and changes nothing else. -/
theorem dldbadd_loop_no_module (env : Env) (path : CStr) (raw : List Char)
    (post : List (List Char))
    (hraw : (cutLine raw).head? = some '#' ∨ (cutLine raw).head? = some '*')
    (pre : List (List Char)) :
    ∀ (buf : List Char) (n : Nat) (s : State),
      (∀ l ∈ pre, (cutLine l).head? ≠ some '$') →
      dldbadd_loop env path (pre ++ raw :: post) buf n s none
        = (true, DLERR s (noModuleMsg path)) := by
  induction pre with
  | nil =>
    intro buf n s _
    have hd : (cstrAt (putNUL (getline_store buf raw) (strcspn_crlf (getline_store buf raw)))
        0).head? ≠ some '$' := by
      rw [cstrAt_stored]
      rcases hraw with h | h <;> rw [h] <;> decide
    rcases dldbadd_line_no_module env path n _ s hd with h | ⟨-, h1, h2⟩
    · simp only [List.nil_append, dldbadd_loop, h]
    · rw [cstrAt_stored] at h1 h2
      rcases hraw with h | h
      · exact absurd h h1
      · exact absurd h h2
  | cons l pre ih =>
    intro buf n s hpre
    have hd : (cstrAt (putNUL (getline_store buf l) (strcspn_crlf (getline_store buf l)))
        0).head? ≠ some '$' := by
      rw [cstrAt_stored]
      exact hpre l (List.mem_cons_self _ _)
    rcases dldbadd_line_no_module env path n _ s hd with h | ⟨h, -, -⟩
    · simp only [List.cons_append, dldbadd_loop, h]
    · simp only [List.cons_append, dldbadd_loop, h]
      exact ih _ _ s (fun x hx => hpre x (List.mem_cons_of_mem _ hx))

theorem scanMagnitude_bsd_none (inp : CStr) (h : scanMagnitude_bsd inp = none) :
    scanMagnitude inp = none := by
  unfold scanMagnitude_bsd at h
  cases hm : scanMagnitude inp with
  | none => rfl
  | some r =>
    rw [hm] at h
    exact absurd h (by simp)

theorem scan_X_bsd_none (inp : CStr) (h : scan_X_bsd inp = none) : scan_X inp = none := by
  unfold scan_X_bsd at h
  unfold scan_X
  cases hd : inp.dropWhile isspace with
  | nil => rfl
  | cons c cs =>
    rw [hd] at h
    simp only [] at h ⊢
    by_cases h1 : c = '-'
    · rw [if_pos h1] at h ⊢
      rw [Option.map_eq_none'] at h ⊢
      exact scanMagnitude_bsd_none _ h
    rw [if_neg h1] at h ⊢
    by_cases h2 : c = '+'
    · rw [if_pos h2] at h ⊢
      rw [Option.map_eq_none'] at h ⊢
      exact scanMagnitude_bsd_none _ h
    rw [if_neg h2] at h ⊢
    rw [Option.map_eq_none'] at h ⊢
    exact scanMagnitude_bsd_none _ h

theorem sscanf_sid_bsd_none (line : CStr) (h : sscanf_sid_bsd line = none) :
    sscanf_sid line = none := by
  unfold sscanf_sid_bsd at h
  unfold sscanf_sid
  cases h0 : lit '#' line with
  | none => rfl
  | some r0 =>
    rw [h0] at h
    simp only [Option.bind] at h ⊢
    cases h1 : lit '0' r0 with
    | none => rfl
    | some r1 =>
      rw [h1] at h
      simp only [] at h ⊢
      cases h2 : lit 'x' r1 with
      | none => rfl
      | some r2 =>
        rw [h2] at h
        simp only [] at h ⊢
        rw [Option.map_eq_none'] at h ⊢
        exact scan_X_bsd_none _ h

theorem sscanf_symbol_bsd_none (line : CStr) (h : sscanf_symbol_bsd line = none) :
    sscanf_symbol line = none := by
  unfold sscanf_symbol_bsd at h
  unfold sscanf_symbol
  cases h0 : lit '*' line with
  | none => rfl
  | some r0 =>
    rw [h0] at h
    simp only [Option.bind] at h ⊢
    cases hs : scan_s r0 with
    | none => rfl
    | some t =>
      rw [hs] at h
      simp only [] at h ⊢
      cases h1 : lit '0' (skipSpace t.2) with
      | none => rfl
      | some r1 =>
        rw [h1] at h
        simp only [] at h ⊢
        cases h2 : lit 'x' r1 with
        | none => rfl
        | some r2 =>
          rw [h2] at h
          simp only [] at h ⊢
          rw [Option.map_eq_none'] at h ⊢
          exact scan_X_bsd_none _ h

/-- A line that `sscanf` cannot read under either reading of `%X` is a bad line. -/
theorem badLine_of_unreadable (raw : List Char) (h : unreadable raw) : badLine raw := by
  rcases h with ⟨hh, hp⟩ | ⟨hh, hp⟩
  · exact .inl ⟨hh, sscanf_symbol_bsd_none _ hp⟩
  · exact .inr ⟨hh, sscanf_sid_bsd_none _ hp⟩

theorem takeWhile_drop_putNUL (l : List Char) :
    ∀ off, off ≤ (l.takeWhile (fun c => c ≠ NUL ∧ c ≠ '\r' ∧ c ≠ '\n')).length →
      ((putNUL l (l.takeWhile (fun c => c ≠ NUL ∧ c ≠ '\r' ∧ c ≠ '\n')).length).drop
          off).takeWhile (fun c => c ≠ NUL)
        = (l.takeWhile (fun c => c ≠ NUL ∧ c ≠ '\r' ∧ c ≠ '\n')).drop off := by
  induction l with
  | nil => intro off _; simp [putNUL]
  | cons c cs ih =>
    intro off hoff
    cases off with
    | zero => exact takeWhile_putNUL (c :: cs)
    | succ off =>
      by_cases h : c ≠ NUL ∧ c ≠ '\r' ∧ c ≠ '\n'
      · have e : (c :: cs).takeWhile (fun c => c ≠ NUL ∧ c ≠ '\r' ∧ c ≠ '\n')
            = c :: cs.takeWhile (fun c => c ≠ NUL ∧ c ≠ '\r' ∧ c ≠ '\n') := by
          simp [List.takeWhile_cons, h]
        rw [e] at hoff ⊢
        simp only [List.length_cons, putNUL, List.drop_succ_cons]
        exact ih off (by simpa using hoff)
      · have e : (c :: cs).takeWhile (fun c => c ≠ NUL ∧ c ≠ '\r' ∧ c ≠ '\n') = [] := by
          simp [List.takeWhile_cons, h]
        rw [e] at hoff
        simp at hoff

/-- The text that the loop body sees from the byte `off` of the line on, for an
`off` inside the line. -/
theorem cstrAt_stored_drop (old raw : List Char) (off : Nat)
    (hoff : off ≤ (cutLine raw).length) :
    cstrAt (putNUL (getline_store old raw) (strcspn_crlf (getline_store old raw))) off
      = (cutLine raw).drop off := by
  have e : (getline_store old raw).takeWhile (fun c => c ≠ NUL ∧ c ≠ '\r' ∧ c ≠ '\n')
      = cutLine raw := by
    unfold getline_store cutLine
    exact takeWhile_append_NUL raw _
  unfold cstrAt strcspn_crlf
  rw [takeWhile_drop_putNUL _ off (by rw [e]; exact hoff), e]

theorem scan_s_word (inp name rest : CStr) (h : scan_s inp = some (name, rest)) :
    isWord name := by
  unfold scan_s at h
  simp only [] at h
  cases ht : (inp.dropWhile isspace).takeWhile (fun c => !isspace c) with
  | nil =>
    rw [ht] at h
    exact absurd h (by simp)
  | cons c tok =>
    rw [ht] at h
    simp only [Option.some.injEq, Prod.mk.injEq] at h
    obtain ⟨rfl, -⟩ := h
    refine ⟨by simp, fun x hx => ?_⟩
    rw [← ht] at hx
    simpa using List.mem_takeWhile_imp hx

/-- The name that `sscanf` stores for a `$` line is a word. -/
theorem sscanf_module_word (line : CStr) (t : Char) (name : CStr)
    (h : sscanf_module line = some (t, name)) : isWord name := by
  unfold sscanf_module at h
  cases h0 : lit '$' line with
  | none => rw [h0] at h; exact absurd h (by simp)
  | some r0 =>
    rw [h0] at h
    simp only [Option.bind] at h
    cases h1 : scan_c r0 with
    | none => rw [h1] at h; exact absurd h (by simp)
    | some p =>
      rw [h1] at h
      simp only [] at h
      cases h2 : scan_s (skipSpace p.2) with
      | none => rw [h2] at h; exact absurd h (by simp)
      | some q =>
        rw [h2] at h
        simp only [Option.map, Option.some.injEq, Prod.mk.injEq] at h
        obtain ⟨-, rfl⟩ := h
        exact scan_s_word _ q.1 q.2 h2

theorem scan_s_skipSpace_none (l : CStr) (h : scan_s (skipSpace l) = none) :
    ∀ x ∈ l, isspace x = true := by
  induction l with
  | nil => intro x hx; exact absurd hx (List.not_mem_nil _)
  | cons a as ih =>
    by_cases ha : isspace a = true
    · have e : skipSpace (a :: as) = skipSpace as := by
        simp [skipSpace, List.dropWhile_cons, ha]
      rw [e] at h
      intro x hx
      rcases List.mem_cons.mp hx with rfl | hx
      · exact ha
      · exact ih h x hx
    · have ha' : isspace a = false := by simpa using ha
      have e : skipSpace (a :: as) = a :: as := by
        simp [skipSpace, List.dropWhile_cons, ha']
      rw [e] at h
      unfold scan_s at h
      simp [List.dropWhile_cons, List.takeWhile_cons, ha'] at h

/-- On a `$` line of three bytes or more that `sscanf` cannot read, the text from
the fourth byte on is not a word. -/
theorem unreadableModule_not_word (line : CStr) (hh : line.head? = some '$')
    (hlen : 3 ≤ line.length) (hscan : sscanf_module line = none) :
    ¬ isWord (line.drop 3) := by
  match line, hh, hlen, hscan with
  | c0 :: k :: c :: rest, hh, _, hscan =>
    simp only [List.head?_cons, Option.some.injEq] at hh
    subst hh
    simp only [sscanf_module, lit, if_true, Option.bind, scan_c, Option.map_eq_none'] at hscan
    have hall := scan_s_skipSpace_none (c :: rest) hscan
    intro hw
    simp only [List.drop_succ_cons, List.drop_zero] at hw
    cases rest with
    | nil => exact hw.1 rfl
    | cons x xs =>
      have h1 := hall x (by simp)
      have h2 := hw.2 x (List.mem_cons_self _ _)
      rw [h1] at h2
      exact absurd h2 (by decide)

/-- A `$` line of three bytes or more that `sscanf` cannot read sets `failed` in a
database whose names are words, whatever the current module and the buffer. -/
theorem dldbadd_line_bad_module (env : Env) (path : CStr) (n : Nat) (old raw : List Char)
    (s : State) (cur : Option Nat) (hraw : unreadableModule raw) (hw : Words s) :
    (dldbadd_line env path n
      (putNUL (getline_store old raw) (strcspn_crlf (getline_store old raw))) s cur).1 = true := by
  obtain ⟨hh, hlen, hscan⟩ := hraw
  have h0 := cstrAt_stored old raw
  have h3 := cstrAt_stored_drop old raw 3 hlen
  have hnf : HASH_FIND_STR s._dl_module_db ((cutLine raw).drop 3) = none := by
    cases hf : HASH_FIND_STR s._dl_module_db ((cutLine raw).drop 3) with
    | none => rfl
    | some i =>
      obtain ⟨hi, hname⟩ := HASH_FIND_STR_some _ _ _ hf
      have hword := hw _ (recordAt_mem _ i hi)
      rw [hname] at hword
      exact absurd hword (unreadableModule_not_word _ hh hlen hscan)
  have h1 : ¬ ((some '$' : Option Char) = some '#') := by decide
  have h2 : ¬ ((some '$' : Option Char) = some '*') := by decide
  unfold dldbadd_line
  simp only [h0, h3, hh, h1, h2, if_true, if_false, hnf, hscan]
  split_ifs <;> rfl

/-- One line of a source leaves the names of the modules as they are, or adds the
name that `sscanf` has read from a `$` line. -/
theorem dldbadd_line_names (env : Env) (path : CStr) (n : Nat) (buf : List Char) (s : State)
    (cur : Option Nat) :
    moduleNames (dldbadd_line env path n buf s cur).2.1 = moduleNames s ∨
    ∃ t name, sscanf_module (cstrAt buf 0) = some (t, name) ∧
      moduleNames (dldbadd_line env path n buf s cur).2.1 = moduleNames s ++ [name] := by
  have hupd : ∀ (f : dl_module_info → dl_module_info) (x : State) (i : Nat),
      (∀ m, (f m).name = m.name) → x._dl_module_db = s._dl_module_db →
      moduleNames (setModule x i f) = moduleNames s := by
    intro f x i hf hx
    unfold moduleNames
    rw [setModule_db, hx]
    exact updateAt_map (fun m => m.name) f hf _ i
  unfold dldbadd_line
  simp only []
  by_cases h1 : (cstrAt buf 0).head? = some '#'
  · rw [if_pos h1]
    cases cur with
    | none => exact .inl rfl
    | some i =>
      cases sscanf_sid (cstrAt buf 0) with
      | none => exact .inl rfl
      | some v => exact .inl (hupd _ s i (fun _ => rfl) rfl)
  rw [if_neg h1]
  by_cases h2 : (cstrAt buf 0).head? = some '*'
  · rw [if_pos h2]
    cases cur with
    | none => exact .inl rfl
    | some i =>
      simp only []
      by_cases ha : (sys env s [] Call.calloc).1 = 0
      · rw [if_pos ha]
        exact .inl rfl
      rw [if_neg ha]
      cases sscanf_symbol (cstrAt buf 0) with
      | none => exact .inl rfl
      | some p =>
        simp only []
        cases (HASH_REPLACE_STR (getModule (sys env s [] Call.calloc).2 i).dl_symbols
            ⟨p.1, p.2⟩).2 with
        | none => exact .inl (hupd _ _ i (fun _ => rfl) rfl)
        | some d => exact .inl (hupd _ _ i (fun _ => rfl) rfl)
  rw [if_neg h2]
  by_cases h3 : (cstrAt buf 0).head? = some '$'
  · rw [if_pos h3]
    cases HASH_FIND_STR s._dl_module_db (cstrAt buf 3) with
    | some j => exact .inl rfl
    | none =>
      simp only []
      by_cases ha : (sys env s [] Call.calloc).1 = 0
      · rw [if_pos ha]
        exact .inl rfl
      rw [if_neg ha]
      cases hsc : sscanf_module (cstrAt buf 0) with
      | none => exact .inl rfl
      | some p =>
        refine .inr ⟨p.1, p.2, rfl, ?_⟩
        simp [moduleNames]
  · rw [if_neg h3]
    exact .inl rfl

theorem Words_iff (s : State) : Words s ↔ ∀ nm ∈ moduleNames s, isWord nm := by
  unfold Words moduleNames
  simp

theorem dldbadd_line_words (env : Env) (path : CStr) (n : Nat) (buf : List Char) (s : State)
    (cur : Option Nat) (hw : Words s) : Words (dldbadd_line env path n buf s cur).2.1 := by
  rw [Words_iff] at hw ⊢
  rcases dldbadd_line_names env path n buf s cur with h | ⟨t, name, hsc, h⟩
  · rw [h]
    exact hw
  · rw [h]
    intro nm hnm
    rcases List.mem_append.mp hnm with hnm | hnm
    · exact hw nm hnm
    · rw [List.mem_singleton.mp hnm]
      exact sscanf_module_word _ t name hsc

/-- A source with a `$` line of three bytes or more that `sscanf` cannot read,
anywhere, makes the loop of `dldbadd` set `failed` when the names of the database
are words. -/
theorem dldbadd_loop_bad_module (env : Env) (path : CStr) (lines : List (List Char)) :
    ∀ (buf : List Char) (n : Nat) (s : State) (cur : Option Nat),
      Words s → (∃ raw ∈ lines, unreadableModule raw) →
      (dldbadd_loop env path lines buf n s cur).1 = true := by
  induction lines with
  | nil => intro _ _ _ _ _ h; simp at h
  | cons raw rest ih =>
    intro buf n s cur hw h
    have hwords := dldbadd_line_words env path n
      (putNUL (getline_store buf raw) (strcspn_crlf (getline_store buf raw))) s cur hw
    unfold dldbadd_loop
    simp only []
    generalize hstep : dldbadd_line env path n
      (putNUL (getline_store buf raw) (strcspn_crlf (getline_store buf raw))) s cur = step
      at hwords
    obtain ⟨failed, s1, cur1⟩ := step
    cases failed with
    | true => rfl
    | false =>
      simp only []
      apply ih _ _ _ _ hwords
      obtain ⟨r, hr, hb⟩ := h
      rcases List.mem_cons.mp hr with rfl | hr
      · have := dldbadd_line_bad_module env path n buf r s cur hb hw
        rw [hstep] at this
        simp at this
      · exact ⟨r, hr, hb⟩

/-- The loop of `dldbadd`, entered with no current module, sets `failed` on a
source that has a `#` or `*` line before its first `$` line. -/
theorem dldbadd_loop_before_module (env : Env) (path : CStr) (lines : List (List Char))
    (buf : List Char) (n : Nat) (s : State) (h : beforeModule lines) :
    (dldbadd_loop env path lines buf n s none).1 = true := by
  obtain ⟨pre, raw, post, rfl, hpre, hraw⟩ := h
  rw [dldbadd_loop_no_module env path raw post hraw pre buf n s hpre]

/-- When the loop of `dldbadd` sets `failed` and the write lock is granted at each
request, `dldbadd` leaves no record. -/
theorem dldbadd_db_of_failed (env : Env) (s : State) (path : CStr) (content : List Char)
    (hlock : ∀ t, 0 ≤ env.ret t Call.sceKernelLockWriteRWLock)
    (hopen : env.fopen path = some content)
    (hfail : (dldbadd_loop env path (getlines content []) env.heap 1
      (sys env s [] Call.sceKernelLockWriteRWLock).2 none).1 = true) :
    (dldbadd env s path).2._dl_module_db = [] := by
  have h1 : ¬ env.ret s.trace Call.sceKernelLockWriteRWLock < 0 := not_lt.mpr (hlock _)
  unfold dldbadd
  simp only [sys_fst, h1, if_false, hopen, unlockWrite_db, hfail, if_true]
  exact dldbfreeall_db env _ (hlock _)

/-- A source with a `*` or `#` line that `sscanf` cannot read, with a `#` or `*`
line before its first `$` line, or, in a database whose names are words, with a
`$` line of three bytes or more that `sscanf` cannot read, leaves no record after
`dldbadd`, when the source opens and the write lock is granted at each request. -/
theorem dldbadd_rejected_empties (env : Env) (s : State) (path : CStr) (content : List Char)
    (hlock : ∀ t, 0 ≤ env.ret t Call.sceKernelLockWriteRWLock)
    (hopen : env.fopen path = some content)
    (hbad : (∃ raw ∈ getlines content [], unreadable raw) ∨
      beforeModule (getlines content []) ∨
      (Words s ∧ ∃ raw ∈ getlines content [], unreadableModule raw)) :
    (dldbadd env s path).2._dl_module_db = [] := by
  apply dldbadd_db_of_failed env s path content hlock hopen
  rcases hbad with ⟨raw, hmem, hraw⟩ | hb | ⟨hw, hb⟩
  · exact dldbadd_loop_bad env path _ _ _ _ _ ⟨raw, hmem, badLine_of_unreadable raw hraw⟩
  · exact dldbadd_loop_before_module env path _ _ _ _ hb
  · exact dldbadd_loop_bad_module env path _ _ _ _ _ (fun m hm => hw m (by simpa using hm)) hb

/-! ## C1: a source with a structural error -/

/-- C1, as stated, fails: with the module `foo.suprx` registered, `dldbadd` on a
source whose second line is `*badline` does not leave the database as it was;
it leaves it empty. Where the write lock cannot be taken a second time by
`dldbfreeall`, the database is not as it was either: it has the record `SceNet`
of the failing source. And a `$` line that `sscanf` cannot read is not always
rejected: on the source `$f foo`, `$` the second line is looked up under the
bytes that the first line left in the buffer, `dldbadd` sets no error and the
database keeps `foo`. -/
theorem dldbadd_parse_error_loses_db :
    "*badline\n".toList ∈ getlines "$s SceNet\n*badline\n".toList [] ∧
    badLine "*badline\n".toList ∧
    moduleNames db_foo = ["foo.suprx".toList] ∧
    (dldbadd (Env.ok "$s SceNet\n*badline\n".toList) db_foo db_path).2._dl_module_db
      ≠ db_foo._dl_module_db ∧
    (dldbadd (Env.ok "$s SceNet\n*badline\n".toList) db_foo db_path).2._dl_module_db = [] ∧
    moduleNames (dldbadd (Env.noRelock "$s SceNet\n*badline\n".toList) db_foo db_path).2
      = ["foo.suprx".toList, "SceNet".toList] ∧
    sscanf_module "$".toList = none ∧
    (dldbadd (Env.ok "$f foo\n$\n".toList) State.init db_path).2._dl_err = false ∧
    moduleNames (dldbadd (Env.ok "$f foo\n$\n".toList) State.init db_path).2
      = ["foo".toList] := by
  decide

/-- C1, amended: for every database state and every source that has, at any
position, a `*` line or a `#` line that `sscanf` cannot read in full (under
either reading of a `0x` that no digit follows), or that has a `#` or `*` line
before its first `$` line, or that has, the module names of the database being
words as `dldbadd` registers them, a `$` line of three bytes or more that
`sscanf` cannot read: when the source opens and the write lock is granted at
each request (also to the `dldbfreeall` that `dldbadd` calls), the database is
empty after `dldbadd`; what was registered before the call is discarded
together with what the source added. -/
theorem dldbadd_parse_error_empties_db (env : Env) (s : State) (path : CStr)
    (content : List Char)
    (hlock : ∀ t, 0 ≤ env.ret t Call.sceKernelLockWriteRWLock)
    (hopen : env.fopen path = some content)
    (hbad : (∃ raw ∈ getlines content [], unreadable raw) ∨
      beforeModule (getlines content []) ∨
      (Words s ∧ ∃ raw ∈ getlines content [], unreadableModule raw)) :
    (dldbadd env s path).2._dl_module_db = [] :=
  dldbadd_rejected_empties env s path content hlock hopen hbad

/-- The amended C1 on the source `$s SceNet`, `*badline`, and on the source
`$s SceNet`, `$s` and a blank, with `foo.suprx` registered before. -/
theorem dldbadd_parse_error_empties_db_witness :
    db_foo._dl_module_db ≠ [] ∧
    (dldbadd (Env.ok "$s SceNet\n*badline\n".toList) db_foo db_path).2._dl_module_db = [] ∧
    (dldbadd (Env.ok "$s SceNet\n$s \n".toList) db_foo db_path).2._dl_module_db = [] :=
  ⟨by decide,
   dldbadd_parse_error_empties_db (Env.ok "$s SceNet\n*badline\n".toList) db_foo db_path
    "$s SceNet\n*badline\n".toList (fun _ => Int.le_refl 0) rfl
    (Or.inl ⟨"*badline\n".toList, by decide, by decide⟩),
   dldbadd_parse_error_empties_db (Env.ok "$s SceNet\n$s \n".toList) db_foo db_path
    "$s SceNet\n$s \n".toList (fun _ => Int.le_refl 0) rfl
    (Or.inr (Or.inr ⟨by decide, "$s \n".toList, by decide, by decide⟩))⟩

/-! ## C2: the return value of `dldbadd` -/

/-- C2: on the one-line source `*badline`, which sets `failed` and raises the
error flag, `dldbadd` returns 0. -/
theorem dldbadd_returns_zero_on_parse_error :
    badLine "*badline\n".toList ∧
    (dldbadd_loop (Env.ok "*badline\n".toList) db_path (getlines "*badline\n".toList []) [] 1
      (sys (Env.ok "*badline\n".toList) State.init [] Call.sceKernelLockWriteRWLock).2 none).1
      = true ∧
    (dldbadd (Env.ok "*badline\n".toList) State.init db_path).1 = 0 ∧
    (dldbadd (Env.ok "*badline\n".toList) State.init db_path).2._dl_err = true := by
  decide

/-! ## C3: uniqueness of names -/

/-- C3: the source with the line `$f foo bar` twice is read without error and
leaves two records named `foo` in the database; so does the source with the
line `$f  foo` (two blanks) twice. -/
theorem dldbadd_duplicate_module_names :
    (dldbadd (Env.ok "$f foo bar\n$f foo bar\n".toList) State.init db_path).1 = 0 ∧
    (dldbadd (Env.ok "$f foo bar\n$f foo bar\n".toList) State.init db_path).2._dl_err = false ∧
    moduleNames (dldbadd (Env.ok "$f foo bar\n$f foo bar\n".toList) State.init db_path).2
      = ["foo".toList, "foo".toList] ∧
    (dldbadd (Env.ok "$f  foo\n$f  foo\n".toList) State.init db_path).2._dl_err = false ∧
    moduleNames (dldbadd (Env.ok "$f  foo\n$f  foo\n".toList) State.init db_path).2
      = ["foo".toList, "foo".toList] := by
  decide

/-! ## C4: one load per 0→1 transition, one unload per 1→0 transition -/

/-- Along a run of successful calls that starts with the refcount equal to the
number of open handles, the loader is called once per 0→1 transition, the
unloader once per 1→0 transition, and the refcount stays the number of open
handles. -/
theorem run_counts (env : Env) (n : CStr) (i : Nat) (ops : List Op) :
    ∀ (s : State) (hs : List dl_handle) (s' : State) (hs' : List dl_handle),
      HASH_FIND_STR s._dl_module_db n = some i →
      (getModule s i).refcount = hs.length →
      (hs ≠ [] → hasLoader (getModule s i).type) →
      (∀ h ∈ hs, h.name = n) →
      run env n ops s hs = some (s', hs') →
      (loads s'.trace).length = (loads s.trace).length + transitions01 ops hs.length ∧
      (unloads s'.trace).length = (unloads s.trace).length + transitions10 ops hs.length ∧
      (getModule s' i).refcount = hs'.length := by
  induction ops with
  | nil =>
    intro s hs s' hs' _ hrc _ _ hrun
    simp only [run, Option.some.injEq, Prod.mk.injEq] at hrun
    obtain ⟨rfl, rfl⟩ := hrun
    simp [transitions01, transitions10, hrc]
  | cons op ops ih =>
    intro s hs s' hs' hf hrc hty hnames hrun
    obtain ⟨hi, -⟩ := HASH_FIND_STR_some _ _ _ hf
    cases op with
    | doOpen =>
      obtain ⟨u, d, X, hdb, hev, hout⟩ := dlopen_summary env s n i hf
      simp only [run] at hrun
      generalize dlopen env s n = r at hdb hev hout hrun
      obtain ⟨ro, s1⟩ := r
      simp only [] at hdb hev hout hrun
      obtain ⟨hty1, hrc1⟩ := getModule_type_touch s s1 i u d hdb hi
      have hf1 : HASH_FIND_STR s1._dl_module_db n = some i := by
        rw [hdb, HASH_FIND_STR_touch]; exact hf
      cases hout with
      | reuse hne =>
        have hpos : hs ≠ [] := by
          intro h0
          apply hne
          rw [hrc, h0]
          rfl
        have := ih s1 (⟨n⟩ :: hs) s' hs' hf1 (by rw [hrc1, hrc]; simp only [List.length_cons]; push_cast; omega)
          (fun _ => by rw [hty1]; exact hty hpos)
          (by intro h hh; rcases List.mem_cons.mp hh with rfl | hh; rfl; exact hnames h hh) hrun
        have hlen : hs.length ≠ 0 := fun h0 => hpos (List.length_eq_zero.mp h0)
        simp only [loads_eq, unloads_eq, hev, List.append_nil] at this ⊢
        simp only [List.length_cons] at this
        simpa [transitions01, transitions10, hlen] using this
      | load c ret h0 hld hc hret =>
        have hlen : hs.length = 0 := by
          have : ((hs.length : Nat) : Int) = 0 := by rw [← hrc]; exact h0
          exact_mod_cast this
        have := ih s1 (⟨n⟩ :: hs) s' hs' hf1 (by rw [hrc1, hrc]; simp only [List.length_cons]; push_cast; omega)
          (fun _ => by rw [hty1]; exact hld)
          (by intro h hh; rcases List.mem_cons.mp hh with rfl | hh; rfl; exact hnames h hh) hrun
        simp only [loads_eq, unloads_eq, hev, List.filter_append, List.length_append] at this ⊢
        simp only [List.length_cons, hlen, zero_add] at this
        simp only [transitions01, transitions10, hlen, if_true, zero_add]
        simp [hc, isLoad_not_isUnload c hc] at this
        omega
      | refused => simp at hrun
      | loadFailed c ret _ _ _ => simp at hrun
      | rolledBack c ret c' ret' _ _ _ _ _ => simp at hrun
    | doClose =>
      cases hs with
      | nil => simp [run] at hrun
      | cons h hs1 =>
        have hn : h.name = n := hnames h (List.mem_cons_self _ _)
        obtain ⟨r, s1, u, d, X, hcl, hdb, hev, hout⟩ := dlclose_summary env s h i (by rw [hn]; exact hf)
        simp only [run, hcl] at hrun
        obtain ⟨hty1, hrc1⟩ := getModule_type_touch s s1 i u d hdb hi
        have hf1 : HASH_FIND_STR s1._dl_module_db n = some i := by
          rw [hdb, HASH_FIND_STR_touch]; exact hf
        have hty0 : hasLoader (getModule s i).type := hty (by simp)
        simp only [List.length_cons] at hrc
        cases hout with
        | refused => simp at hrun
        | lastNoUnloader _ hno => exact absurd hty0 hno
        | last c ret h1 _ hc =>
          simp only [if_true] at hrun
          have hlen : hs1.length = 0 := by
            have h2 := hrc
            rw [h1] at h2
            push_cast at h2
            omega
          have := ih s1 hs1 s' hs' hf1 (by rw [hrc1, hrc]; push_cast; omega)
            (fun hne => absurd (List.length_eq_zero.mp hlen) hne)
            (fun h' hh => hnames h' (List.mem_cons_of_mem _ hh)) hrun
          simp only [loads_eq, unloads_eq, hev, List.filter_append, List.length_append] at this ⊢
          simp only [List.length_cons, hlen, transitions01, transitions10] at this ⊢
          simp [hc, isUnload_not_isLoad c hc] at this ⊢
          omega
        | notLast hne =>
          simp only [if_true] at hrun
          have hlen : hs1.length ≠ 0 := by
            intro h0
            apply hne
            rw [hrc, h0]
            rfl
          have := ih s1 hs1 s' hs' hf1 (by rw [hrc1, hrc]; push_cast; omega)
            (fun _ => by rw [hty1]; exact hty0)
            (fun h' hh => hnames h' (List.mem_cons_of_mem _ hh)) hrun
          simp only [loads_eq, unloads_eq, hev, List.append_nil] at this ⊢
          simpa [transitions01, transitions10, hlen] using this

/-- C4: for a module that is found and has refcount 0, along every sequence of
successful `dlopen` and `dlclose` calls on it in which `dlclose` is given a
handle that is open, the number of external loader calls grows by the number of
0→1 transitions of the refcount and the number of external unloader calls by the
number of 1→0 transitions, and the refcount is the number of open handles. On
the system module `SceNet` with service 0x100, two `dlopen` calls make the one
loader call `sceSysmoduleLoadModule(0x100)` and reach refcount 2; two `dlclose`
calls then make the one unloader call `sceSysmoduleUnloadModule(0x100)` and
reach refcount 0. -/
theorem dlopen_dlclose_load_once :
    (∀ (env : Env) (s : State) (n : CStr) (i : Nat) (ops : List Op) (s' : State)
        (hs' : List dl_handle),
      HASH_FIND_STR s._dl_module_db n = some i →
      (getModule s i).refcount = 0 →
      run env n ops s [] = some (s', hs') →
      (loads s'.trace).length = (loads s.trace).length + transitions01 ops 0 ∧
      (unloads s'.trace).length = (unloads s.trace).length + transitions10 ops 0 ∧
      (getModule s' i).refcount = hs'.length) ∧
    (getModule db_scenet 0).sid = 0x100 ∧
    modEvents db_scenet.trace = [] ∧
    (run (Env.ok []) "SceNet".toList [.doOpen, .doOpen] db_scenet []).map
        (fun r => ((getModule r.1 0).refcount, calls (modEvents r.1.trace)))
      = some (2, [Call.sceSysmoduleLoadModule 0x100]) ∧
    (run (Env.ok []) "SceNet".toList [.doOpen, .doOpen, .doClose, .doClose] db_scenet []).map
        (fun r => ((getModule r.1 0).refcount, calls (modEvents r.1.trace)))
      = some (0, [Call.sceSysmoduleLoadModule 0x100, Call.sceSysmoduleUnloadModule 0x100]) := by
  refine ⟨?_, by decide, by decide, by decide, by decide⟩
  intro env s n i ops s' hs' hf hrc hrun
  exact run_counts env n i ops s [] s' hs' hf (by simpa using hrc) (fun h => absurd rfl h)
    (fun _ h => absurd h (List.not_mem_nil _)) hrun

/-- The general part of C4 on `dlopen`, `dlclose`, `dlopen` of `SceNet`. -/
theorem dlopen_dlclose_load_once_witness :
    run (Env.ok []) "SceNet".toList [.doOpen, .doClose, .doOpen] db_scenet []
      = some scenet_after ∧
    (loads scenet_after.1.trace).length
      = (loads db_scenet.trace).length + transitions01 [.doOpen, .doClose, .doOpen] 0 ∧
    (unloads scenet_after.1.trace).length
      = (unloads db_scenet.trace).length + transitions10 [.doOpen, .doClose, .doOpen] 0 ∧
    (getModule scenet_after.1 0).refcount = scenet_after.2.length ∧
    transitions01 [.doOpen, .doClose, .doOpen] 0 = 2 ∧
    transitions10 [.doOpen, .doClose, .doOpen] 0 = 1 :=
  have h := dlopen_dlclose_load_once.1 (Env.ok []) db_scenet "SceNet".toList 0
    [.doOpen, .doClose, .doOpen] scenet_after.1 scenet_after.2
    (by decide) (by decide) (by decide)
  ⟨by decide, h.1, h.2.1, h.2.2, by decide, by decide⟩

/-! ## C5: opening a preloaded module -/

/-- C5: for the module `SceLibKernel` registered with kind `p` and refcount 0,
`load_module` returns -1 without any call, and `dlopen` returns NULL, sets the
error message, and leaves the refcount 0. -/
theorem dlopen_preloaded_fails :
    db_preloaded._dl_module_db
      = [⟨'p', 0, 0, 0, "SceLibKernel".toList,
          [⟨"sceKernelExitProcess".toList, 0x7595D9AA⟩]⟩] ∧
    load_module (Env.ok []) db_preloaded 0 = (-1, db_preloaded) ∧
    (dlopen (Env.ok []) db_preloaded "SceLibKernel".toList).1 = none ∧
    (dlopen (Env.ok []) db_preloaded "SceLibKernel".toList).2._dl_module_db
      = db_preloaded._dl_module_db ∧
    (dlerror (dlopen (Env.ok []) db_preloaded "SceLibKernel".toList).2).1
      = some "Error: failed to load module SceLibKernel\n".toList := by
  decide

/-! ## C6: refcount and loaded state -/

theorem unloadFailed_eq (who : CStr) (t : List Event) :
    unloadFailed who t
      = (modEvents t).any
          (fun e => decide (e.who = who) && e.call.isUnload && decide (e.ret < 0)) := by
  induction t with
  | nil => rfl
  | cons e t ih =>
    cases h : (e.call.isLoad || e.call.isUnload)
    · have hm : modEvents (e :: t) = modEvents t := by simp [modEvents, h]
      simp only [Bool.or_eq_false_iff] at h
      rw [hm, ← ih]
      simp [unloadFailed, h.2]
    · have hm : modEvents (e :: t) = e :: modEvents t := by simp [modEvents, h]
      rw [hm, List.any_cons, ← ih]
      simp [unloadFailed]

theorem any_unload_other (k n : CStr) (hkn : k ≠ n) (X : List Event)
    (hX : ∀ e ∈ X, e.who = n) :
    X.any (fun e => decide (e.who = k) && e.call.isUnload && decide (e.ret < 0)) = false := by
  rw [List.any_eq_false]
  intro e he
  simp [hX e he, Ne.symm hkn]

/-- C7: `dlopen` returns NULL when the name is not in the database, when the
write lock is refused, when the module has refcount 0 and `load_module` fails,
and when `calloc` never yields memory; and whenever `dlopen` returns NULL, every
record of the database has the refcount it had before the call. -/
theorem dlopen_failure_keeps_refcounts (env : Env) (s : State) (filename : CStr) :
    (HASH_FIND_STR s._dl_module_db filename = none → (dlopen env s filename).1 = none) ∧
    (env.ret s.trace Call.sceKernelLockWriteRWLock < 0 → (dlopen env s filename).1 = none) ∧
    (∀ i, HASH_FIND_STR s._dl_module_db filename = some i → (getModule s i).refcount = 0 →
      (load_module env (sys env s [] Call.sceKernelLockWriteRWLock).2 i).1 < 0 →
      (dlopen env s filename).1 = none) ∧
    ((∀ t, env.ret t Call.calloc = 0) → (dlopen env s filename).1 = none) ∧
    ((dlopen env s filename).1 = none →
      (dlopen env s filename).2._dl_module_db.map (·.refcount)
        = s._dl_module_db.map (·.refcount)) := by
  refine ⟨?_, ?_, ?_, ?_, ?_⟩
  · intro h
    unfold dlopen
    rw [h]
  · intro h
    unfold dlopen
    cases hf : HASH_FIND_STR s._dl_module_db filename with
    | none => rfl
    | some i =>
      simp only [sys_fst]
      rw [if_pos h]
  · intro i hf hrc hld
    unfold dlopen
    rw [hf]
    simp only [sys_fst, getModule_sys]
    split_ifs with h1 h2 <;> first | rfl | exact absurd ⟨hrc, hld⟩ h2
  · intro hc
    unfold dlopen
    cases hf : HASH_FIND_STR s._dl_module_db filename with
    | none => rfl
    | some i =>
      simp only [sys_fst, hc, if_true]
      split_ifs <;> rfl
  · intro h
    cases hf : HASH_FIND_STR s._dl_module_db filename with
    | none =>
      unfold dlopen
      rw [hf]
      rfl
    | some i =>
      obtain ⟨u, d, X, hdb, -, hout⟩ := dlopen_summary env s filename i hf
      generalize dlopen env s filename = r at h hdb hout
      obtain ⟨ro, s1⟩ := r
      simp only [] at h hdb hout
      subst h
      have hd : d = 0 := by
        cases hout <;> rfl
      subst hd
      rw [hdb]
      exact updateAt_map _ _ (fun m => by simp [touch]) _ i

/-- C7 on the `dlopen` of a preloaded module, which fails. -/
theorem dlopen_failure_keeps_refcounts_witness :
    (dlopen (Env.ok []) db_preloaded "SceLibKernel".toList).1 = none ∧
    (dlopen (Env.ok []) db_preloaded "SceLibKernel".toList).2._dl_module_db.map (·.refcount)
      = db_preloaded._dl_module_db.map (·.refcount) :=
  ⟨by decide,
   (dlopen_failure_keeps_refcounts (Env.ok []) db_preloaded "SceLibKernel".toList).2.2.2.2
    (by decide)⟩

/-! ## C8: the module identity given to the resolver -/

/-- C8: for the file module registered as `foo`, with the symbol `bar`,
`symbol_lookup` does not complete: the store through the NULL result of
`strrchr` faults. For `ux0:app/foo.suprx` the resolver is called with `foo`. -/
theorem symbol_lookup_faults_without_extension :
    db_noext._dl_module_db = [⟨'f', 0, 0, 0, "foo".toList, [⟨"bar".toList, 0xAAAA⟩]⟩] ∧
    symbol_lookup (Env.ok []) db_noext "foo".toList "bar".toList = none ∧
    (symbol_lookup (Env.ok []) db_dir "ux0:app/foo.suprx".toList "bar".toList).map
        (fun r => (r.1, calls (r.2.trace.drop db_dir.trace.length)))
      = some (0xAAAA + 4096,
          [Call.sceKernelLockReadRWLock, Call.taiGetModuleExportFunc "foo".toList 0xAAAA,
           Call.sceKernelUnlockReadRWLock]) := by
  decide

/-! ## C9: from the source to the resolver -/

/-- C9: after `dldbadd` of the source `$f foo`, `*bar 0x0000AAAA`, `dlopen` of
`foo` yields a handle, and `dlsym` on that handle with `bar` does not reach the
resolver: `symbol_lookup` faults on the name without extension. -/
theorem dlsym_faults_without_extension :
    (dldbadd (Env.ok "$f foo\n*bar 0x0000AAAA\n".toList) State.init db_path).1 = 0 ∧
    (dlopen (Env.ok []) db_noext "foo".toList).1 = some ⟨"foo".toList⟩ ∧
    dlsym (Env.ok []) (dlopen (Env.ok []) db_noext "foo".toList).2 (some ⟨"foo".toList⟩)
      "bar".toList = none := by
  decide

/-- The parse half of the round trip: from the empty state, `dldbadd` on the
source `$<k> <m>`, `*<s> 0x<ds>` returns 0 and leaves the one record of type `k`
named `m`, whose table has the one entry `s` with the number that `ds` writes. -/
theorem dldbadd_round_trip (env : Env) (path : CStr) (k : Char) (m s ds : CStr)
    (hk : k ≠ NUL ∧ k ≠ '\r' ∧ k ≠ '\n') (hm : isName m) (hs : isName s) (hds : isHex ds)
    (hv : hexValue ds < 2 ^ 32)
    (hopen : env.fopen path = some (roundTripSource k m s ds))
    (hlock : 0 ≤ env.ret [] Call.sceKernelLockWriteRWLock)
    (hmem : ∀ t, env.ret t Call.calloc ≠ 0) :
    (dldbadd env State.init path).1 = 0 ∧
    (dldbadd env State.init path).2._dl_module_db = [⟨k, 0, 0, 0, m, [⟨s, hexValue ds⟩]⟩] := by
  have hsp : ∀ c, isspace c = false → c ≠ NUL → c ≠ NUL ∧ c ≠ '\r' ∧ c ≠ '\n' := by
    intro c h0 h1
    refine ⟨h1, ?_, ?_⟩ <;> (intro hc; subst hc; exact absurd h0 (by decide))
  have hmc : ∀ c ∈ m, c ≠ NUL ∧ c ≠ '\r' ∧ c ≠ '\n' :=
    fun c hc => hsp c (hm.2 c hc).1 (hm.2 c hc).2
  have hsc : ∀ c ∈ s, c ≠ NUL ∧ c ≠ '\r' ∧ c ≠ '\n' :=
    fun c hc => hsp c (hs.2 c hc).1 (hs.2 c hc).2
  have hdc : ∀ c ∈ ds, c ≠ NUL ∧ c ≠ '\r' ∧ c ≠ '\n' := by
    intro c hc
    obtain ⟨-, -, -, -, -, h1, h2, h3⟩ := hexval_not_space c (hds.2 c hc)
    exact ⟨h1, h2, h3⟩
  have hl1 : ∀ c ∈ '$' :: k :: ' ' :: m, c ≠ NUL ∧ c ≠ '\r' ∧ c ≠ '\n' := by
    intro c hc
    simp only [List.mem_cons] at hc
    rcases hc with rfl | rfl | rfl | hc
    · decide
    · exact hk
    · decide
    · exact hmc c hc
  have hl2 : ∀ c ∈ '*' :: s ++ ' ' :: '0' :: 'x' :: ds, c ≠ NUL ∧ c ≠ '\r' ∧ c ≠ '\n' := by
    intro c hc
    simp only [List.cons_append, List.mem_cons, List.mem_append] at hc
    rcases hc with rfl | hc | rfl | rfl | rfl | hc
    · decide
    · exact hsc c hc
    · decide
    · decide
    · decide
    · exact hdc c hc
  have hlines : getlines (roundTripSource k m s ds) []
      = [('$' :: k :: ' ' :: m) ++ ['\n'], ('*' :: s ++ ' ' :: '0' :: 'x' :: ds) ++ ['\n']] := by
    have e : roundTripSource k m s ds
        = ('$' :: k :: ' ' :: m) ++ '\n' :: (('*' :: s ++ ' ' :: '0' :: 'x' :: ds) ++ '\n' :: []) := by
      simp [roundTripSource]
    rw [e, getlines_line _ _ (fun c hc => (hl1 c hc).2.2), getlines_line _ _
      (fun c hc => (hl2 c hc).2.2)]
    simp [getlines]
  have hl : ¬ (sys env State.init [] Call.sceKernelLockWriteRWLock).1 < 0 := not_lt.mpr hlock
  have hA := dldbadd_line_module env path 1
    (putNUL (getline_store env.heap (('$' :: k :: ' ' :: m) ++ ['\n']))
      (strcspn_crlf (getline_store env.heap (('$' :: k :: ' ' :: m) ++ ['\n']))))
    (sys env State.init [] Call.sceKernelLockWriteRWLock).2 none k m
    (by rw [cstrAt_stored_off _ _ 0 hl1 (Nat.zero_le _)]; rfl)
    (by rfl)
    (by rw [cstrAt_stored_off _ _ 0 hl1 (Nat.zero_le _)]; exact sscanf_module_line k m hm)
    (hmem _)
  generalize hb1 : putNUL (getline_store env.heap (('$' :: k :: ' ' :: m) ++ ['\n']))
      (strcspn_crlf (getline_store env.heap (('$' :: k :: ' ' :: m) ++ ['\n']))) = b1 at hA
  generalize hAeq : dldbadd_line env path 1 b1
    (sys env State.init [] Call.sceKernelLockWriteRWLock).2 none = A at hA
  obtain ⟨fA, sA, cA⟩ := A
  simp only [] at hA
  obtain ⟨rfl, rfl, hAdb⟩ := hA
  have hB := dldbadd_line_symbol env path 2
    (putNUL (getline_store b1 (('*' :: s ++ ' ' :: '0' :: 'x' :: ds) ++ ['\n']))
      (strcspn_crlf (getline_store b1 (('*' :: s ++ ' ' :: '0' :: 'x' :: ds) ++ ['\n']))))
    sA 0 s (hexValue ds)
    (by rw [cstrAt_stored_off _ _ 0 hl2 (Nat.zero_le _)]; rfl)
    (by rw [cstrAt_stored_off _ _ 0 hl2 (Nat.zero_le _)]; exact sscanf_symbol_line s ds hs hds hv)
    (hmem _)
  generalize hb2 : putNUL (getline_store b1 (('*' :: s ++ ' ' :: '0' :: 'x' :: ds) ++ ['\n']))
      (strcspn_crlf (getline_store b1 (('*' :: s ++ ' ' :: '0' :: 'x' :: ds) ++ ['\n']))) = b2
    at hB
  generalize hBeq : dldbadd_line env path 2 b2 sA (some 0) = B at hB
  obtain ⟨fB, sB, cB⟩ := B
  simp only [] at hB
  obtain ⟨rfl, -, hBdb⟩ := hB
  have hloop : dldbadd_loop env path (getlines (roundTripSource k m s ds) []) env.heap 1
      (sys env State.init [] Call.sceKernelLockWriteRWLock).2 none = (false, sB) := by
    have h0 : (sys env State.init [] Call.sceKernelLockWriteRWLock).2._dl_module_db.length = 0 :=
      rfl
    rw [hlines]
    simp only [dldbadd_loop, hb1, hAeq, h0, hb2, hBeq]
  unfold dldbadd
  simp only [hl, if_false, hopen, hloop, Bool.false_eq_true, unlockWrite_db, true_and]
  rw [hBdb, hAdb]
  rfl

/-- The resolve half of the round trip: for a module that is found, with an
entry for the symbol, and a module identity that can be formed (for a file
module, the base name cut at its last `.`), `dlsym` on a handle of the module
makes the one resolver call with that identity and the identifier of the entry,
and returns the address that the resolver stores when it returns 0, NULL
otherwise. -/
theorem dlsym_found (env : Env) (st : State) (m s : CStr) (i : Nat) (e : dl_symbol_info)
    (ident : CStr)
    (hf : HASH_FIND_STR st._dl_module_db m = some i)
    (hsym : HASH_FIND_SYM (getModule st i).dl_symbols s = some e)
    (hlock : 0 ≤ env.ret st.trace Call.sceKernelLockReadRWLock)
    (hid : (if (getModule st i).type = DL_MODULE_TYPE_FILE then cutLastDot (basename m)
      else some m) = some ident) :
    ∃ st', dlsym env st (some ⟨m⟩) s
        = some (if env.ret (sys env st [] Call.sceKernelLockReadRWLock).2.trace
              (Call.taiGetModuleExportFunc ident e.nid) = 0
            then env.func (sys env st [] Call.sceKernelLockReadRWLock).2.trace ident e.nid
            else 0, st') ∧
      calls st'.trace = calls st.trace ++ [Call.sceKernelLockReadRWLock,
        Call.taiGetModuleExportFunc ident e.nid, Call.sceKernelUnlockReadRWLock] := by
  have hl : ¬ (sys env st [] Call.sceKernelLockReadRWLock).1 < 0 := not_lt.mpr hlock
  have hlookup : ∃ st1, symbol_lookup env st m s
      = some (if env.ret (sys env st [] Call.sceKernelLockReadRWLock).2.trace
              (Call.taiGetModuleExportFunc ident e.nid) = 0
            then env.func (sys env st [] Call.sceKernelLockReadRWLock).2.trace ident e.nid
            else 0, st1) ∧
      st1._dl_err = st._dl_err ∧ st1._dl_errmsg = st._dl_errmsg ∧
      st1._dl_module_db = st._dl_module_db ∧
      calls st1.trace = calls st.trace ++ [Call.sceKernelLockReadRWLock,
        Call.taiGetModuleExportFunc ident e.nid, Call.sceKernelUnlockReadRWLock] := by
    unfold symbol_lookup
    simp only [hl, if_false, sys_db, hf, getModule_sys, hsym]
    by_cases hty : (getModule st i).type = DL_MODULE_TYPE_FILE
    · rw [if_pos hty] at hid
      simp only [hty, if_true, hid]
      exact ⟨_, rfl, rfl, rfl, rfl, by simp [calls, unlockRead, sys_trace]⟩
    · rw [if_neg hty] at hid
      have hm : m = ident := Option.some.inj hid
      subst hm
      simp only [hty, if_false]
      exact ⟨_, rfl, rfl, rfl, rfl, by simp [calls, unlockRead, sys_trace]⟩
  obtain ⟨st1, hlk, -, -, -, htr⟩ := hlookup
  have hkeep : ∀ (c : Prop) [Decidable c] (x : State) (msg : CStr),
      calls (if c then DLERR x msg else x).trace = calls x.trace := by
    intro c _ x msg
    split_ifs <;> rfl
  unfold dlsym
  simp only [hlk]
  exact ⟨_, rfl, by rw [hkeep]; exact htr⟩

/-- For a module that is found and has no entry for the symbol, `dlsym` on a
handle of the module returns NULL and calls no resolver. -/
theorem dlsym_not_found (env : Env) (st : State) (m s : CStr) (i : Nat)
    (hf : HASH_FIND_STR st._dl_module_db m = some i)
    (hsym : HASH_FIND_SYM (getModule st i).dl_symbols s = none)
    (hlock : 0 ≤ env.ret st.trace Call.sceKernelLockReadRWLock) :
    ∃ st', dlsym env st (some ⟨m⟩) s = some (0, st') ∧
      calls st'.trace = calls st.trace
        ++ [Call.sceKernelLockReadRWLock, Call.sceKernelUnlockReadRWLock] := by
  have hl : ¬ (sys env st [] Call.sceKernelLockReadRWLock).1 < 0 := not_lt.mpr hlock
  have hlk : symbol_lookup env st m s
      = some (0, unlockRead env (sys env st [] Call.sceKernelLockReadRWLock).2) := by
    unfold symbol_lookup
    simp only [hl, if_false, sys_db, hf, getModule_sys, hsym]
  have hkeep : ∀ (c : Prop) [Decidable c] (x : State) (msg : CStr),
      calls (if c then DLERR x msg else x).trace = calls x.trace := by
    intro c _ x msg
    split_ifs <;> rfl
  unfold dlsym
  simp only [hlk]
  refine ⟨_, rfl, ?_⟩
  rw [hkeep]
  simp [calls, unlockRead, sys_trace]

/-- The round trip of C9 where the module identity can be formed: for a name `m`
and a symbol `s` that `%s` reads back and hexadecimal digits `ds` that write a
32-bit number, after `dldbadd` of the source `$<k> <m>`, `*<s> 0x<ds>` on the
empty state, `dlsym` on a handle of `m` with `s` makes the one resolver call
with that number and returns the address the resolver stores when it returns 0,
NULL otherwise; with a symbol other than `s` it returns NULL and calls no
resolver. For a file module (`k` is `f`) the hypothesis asks for a `.` in the
base name of `m`. -/
theorem dlsym_round_trip (env : Env) (path : CStr) (k : Char) (m s s' ds ident : CStr)
    (hk : k ≠ NUL ∧ k ≠ '\r' ∧ k ≠ '\n') (hm : isName m) (hs : isName s) (hds : isHex ds)
    (hv : hexValue ds < 2 ^ 32)
    (hopen : env.fopen path = some (roundTripSource k m s ds))
    (hlock : 0 ≤ env.ret [] Call.sceKernelLockWriteRWLock)
    (hmem : ∀ t, env.ret t Call.calloc ≠ 0)
    (hread : ∀ t, 0 ≤ env.ret t Call.sceKernelLockReadRWLock)
    (hid : (if k = DL_MODULE_TYPE_FILE then cutLastDot (basename m) else some m) = some ident)
    (hs' : s' ≠ s) :
    (dldbadd env State.init path).1 = 0 ∧
    (∃ st', dlsym env (dldbadd env State.init path).2 (some ⟨m⟩) s
        = some (if env.ret (sys env (dldbadd env State.init path).2 []
                Call.sceKernelLockReadRWLock).2.trace
              (Call.taiGetModuleExportFunc ident (hexValue ds)) = 0
            then env.func (sys env (dldbadd env State.init path).2 []
                Call.sceKernelLockReadRWLock).2.trace ident (hexValue ds)
            else 0, st') ∧
      calls st'.trace = calls (dldbadd env State.init path).2.trace
        ++ [Call.sceKernelLockReadRWLock,
          Call.taiGetModuleExportFunc ident (hexValue ds), Call.sceKernelUnlockReadRWLock]) ∧
    (∃ st', dlsym env (dldbadd env State.init path).2 (some ⟨m⟩) s' = some (0, st') ∧
      calls st'.trace = calls (dldbadd env State.init path).2.trace
        ++ [Call.sceKernelLockReadRWLock, Call.sceKernelUnlockReadRWLock]) := by
  obtain ⟨hret, hdb⟩ := dldbadd_round_trip env path k m s ds hk hm hs hds hv hopen hlock hmem
  have hf : HASH_FIND_STR (dldbadd env State.init path).2._dl_module_db m = some 0 := by
    rw [hdb]
    simp [HASH_FIND_STR]
  have hrec : getModule (dldbadd env State.init path).2 0
      = ⟨k, 0, 0, 0, m, [⟨s, hexValue ds⟩]⟩ := by
    simp [getModule, hdb, recordAt]
  refine ⟨hret, ?_, ?_⟩
  · exact dlsym_found env _ m s 0 ⟨s, hexValue ds⟩ ident hf
      (by rw [hrec]; simp [HASH_FIND_SYM]) (hread _) (by rw [hrec]; exact hid)
  · exact dlsym_not_found env _ m s' 0 hf
      (by rw [hrec]; simp [HASH_FIND_SYM, Ne.symm hs']) (hread _)

/-- The round trip on Scenario A: `$f foo.suprx`, `*bar 0x0000AAAA`. -/
theorem dlsym_round_trip_scenario :
    ∃ st', dlsym (Env.ok (roundTripSource 'f' "foo.suprx".toList "bar".toList "0000AAAA".toList))
        (dldbadd (Env.ok (roundTripSource 'f' "foo.suprx".toList "bar".toList
          "0000AAAA".toList)) State.init db_path).2 (some ⟨"foo.suprx".toList⟩) "bar".toList
        = some (0xAAAA + 4096, st') :=
  (dlsym_round_trip (Env.ok (roundTripSource 'f' "foo.suprx".toList "bar".toList
      "0000AAAA".toList)) db_path 'f' "foo.suprx".toList "bar".toList "baz".toList
      "0000AAAA".toList "foo".toList (by decide) (by decide) (by decide) (by decide)
      (by decide) rfl (by decide) (fun _ => (by decide : (1 : Int) ≠ 0))
      (fun _ => Int.le_refl 0) (by decide) (by decide)).2.1.imp (fun _ h => h.1)

/-! ## C10: a symbol given twice -/

/-- Two adjacent lines: when the loop of `dldbadd`, with a current module whose
table has no two entries of one name, reads two `*` lines that give the same symbol name, with
identifiers `v1` then `v2`, and `calloc` yields memory, then `failed` stays clear,
the table of the current module ends with exactly one entry of that name, with
identifier `v2`, the entries of the other names are the ones it had, and nothing
else in the database changes. -/
theorem dldbadd_loop_duplicate_adjacent (env : Env) (path : CStr) (raw1 raw2 buf : List Char)
    (n : Nat) (s : State) (i : Nat) (name : CStr) (v1 v2 : Nat)
    (hi : i < s._dl_module_db.length)
    (hnodup : ((getModule s i).dl_symbols.map (·.name)).Nodup)
    (hstar1 : (cutLine raw1).head? = some '*')
    (hscan1 : sscanf_symbol (cutLine raw1) = some (name, v1))
    (hstar2 : (cutLine raw2).head? = some '*')
    (hscan2 : sscanf_symbol (cutLine raw2) = some (name, v2))
    (hmem : ∀ t, env.ret t Call.calloc ≠ 0) :
    (dldbadd_loop env path [raw1, raw2] buf n s (some i)).1 = false ∧
    (getModule (dldbadd_loop env path [raw1, raw2] buf n s (some i)).2 i).dl_symbols.filter
        (fun e => e.name = name) = [⟨name, v2⟩] ∧
    (getModule (dldbadd_loop env path [raw1, raw2] buf n s (some i)).2 i).dl_symbols.filter
        (fun e => e.name ≠ name) = (getModule s i).dl_symbols.filter (fun e => e.name ≠ name) ∧
    (dldbadd_loop env path [raw1, raw2] buf n s (some i)).2._dl_module_db
      = updateAt (fun m => { m with dl_symbols :=
          (getModule (dldbadd_loop env path [raw1, raw2] buf n s (some i)).2 i).dl_symbols })
          s._dl_module_db i := by
  have hA := dldbadd_line_symbol env path n
    (putNUL (getline_store buf raw1) (strcspn_crlf (getline_store buf raw1))) s i name v1
    (by rw [cstrAt_stored]; exact hstar1) (by rw [cstrAt_stored]; exact hscan1) (hmem _)
  generalize hbuf1 : putNUL (getline_store buf raw1) (strcspn_crlf (getline_store buf raw1))
    = b1 at hA
  generalize hAeq : dldbadd_line env path n b1 s (some i) = A at hA
  obtain ⟨fA, sA, cA⟩ := A
  simp only [] at hA
  obtain ⟨rfl, rfl, hAdb⟩ := hA
  have hB := dldbadd_line_symbol env path (n + 1)
    (putNUL (getline_store b1 raw2) (strcspn_crlf (getline_store b1 raw2))) sA i name v2
    (by rw [cstrAt_stored]; exact hstar2) (by rw [cstrAt_stored]; exact hscan2) (hmem _)
  generalize hbuf2 : putNUL (getline_store b1 raw2) (strcspn_crlf (getline_store b1 raw2))
    = b2 at hB
  generalize hBeq : dldbadd_line env path (n + 1) b2 sA (some i) = B at hB
  obtain ⟨fB, sB, cB⟩ := B
  simp only [] at hB
  obtain ⟨rfl, rfl, hBdb⟩ := hB
  have hloop : dldbadd_loop env path [raw1, raw2] buf n s (some i) = (false, sB) := by
    simp only [dldbadd_loop, hbuf1, hAeq, hbuf2, hBeq]
  rw [hloop]
  simp only []
  rw [hAdb, updateAt_updateAt] at hBdb
  have htbl : (getModule sB i).dl_symbols
      = (getModule s i).dl_symbols.filter (fun e => e.name ≠ name) ++ [⟨name, v2⟩] := by
    unfold getModule
    rw [hBdb, recordAt_updateAt]
    simp only [hi, and_self, if_true]
    exact HASH_DEL_SYM_twice _ name v1 v2 hnodup
  refine ⟨trivial, ?_, ?_, ?_⟩
  · rw [htbl]
    simp [List.filter_append, List.filter_filter]
  · rw [htbl]
    simp [List.filter_append, List.filter_filter]
  · rw [hBdb]
    apply updateAt_congr
    simp only [htbl]
    congr 1
    exact HASH_DEL_SYM_twice _ name v1 v2 hnodup

theorem kinds_updateAt (f : dl_module_info → dl_module_info)
    (hf : ∀ m, (f m).name = m.name ∧ (f m).type = m.type) (db : List dl_module_info) (i : Nat) :
    (updateAt f db i).map (fun m => (m.name, m.type)) = db.map (fun m => (m.name, m.type)) :=
  updateAt_map (fun m => (m.name, m.type)) f
    (fun m => by
      show ((f m).name, (f m).type) = (m.name, m.type)
      rw [(hf m).1, (hf m).2]) db i

/-- A `$` line whose text from the fourth byte on is a name that the table has:
the state is left as it is and the current module is the record found. -/
theorem dldbadd_line_existing (env : Env) (path : CStr) (n : Nat) (linebuf : List Char)
    (s : State) (cur : Option Nat) (k sp : Char) (m : CStr) (i : Nat)
    (hk : k ≠ NUL ∧ k ≠ '\r' ∧ k ≠ '\n') (hsp : sp ≠ NUL ∧ sp ≠ '\r' ∧ sp ≠ '\n')
    (hm : ∀ c ∈ m, c ≠ NUL ∧ c ≠ '\r' ∧ c ≠ '\n')
    (hf : HASH_FIND_STR s._dl_module_db m = some i) :
    dldbadd_line env path n (lineBuffer linebuf ('$' :: k :: sp :: m ++ ['\n'])) s cur
      = (false, s, some i) := by
  have hline : ∀ c ∈ '$' :: k :: sp :: m, c ≠ NUL ∧ c ≠ '\r' ∧ c ≠ '\n' := by
    intro c hc
    rcases List.mem_cons.mp hc with rfl | hc
    · decide
    rcases List.mem_cons.mp hc with rfl | hc
    · exact hk
    rcases List.mem_cons.mp hc with rfl | hc
    · exact hsp
    · exact hm c hc
  have h0 : cstrAt (lineBuffer linebuf ('$' :: k :: sp :: m ++ ['\n'])) 0 = '$' :: k :: sp :: m :=
    cstrAt_stored_off linebuf ('$' :: k :: sp :: m) 0 hline (Nat.zero_le _)
  have h3 : cstrAt (lineBuffer linebuf ('$' :: k :: sp :: m ++ ['\n'])) 3 = m :=
    cstrAt_stored_off linebuf ('$' :: k :: sp :: m) 3 hline (by simp)
  have h1 : ¬ ((some '$' : Option Char) = some '#') := by decide
  have h2 : ¬ ((some '$' : Option Char) = some '*') := by decide
  unfold dldbadd_line
  simp only [h0, h3, List.head?_cons, h1, h2, if_true, if_false, hf]

/-- A `#` or `*` line with a current module: the current module stays, no record
is added, every name and kind stays, and no record but the current one is
written. -/
theorem dldbadd_line_current (env : Env) (path : CStr) (n : Nat) (buf : List Char) (s : State)
    (i : Nat)
    (h : (cstrAt buf 0).head? = some '#' ∨ (cstrAt buf 0).head? = some '*') :
    (dldbadd_line env path n buf s (some i)).2.2 = some i ∧
    kinds (dldbadd_line env path n buf s (some i)).2.1 = kinds s ∧
    ∀ j, j ≠ i → getModule (dldbadd_line env path n buf s (some i)).2.1 j = getModule s j := by
  have hget : ∀ (f : dl_module_info → dl_module_info) (x : State) (j : Nat), j ≠ i →
      x._dl_module_db = s._dl_module_db → getModule (setModule x i f) j = getModule s j := by
    intro f x j hj hx
    simp [getModule, setModule, recordAt_updateAt, hj, hx]
  unfold dldbadd_line
  simp only []
  by_cases h1 : (cstrAt buf 0).head? = some '#'
  · rw [if_pos h1]
    cases sscanf_sid (cstrAt buf 0) with
    | none => exact ⟨rfl, rfl, fun _ _ => rfl⟩
    | some v =>
      refine ⟨rfl, ?_, fun j hj => hget _ s j hj rfl⟩
      exact kinds_updateAt (fun m => { m with sid := v }) (fun _ => ⟨rfl, rfl⟩) s._dl_module_db i
  rw [if_neg h1]
  have h2 : (cstrAt buf 0).head? = some '*' := h.resolve_left h1
  rw [if_pos h2]
  by_cases ha : (sys env s [] Call.calloc).1 = 0
  · rw [if_pos ha]
    exact ⟨rfl, rfl, fun _ _ => rfl⟩
  rw [if_neg ha]
  cases sscanf_symbol (cstrAt buf 0) with
  | none => exact ⟨rfl, rfl, fun _ _ => rfl⟩
  | some p =>
    obtain ⟨name, nid⟩ := p
    simp only []
    have hk : kinds (setModule (sys env s [] Call.calloc).2 i (fun m => { m with dl_symbols :=
        (HASH_REPLACE_STR (getModule (sys env s [] Call.calloc).2 i).dl_symbols
          ⟨name, nid⟩).1 })) = kinds s :=
      kinds_updateAt (fun m => { m with dl_symbols :=
        (HASH_REPLACE_STR (getModule (sys env s [] Call.calloc).2 i).dl_symbols
          ⟨name, nid⟩).1 }) (fun _ => ⟨rfl, rfl⟩) s._dl_module_db i
    cases (HASH_REPLACE_STR (getModule (sys env s [] Call.calloc).2 i).dl_symbols
        ⟨name, nid⟩).2 with
    | none => exact ⟨rfl, hk, fun j hj => hget _ _ j hj rfl⟩
    | some d =>
      refine ⟨rfl, ?_, fun j hj => ?_⟩
      · exact hk
      · exact (getModule_sys env _ _ _ j).trans (hget _ _ j hj rfl)

/-- A `#` line that `sscanf` reads stores its value in the current module. -/
theorem dldbadd_line_sid (env : Env) (path : CStr) (n : Nat) (buf : List Char) (s : State)
    (i : Nat) (v : Nat) (hhash : (cstrAt buf 0).head? = some '#')
    (hscan : sscanf_sid (cstrAt buf 0) = some v) :
    dldbadd_line env path n buf s (some i)
      = (false, setModule s i (fun m => { m with sid := v }), some i) := by
  unfold dldbadd_line
  simp only [hhash, if_true, hscan]

/-- One line of a source keeps the names and kinds that the table has, in their
places. -/
theorem dldbadd_line_kinds (env : Env) (path : CStr) (n : Nat) (buf : List Char) (s : State)
    (cur : Option Nat) : kinds s <+: kinds (dldbadd_line env path n buf s cur).2.1 := by
  cases cur with
  | some i =>
    by_cases h : (cstrAt buf 0).head? = some '#' ∨ (cstrAt buf 0).head? = some '*'
    · rw [(dldbadd_line_current env path n buf s i h).2.1]
    · have h1 : ¬ (cstrAt buf 0).head? = some '#' := fun x => h (.inl x)
      have h2 : ¬ (cstrAt buf 0).head? = some '*' := fun x => h (.inr x)
      unfold dldbadd_line
      simp only [h1, h2, if_false]
      by_cases h3 : (cstrAt buf 0).head? = some '$'
      · rw [if_pos h3]
        cases HASH_FIND_STR s._dl_module_db (cstrAt buf 3) with
        | some j => exact List.prefix_refl _
        | none =>
          simp only []
          by_cases ha : (sys env s [] Call.calloc).1 = 0
          · rw [if_pos ha]
            exact List.prefix_refl _
          rw [if_neg ha]
          cases sscanf_module (cstrAt buf 0) with
          | none => exact List.prefix_refl _
          | some p => exact ⟨_, (List.map_append _ _ _).symm⟩
      · rw [if_neg h3]
  | none =>
    by_cases h3 : (cstrAt buf 0).head? = some '$'
    · have h1 : ¬ (cstrAt buf 0).head? = some '#' := by rw [h3]; decide
      have h2 : ¬ (cstrAt buf 0).head? = some '*' := by rw [h3]; decide
      unfold dldbadd_line
      simp only [h1, h2, h3, if_false, if_true]
      cases HASH_FIND_STR s._dl_module_db (cstrAt buf 3) with
      | some j => exact List.prefix_refl _
      | none =>
        simp only []
        by_cases ha : (sys env s [] Call.calloc).1 = 0
        · rw [if_pos ha]
          exact List.prefix_refl _
        rw [if_neg ha]
        cases sscanf_module (cstrAt buf 0) with
        | none => exact List.prefix_refl _
        | some p => exact ⟨_, (List.map_append _ _ _).symm⟩
    · unfold dldbadd_line
      simp only []
      by_cases h1 : (cstrAt buf 0).head? = some '#'
      · rw [if_pos h1]
        exact List.prefix_refl _
      rw [if_neg h1]
      by_cases h2 : (cstrAt buf 0).head? = some '*'
      · rw [if_pos h2]
        exact List.prefix_refl _
      rw [if_neg h2, if_neg h3]

theorem dldbadd_loop_kinds (env : Env) (path : CStr) (lines : List (List Char)) :
    ∀ (buf : List Char) (n : Nat) (s : State) (cur : Option Nat),
      kinds s <+: kinds (dldbadd_loop env path lines buf n s cur).2 := by
  induction lines with
  | nil => intro _ _ s _; exact List.prefix_refl _
  | cons raw rest ih =>
    intro buf n s cur
    have hstep := dldbadd_line_kinds env path n
      (putNUL (getline_store buf raw) (strcspn_crlf (getline_store buf raw))) s cur
    unfold dldbadd_loop
    simp only []
    generalize dldbadd_line env path n
      (putNUL (getline_store buf raw) (strcspn_crlf (getline_store buf raw))) s cur = step
      at hstep
    obtain ⟨failed, s1, cur1⟩ := step
    cases failed with
    | true => exact hstep
    | false =>
      simp only [] at hstep ⊢
      exact hstep.trans (ih _ (n + 1) s1 cur1)

/-- Function `dldbadd` leaves no record at all, or every name and kind that the
table had in its place. -/
theorem dldbadd_kinds (env : Env) (s : State) (path : CStr) :
    kinds (dldbadd env s path).2 = [] ∨ kinds s <+: kinds (dldbadd env s path).2 := by
  unfold dldbadd
  simp only [sys_fst]
  by_cases hl : env.ret s.trace Call.sceKernelLockWriteRWLock < 0
  · rw [if_pos hl]
    exact .inr (List.prefix_refl _)
  rw [if_neg hl]
  cases env.fopen path with
  | none => exact .inr (List.prefix_refl _)
  | some content =>
    simp only []
    have hloop := dldbadd_loop_kinds env path (getlines content []) env.heap 1
      (sys env s [] Call.sceKernelLockWriteRWLock).2 none
    generalize dldbadd_loop env path (getlines content []) env.heap 1
      (sys env s [] Call.sceKernelLockWriteRWLock).2 none = p at hloop
    obtain ⟨failed, s2⟩ := p
    cases failed with
    | false => exact .inr hloop
    | true =>
      simp only [if_true]
      by_cases hl2 : env.ret s2.trace Call.sceKernelLockWriteRWLock < 0
      · right
        have : (dldbfreeall env s2).2._dl_module_db = s2._dl_module_db := by
          simp [dldbfreeall, hl2]
        simpa [kinds, this] using hloop
      · left
        simp [kinds, dldbfreeall_db env s2 (not_lt.mp hl2)]

theorem dlopen_kinds (env : Env) (s : State) (n : CStr) :
    kinds (dlopen env s n).2 = kinds s := by
  cases hf : HASH_FIND_STR s._dl_module_db n with
  | none => simp [dlopen, hf, kinds]
  | some j =>
    obtain ⟨u, d, X, hdb, -, -⟩ := dlopen_summary env s n j hf
    unfold kinds
    rw [hdb]
    exact kinds_updateAt (touch u d) (fun _ => ⟨rfl, rfl⟩) _ _

theorem dlclose_kinds (env : Env) (s : State) (h : dl_handle) (r : Int) (s1 : State)
    (hcl : dlclose env s h = some (r, s1)) : kinds s1 = kinds s := by
  cases hf : HASH_FIND_STR s._dl_module_db h.name with
  | none =>
    unfold dlclose at hcl
    rw [hf] at hcl
    simp only [sys_fst] at hcl
    split_ifs at hcl
    simp only [Option.some.injEq, Prod.mk.injEq] at hcl
    obtain ⟨-, rfl⟩ := hcl
    simp [kinds]
  | some j =>
    obtain ⟨r', s1', u, d, X, hcl', hdb, -, -⟩ := dlclose_summary env s h j hf
    rw [hcl] at hcl'
    simp only [Option.some.injEq, Prod.mk.injEq] at hcl'
    obtain ⟨rfl, rfl⟩ := hcl'
    unfold kinds
    rw [hdb]
    exact kinds_updateAt (touch u d) (fun _ => ⟨rfl, rfl⟩) _ _

theorem symbol_lookup_db (env : Env) (s : State) (module symbol : CStr) (ret : Nat)
    (s1 : State) (h : symbol_lookup env s module symbol = some (ret, s1)) :
    s1._dl_module_db = s._dl_module_db := by
  unfold symbol_lookup at h
  simp only [sys_fst, sys_db, getModule_sys] at h
  by_cases hl : env.ret s.trace Call.sceKernelLockReadRWLock < 0
  · rw [if_pos hl] at h
    simp only [Option.some.injEq, Prod.mk.injEq] at h
    obtain ⟨-, rfl⟩ := h
    simp
  rw [if_neg hl] at h
  cases hfi : HASH_FIND_STR s._dl_module_db module with
  | none =>
    rw [hfi] at h
    simp only [Option.some.injEq, Prod.mk.injEq] at h
    obtain ⟨-, rfl⟩ := h
    simp [unlockRead]
  | some i =>
    rw [hfi] at h
    simp only [] at h
    cases hs : HASH_FIND_SYM (getModule s i).dl_symbols symbol with
    | none =>
      rw [hs] at h
      simp only [Option.some.injEq, Prod.mk.injEq] at h
      obtain ⟨-, rfl⟩ := h
      simp [unlockRead]
    | some e =>
      rw [hs] at h
      simp only [] at h
      by_cases ht : (getModule s i).type = DL_MODULE_TYPE_FILE
      · rw [if_pos ht] at h
        cases hc : cutLastDot (basename module) with
        | none => rw [hc] at h; exact absurd h (by simp)
        | some name =>
          rw [hc] at h
          simp only [Option.some.injEq, Prod.mk.injEq] at h
          obtain ⟨-, rfl⟩ := h
          simp [unlockRead]
      · rw [if_neg ht] at h
        simp only [Option.some.injEq, Prod.mk.injEq] at h
        obtain ⟨-, rfl⟩ := h
        simp [unlockRead]

theorem dlsym_default_db (env : Env) (symbol : CStr) (ms : List CStr) :
    ∀ (s : State) (r : Nat) (s1 : State), dlsym_default env symbol ms s = some (r, s1) →
      s1._dl_module_db = s._dl_module_db := by
  induction ms with
  | nil =>
    intro s r s1 h
    unfold dlsym_default at h
    simp only [Option.some.injEq, Prod.mk.injEq] at h
    obtain ⟨-, rfl⟩ := h
    split_ifs <;> simp
  | cons m ms ih =>
    intro s r s1 h
    unfold dlsym_default at h
    cases hlk : symbol_lookup env s m symbol with
    | none => rw [hlk] at h; exact absurd h (by simp)
    | some p =>
      obtain ⟨ret, s2⟩ := p
      rw [hlk] at h
      simp only [] at h
      have h2 := symbol_lookup_db env s m symbol ret s2 hlk
      by_cases hr : ret ≠ 0
      · rw [if_pos hr] at h
        simp only [Option.some.injEq, Prod.mk.injEq] at h
        obtain ⟨-, rfl⟩ := h
        exact h2
      · rw [if_neg hr] at h
        exact (ih s2 r s1 h).trans h2

/-- Function `dlsym` writes no record. -/
theorem dlsym_db (env : Env) (s : State) (handle : Option dl_handle) (symbol : CStr) (r : Nat)
    (s1 : State) (h : dlsym env s handle symbol = some (r, s1)) :
    s1._dl_module_db = s._dl_module_db := by
  cases handle with
  | none => exact dlsym_default_db env symbol _ s r s1 h
  | some hd =>
    unfold dlsym at h
    simp only [] at h
    cases hlk : symbol_lookup env s hd.name symbol with
    | none => rw [hlk] at h; exact absurd h (by simp)
    | some p =>
      obtain ⟨ret, s2⟩ := p
      rw [hlk] at h
      simp only [Option.some.injEq, Prod.mk.injEq] at h
      obtain ⟨-, rfl⟩ := h
      have h2 := symbol_lookup_db env s hd.name symbol ret s2 hlk
      split_ifs
      · simpa using h2
      · exact h2

/-- Along a sequence of calls, the table was emptied at some point, or every name
and kind that it had at the start is still in its place. -/
theorem Calls_kinds (env : Env) (s0 s : State) (h : Calls env s0 s) :
    (∃ mid, Calls env s0 mid ∧ mid._dl_module_db = [] ∧ Calls env mid s) ∨
    kinds s0 <+: kinds s := by
  induction h with
  | refl => exact .inr (List.prefix_refl _)
  | dldbadd s path hc ih =>
    rcases ih with ⟨mid, h1, h2, h3⟩ | ih
    · exact .inl ⟨mid, h1, h2, .dldbadd mid s path h3⟩
    · rcases dldbadd_kinds env s path with he | hp
      · exact .inl ⟨_, .dldbadd s0 s path hc, List.map_eq_nil_iff.mp he, .refl _⟩
      · exact .inr (ih.trans hp)
  | dlopen s n hc ih =>
    rcases ih with ⟨mid, h1, h2, h3⟩ | ih
    · exact .inl ⟨mid, h1, h2, .dlopen mid s n h3⟩
    · right
      rw [dlopen_kinds]
      exact ih
  | dlclose s hd r s1 hc hcl ih =>
    rcases ih with ⟨mid, h1, h2, h3⟩ | ih
    · exact .inl ⟨mid, h1, h2, .dlclose mid s hd r s1 h3 hcl⟩
    · right
      rw [dlclose_kinds env s hd r s1 hcl]
      exact ih
  | dlsym s handle symbol r s1 hc hsy ih =>
    rcases ih with ⟨mid, h1, h2, h3⟩ | ih
    · exact .inl ⟨mid, h1, h2, .dlsym mid s handle symbol r s1 h3 hsy⟩
    · right
      unfold kinds at ih ⊢
      rw [dlsym_db env s handle symbol r s1 hsy]
      exact ih

/-- Where the lookup of the `$` case finds the record: a `$` line whose text from
the fourth byte on is a name that the table has (the key of the lookup in
`dldbadd`) adds no record and changes nothing,
whatever its kind character: the loop goes on with the record found as current
module. A `#` or `*` line that follows keeps that current module, adds no
record, leaves every name and kind as it is, and writes no other record; a `#`
line that is read stores its SID in that record and a `*` line that is read adds
its symbol to the table of that record. Along every sequence of `dldbadd`,
`dlopen`, `dlclose` and `dlsym` calls, as long as no failing `dldbadd` has
emptied the table, every record that was registered is in its place with the
name and the kind it had. -/
theorem registered_kind_never_changes (env : Env) (path : CStr) :
    (∀ (n : Nat) (linebuf : List Char) (s : State) (cur : Option Nat) (k sp : Char) (m : CStr)
        (i : Nat) (rest : List (List Char)),
      (k ≠ NUL ∧ k ≠ '\r' ∧ k ≠ '\n') → (sp ≠ NUL ∧ sp ≠ '\r' ∧ sp ≠ '\n') →
      (∀ c ∈ m, c ≠ NUL ∧ c ≠ '\r' ∧ c ≠ '\n') →
      HASH_FIND_STR s._dl_module_db m = some i →
      dldbadd_line env path n (lineBuffer linebuf ('$' :: k :: sp :: m ++ ['\n'])) s cur
        = (false, s, some i) ∧
      dldbadd_loop env path (('$' :: k :: sp :: m ++ ['\n']) :: rest) linebuf n s cur
        = dldbadd_loop env path rest (lineBuffer linebuf ('$' :: k :: sp :: m ++ ['\n']))
            (n + 1) s (some i)) ∧
    (∀ (n : Nat) (buf : List Char) (s : State) (i : Nat),
      ((cstrAt buf 0).head? = some '#' ∨ (cstrAt buf 0).head? = some '*') →
      (dldbadd_line env path n buf s (some i)).2.2 = some i ∧
      kinds (dldbadd_line env path n buf s (some i)).2.1 = kinds s ∧
      ∀ j, j ≠ i → getModule (dldbadd_line env path n buf s (some i)).2.1 j = getModule s j) ∧
    (∀ (n : Nat) (buf : List Char) (s : State) (i : Nat) (v : Nat),
      (cstrAt buf 0).head? = some '#' → sscanf_sid (cstrAt buf 0) = some v →
      (dldbadd_line env path n buf s (some i)).2.1._dl_module_db
        = updateAt (fun r => { r with sid := v }) s._dl_module_db i) ∧
    (∀ (n : Nat) (buf : List Char) (s : State) (i : Nat) (name : CStr) (nid : Nat),
      (cstrAt buf 0).head? = some '*' → sscanf_symbol (cstrAt buf 0) = some (name, nid) →
      env.ret s.trace Call.calloc ≠ 0 →
      (dldbadd_line env path n buf s (some i)).2.1._dl_module_db
        = updateAt (fun r => { r with
            dl_symbols := HASH_DEL_SYM r.dl_symbols name ++ [⟨name, nid⟩] }) s._dl_module_db i) ∧
    (∀ s0 s : State, Calls env s0 s →
      (∃ mid, Calls env s0 mid ∧ mid._dl_module_db = [] ∧ Calls env mid s) ∨
      (kinds s0 <+: kinds s ∧
        ∀ i, i < s0._dl_module_db.length →
          (getModule s i).name = (getModule s0 i).name ∧
          (getModule s i).type = (getModule s0 i).type)) := by
  refine ⟨?_, ?_, ?_, ?_, ?_⟩
  · intro n linebuf s cur k sp m i rest hk hsp hm hf
    have h := dldbadd_line_existing env path n linebuf s cur k sp m i hk hsp hm hf
    refine ⟨h, ?_⟩
    unfold lineBuffer at h
    conv_lhs => unfold dldbadd_loop
    simp only [h]
    rfl
  · intro n buf s i h
    exact dldbadd_line_current env path n buf s i h
  · intro n buf s i v hhash hscan
    rw [dldbadd_line_sid env path n buf s i v hhash hscan]
    rfl
  · intro n buf s i name nid hstar hscan hmem
    exact (dldbadd_line_symbol env path n buf s i name nid hstar hscan hmem).2.2
  · intro s0 s hc
    rcases Calls_kinds env s0 s hc with h | h
    · exact .inl h
    · refine .inr ⟨h, ?_⟩
      obtain ⟨t, ht⟩ := h
      intro i hi
      have hrec : ∀ (db : List dl_module_info) (j : Nat), j < db.length →
          ((recordAt db j).name, (recordAt db j).type)
            = (db.map (fun m => (m.name, m.type))).getD j ([], 'x') := by
        intro db
        induction db with
        | nil => intro j hj; simp at hj
        | cons a db ih =>
          intro j hj
          cases j with
          | zero => rfl
          | succ j => exact ih j (by simpa using hj)
      have hlen : i < s._dl_module_db.length := by
        have := congrArg List.length ht
        simp [kinds] at this
        omega
      have e1 := hrec s0._dl_module_db i hi
      have e2 := hrec s._dl_module_db i hlen
      have e3 : (s._dl_module_db.map (fun m => (m.name, m.type))).getD i ([], 'x')
          = (s0._dl_module_db.map (fun m => (m.name, m.type))).getD i ([], 'x') := by
        have ht2 : s._dl_module_db.map (fun m => (m.name, m.type))
            = s0._dl_module_db.map (fun m => (m.name, m.type)) ++ t := ht.symm
        rw [ht2, List.getD_append _ _ _ _ (by simpa using hi)]
      have e4 := e2.trans (e3.trans e1.symm)
      simp only [Prod.mk.injEq] at e4
      exact e4

/-- On `db_foo`, where `foo.suprx` is registered with kind `f`: the line
`$s foo.suprx` leaves the state as it is with that record as current module, and
after the source `$s foo.suprx`, `*baz 0x0000BBBB`, `#0x00000005` the table has
the one record `foo.suprx`, of kind `f`, with the symbols `bar` and `baz` and the
SID 5. -/
theorem registered_kind_never_changes_witness :
    dldbadd_line (Env.ok []) db_path 1 (lineBuffer [] "$s foo.suprx\n".toList) db_foo none
      = (false, db_foo, some 0) ∧
    kinds db_foo = [("foo.suprx".toList, 'f')] ∧
    kinds db_foo_reopened = [("foo.suprx".toList, 'f')] ∧
    (getModule db_foo_reopened 0).dl_symbols.map (fun e => e.name)
      = ["bar".toList, "baz".toList] ∧
    (getModule db_foo_reopened 0).sid = 5 :=
  ⟨((registered_kind_never_changes (Env.ok []) db_path).1 1 [] db_foo none 's' ' '
      "foo.suprx".toList 0 [] (by decide) (by decide) (by decide) (by decide)).1,
    by decide, by decide, by decide, by decide⟩

/-- C11: with `foo.suprx` registered with kind `f`, the source `$s  foo.suprx`
(two blanks), `*baz 0x0000BBBB` is read without error; its `$` line names the
registered `foo.suprx`, and a new record is created: the table then has two
records named `foo.suprx`, of kinds `f` and `s`, the symbol `baz` is in the new
record and the existing record has `bar` only. The same happens for a blank
after the name. -/
theorem dollar_line_adds_second_record :
    kinds db_foo = [("foo.suprx".toList, 'f')] ∧
    sscanf_module "$s  foo.suprx".toList = some ('s', "foo.suprx".toList) ∧
    (dldbadd (Env.ok "$s  foo.suprx\n*baz 0x0000BBBB\n".toList) db_foo db_path).1 = 0 ∧
    db_foo_twice._dl_err = false ∧
    kinds db_foo_twice = [("foo.suprx".toList, 'f'), ("foo.suprx".toList, 's')] ∧
    (getModule db_foo_twice 0).dl_symbols.map (fun e => e.name) = ["bar".toList] ∧
    (getModule db_foo_twice 1).dl_symbols.map (fun e => e.name) = ["baz".toList] ∧
    sscanf_module "$s foo.suprx ".toList = some ('s', "foo.suprx".toList) ∧
    kinds (dldbadd (Env.ok "$s foo.suprx \n".toList) db_foo db_path).2
      = [("foo.suprx".toList, 'f'), ("foo.suprx".toList, 's')] := by
  decide

/-! ## C12: a failing `dldbadd` discards the earlier sources -/

/-- C13: on the freshly populated database with the one system module `SceNet`
(refcount 0, service 0x100), `dldbfreeall` calls `sceSysmoduleUnloadModule(0x100)`;
on the database with `SceNet` opened once and `foo.suprx` never opened, it calls
the unloader for both, for `foo.suprx` with the uid 0 that no load has set. It
returns 0 and leaves the database empty. -/
theorem dldbfreeall_unloads_unopened :
    (db_scenet._dl_module_db.map (fun m => (m.name, m.refcount)) = [("SceNet".toList, 0)]) ∧
    calls ((dldbfreeall (Env.ok []) db_scenet).2.trace.drop db_scenet.trace.length)
      = [Call.sceKernelLockWriteRWLock, Call.sceSysmoduleUnloadModule 0x100,
         Call.sceKernelUnlockWriteRWLock] ∧
    (db_two._dl_module_db.map (fun m => (m.name, m.refcount))
      = [("SceNet".toList, 1), ("foo.suprx".toList, 0)]) ∧
    calls ((dldbfreeall (Env.ok []) db_two).2.trace.drop db_two.trace.length)
      = [Call.sceKernelLockWriteRWLock, Call.sceSysmoduleUnloadModule 0x100,
         Call.sceKernelStopUnloadModule 0, Call.sceKernelUnlockWriteRWLock] ∧
    (dldbfreeall (Env.ok []) db_two).1 = 0 ∧
    (dldbfreeall (Env.ok []) db_two).2._dl_module_db = [] := by
  decide

/-! ## C14: `dldbfreeall` twice -/

/-- On an empty database `dldbfreeall`, when it gets the lock, returns 0 and does
nothing but take and release the lock. -/
theorem dldbfreeall_empty (env : Env) (s : State) (hdb : s._dl_module_db = [])
    (hlock : 0 ≤ env.ret s.trace Call.sceKernelLockWriteRWLock) :
    dldbfreeall env s = (0, unlockWrite env (sys env s [] Call.sceKernelLockWriteRWLock).2) := by
  have hl : ¬ env.ret s.trace Call.sceKernelLockWriteRWLock < 0 := not_lt.mpr hlock
  unfold dldbfreeall
  simp only [sys_fst, hl, if_false, sys_db, hdb, dldbfreeall_loop]

/-- C14, as stated, fails: where the write lock is refused, `dldbfreeall` on the
database with `SceNet` and `foo.suprx` returns -1, raises the error `failed to
acquire write lock` and leaves both records, and a second call does the same; on
the empty database it returns -1 as well. -/
theorem dldbfreeall_lock_refused :
    moduleNames db_two = ["SceNet".toList, "foo.suprx".toList] ∧
    (dldbfreeall Env.lockRefused db_two).1 = -1 ∧
    (dldbfreeall Env.lockRefused db_two).2._dl_module_db = db_two._dl_module_db ∧
    (dlerror (dldbfreeall Env.lockRefused db_two).2).1
      = some "Error: failed to acquire write lock\n".toList ∧
    (dldbfreeall Env.lockRefused (dldbfreeall Env.lockRefused db_two).2).1 = -1 ∧
    (dldbfreeall Env.lockRefused (dldbfreeall Env.lockRefused db_two).2).2._dl_module_db
      = db_two._dl_module_db ∧
    State.init._dl_module_db = [] ∧
    (dldbfreeall Env.lockRefused State.init).1 = -1 ∧
    (dldbfreeall Env.lockRefused State.init).2._dl_err = true := by
  decide

/-- C14, amended: for every state, when the write lock is granted to the first
`dldbfreeall` the database is empty after it; when it is also granted to the
second `dldbfreeall`, that call returns 0, calls no loader and no unloader, and
does nothing but take and release the lock, so the database stays empty and the
error slot stays as it is; and `dldbfreeall` on an empty database, when the lock
is granted, likewise returns 0 and does nothing but take and release the lock. -/
theorem dldbfreeall_twice (env : Env) (s : State)
    (hlock1 : 0 ≤ env.ret s.trace Call.sceKernelLockWriteRWLock)
    (hlock2 : 0 ≤ env.ret (dldbfreeall env s).2.trace Call.sceKernelLockWriteRWLock) :
    (dldbfreeall env s).1 = 0 ∧
    (dldbfreeall env s).2._dl_module_db = [] ∧
    dldbfreeall env (dldbfreeall env s).2
      = (0, unlockWrite env
          (sys env (dldbfreeall env s).2 [] Call.sceKernelLockWriteRWLock).2) ∧
    modEvents (dldbfreeall env (dldbfreeall env s).2).2.trace
      = modEvents (dldbfreeall env s).2.trace ∧
    (dldbfreeall env (dldbfreeall env s).2).2._dl_module_db = [] ∧
    (dldbfreeall env (dldbfreeall env s).2).2._dl_err = (dldbfreeall env s).2._dl_err ∧
    (dldbfreeall env (dldbfreeall env s).2).2._dl_errmsg = (dldbfreeall env s).2._dl_errmsg ∧
    (s._dl_module_db = [] →
      dldbfreeall env s
        = (0, unlockWrite env (sys env s [] Call.sceKernelLockWriteRWLock).2)) := by
  have h0 : (dldbfreeall env s).1 = 0 := by
    have hl : ¬ env.ret s.trace Call.sceKernelLockWriteRWLock < 0 := not_lt.mpr hlock1
    unfold dldbfreeall
    simp only [sys_fst, hl, if_false]
  have h1 := dldbfreeall_db env s hlock1
  have h2 := dldbfreeall_empty env (dldbfreeall env s).2 h1 hlock2
  refine ⟨h0, h1, h2, ?_, ?_, ?_, ?_, fun h0 => dldbfreeall_empty env s h0 hlock1⟩
  · rw [h2]
    simp
  · rw [h2]
    exact h1
  · rw [h2]
    rfl
  · rw [h2]
    rfl

/-- The amended C14 on the database with `SceNet` opened once and `foo.suprx`. -/
theorem dldbfreeall_twice_witness :
    db_two._dl_module_db ≠ [] ∧
    (dldbfreeall (Env.ok []) db_two).2._dl_module_db = [] ∧
    calls ((dldbfreeall (Env.ok []) (dldbfreeall (Env.ok []) db_two).2).2.trace.drop
        (dldbfreeall (Env.ok []) db_two).2.trace.length)
      = [Call.sceKernelLockWriteRWLock, Call.sceKernelUnlockWriteRWLock] ∧
    (dldbfreeall (Env.ok []) (dldbfreeall (Env.ok []) db_two).2).2._dl_module_db = [] :=
  ⟨by decide, (dldbfreeall_twice (Env.ok []) db_two (Int.le_refl 0) (Int.le_refl 0)).2.1,
   by decide,
   (dldbfreeall_twice (Env.ok []) db_two (Int.le_refl 0) (Int.le_refl 0)).2.2.2.2.1⟩

/-! ## C15: the error of a failing `dlsym` -/

/-- The loop of `dlsym` over the default modules, when it ends with NULL, ends
with the error flag raised. -/
theorem dlsym_default_err (env : Env) (symbol : CStr) (ms : List CStr) (s s' : State)
    (h : dlsym_default env symbol ms s = some (0, s')) : s'._dl_err = true := by
  induction ms generalizing s with
  | nil =>
    unfold dlsym_default at h
    simp only [Option.some.injEq, Prod.mk.injEq, true_and] at h
    cases he : s._dl_err with
    | true =>
      rw [he] at h
      simp only [if_true] at h
      rw [← h, he]
    | false =>
      rw [he] at h
      simp only [Bool.false_eq_true, if_false] at h
      rw [← h]
      rfl
  | cons m ms ih =>
    unfold dlsym_default at h
    cases hlk : symbol_lookup env s m symbol with
    | none => rw [hlk] at h; exact absurd h (by simp)
    | some p =>
      obtain ⟨ret, s1⟩ := p
      rw [hlk] at h
      simp only [] at h
      by_cases hr : ret ≠ 0
      · rw [if_pos hr] at h
        simp only [Option.some.injEq, Prod.mk.injEq] at h
        exact absurd h.1 hr
      · rw [if_neg hr] at h
        exact ih s1 h

/-- C16: after an error is set, `dlerror` returns the message that was set last
(as `DLERR` stored it, its first 127 bytes) and clears the flag, and the
`dlerror` call that follows returns NULL; with the flag raised `dlerror` returns
the message buffer and changes nothing but the flag; with the flag clear it
returns NULL and changes nothing. -/
theorem dlerror_reads_and_clears (s : State) (msg : CStr) :
    (dlerror (DLERR s msg)).1 = some (msg.take DLERRMSG_LENGTH_MAX) ∧
    (∀ earlier, (dlerror (DLERR (DLERR s earlier) msg)).1
      = some (msg.take DLERRMSG_LENGTH_MAX)) ∧
    (dlerror (DLERR s msg)).2._dl_err = false ∧
    (dlerror (dlerror (DLERR s msg)).2).1 = none ∧
    (s._dl_err = true → (dlerror s).1 = some s._dl_errmsg ∧
      (dlerror s).2 = { s with _dl_err := false } ∧ (dlerror (dlerror s).2).1 = none) ∧
    (s._dl_err = false → dlerror s = (none, s)) := by
  refine ⟨rfl, fun _ => rfl, rfl, rfl, ?_, ?_⟩
  · intro h
    simp [dlerror, h]
  · intro h
    simp [dlerror, h]

/-- C16 on the error that a `dlopen` of an unknown name sets. -/
theorem dlerror_reads_and_clears_witness :
    (dlerror (dlopen (Env.ok []) db_foo "nope".toList).2).1
      = some "Error: failed to find module nope in database\n".toList ∧
    (dlerror (dlerror (dlopen (Env.ok []) db_foo "nope".toList).2).2).1 = none :=
  ⟨((dlerror_reads_and_clears (dlopen (Env.ok []) db_foo "nope".toList).2 []).2.2.2.2.1
      (by decide)).1.trans (by decide),
   ((dlerror_reads_and_clears (dlopen (Env.ok []) db_foo "nope".toList).2 []).2.2.2.2.1
      (by decide)).2.2⟩

/-! ## C17: `dlclose` after the database is gone -/

/-- C17: after `dlopen` of `foo.suprx` and `dldbfreeall`, the database is empty,
and `dlclose` of the handle, with the lock granted, does not return: it reads
`module->refcount` through the NULL result of `HASH_FIND_STR`. -/
theorem dlclose_faults_after_teardown :
    (dlopen (Env.ok []) db_foo "foo.suprx".toList).1 = some ⟨"foo.suprx".toList⟩ ∧
    foo_torn_down._dl_module_db = [] ∧
    HASH_FIND_STR foo_torn_down._dl_module_db "foo.suprx".toList = none ∧
    dlclose (Env.ok []) foo_torn_down ⟨"foo.suprx".toList⟩ = none := by
  decide

/-! ## C18: names of 60 bytes and more -/

/-- C18: on a source whose `$` line and `*` line carry a name of 60 bytes,
`dldbadd` returns 0 and raises no error, and the database holds the module and
the symbol under names of 60 bytes. -/
theorem dldbadd_accepts_long_names :
    name60.length = 60 ∧
    (dldbadd (Env.ok source60) State.init db_path).1 = 0 ∧
    (dldbadd (Env.ok source60) State.init db_path).2._dl_err = false ∧
    (dldbadd (Env.ok source60) State.init db_path).2._dl_module_db
      = [⟨'f', 0, 0, 0, name60, [⟨name60, 1⟩]⟩] ∧
    MODNAME_LENGTH_MAX < name60.length ∧ SYMBOL_LENGTH_MAX < name60.length := by
  decide

/-! ## C19: a `#` or `*` line before any `$` line -/

theorem dldbfreeall_loop_err (env : Env) (ms : List dl_module_info) :
    ∀ s : State, (dldbfreeall_loop env ms s)._dl_err = s._dl_err ∧
      (dldbfreeall_loop env ms s)._dl_errmsg = s._dl_errmsg := by
  induction ms with
  | nil => intro s; exact ⟨rfl, rfl⟩
  | cons m ms ih =>
    intro s
    simp only [dldbfreeall_loop]
    rw [(ih _).1, (ih _).2]
    simp only [free_module]
    split_ifs <;> exact ⟨rfl, rfl⟩

/-- Function `dldbfreeall` leaves a raised error flag raised, and leaves the
message alone when it gets the lock. -/
theorem dldbfreeall_err (env : Env) (s : State) (h : s._dl_err = true) :
    (dldbfreeall env s).2._dl_err = true ∧
    (0 ≤ env.ret s.trace Call.sceKernelLockWriteRWLock →
      (dldbfreeall env s).2._dl_errmsg = s._dl_errmsg) := by
  unfold dldbfreeall
  simp only [sys_fst]
  by_cases hl : env.ret s.trace Call.sceKernelLockWriteRWLock < 0
  · rw [if_pos hl]
    exact ⟨rfl, fun h0 => absurd hl (not_lt.mpr h0)⟩
  · rw [if_neg hl]
    have := dldbfreeall_loop_err env (sys env s [] Call.sceKernelLockWriteRWLock).2._dl_module_db
      (sys env s [] Call.sceKernelLockWriteRWLock).2
    exact ⟨by simpa [unlockWrite, sys] using this.1.trans h,
      fun _ => by simpa [unlockWrite, sys] using this.2⟩

/-- C19: when the lock is taken and the source opens, a source in which a `#` or
`*` line comes before any `$` line makes the loop of `dldbadd`, which starts
with no current module whatever the database holds, set `failed` and the error
`no modules found` without any write to the database; after `dldbadd` the error
flag is raised, every record of the database is a record that was there before
the call, unchanged, and where `dldbfreeall` gets the lock the message is the
one of that line. -/
theorem dldbadd_rejects_line_before_module (env : Env) (s : State) (path : CStr)
    (content : List Char) (pre : List (List Char)) (raw : List Char) (post : List (List Char))
    (hlock : 0 ≤ env.ret s.trace Call.sceKernelLockWriteRWLock)
    (hopen : env.fopen path = some content)
    (hlines : getlines content [] = pre ++ raw :: post)
    (hpre : ∀ l ∈ pre, (cutLine l).head? ≠ some '$')
    (hraw : (cutLine raw).head? = some '#' ∨ (cutLine raw).head? = some '*') :
    dldbadd_loop env path (getlines content []) env.heap 1
        (sys env s [] Call.sceKernelLockWriteRWLock).2 none
      = (true, DLERR (sys env s [] Call.sceKernelLockWriteRWLock).2 (noModuleMsg path)) ∧
    (dldbadd env s path).2._dl_err = true ∧
    (∀ m ∈ (dldbadd env s path).2._dl_module_db, m ∈ s._dl_module_db) ∧
    ((∀ t, 0 ≤ env.ret t Call.sceKernelLockWriteRWLock) →
      (dlerror (dldbadd env s path).2).1 = some ((noModuleMsg path).take DLERRMSG_LENGTH_MAX) ∧
      (dldbadd env s path).2._dl_module_db = []) := by
  have hloop := dldbadd_loop_no_module env path raw post hraw pre env.heap 1
    (sys env s [] Call.sceKernelLockWriteRWLock).2 hpre
  rw [← hlines] at hloop
  have hl : ¬ env.ret s.trace Call.sceKernelLockWriteRWLock < 0 := not_lt.mpr hlock
  have hd : (dldbadd env s path).2 = unlockWrite env (dldbfreeall env
      (DLERR (sys env s [] Call.sceKernelLockWriteRWLock).2 (noModuleMsg path))).2 := by
    unfold dldbadd
    simp only [sys_fst, hl, if_false, hopen, hloop, if_true]
  have herr := dldbfreeall_err env
    (DLERR (sys env s [] Call.sceKernelLockWriteRWLock).2 (noModuleMsg path)) rfl
  have hkeep := dldbfreeall_keeps env
    (DLERR (sys env s [] Call.sceKernelLockWriteRWLock).2 (noModuleMsg path))
  refine ⟨hloop, ?_, ?_, ?_⟩
  · rw [hd]
    exact herr.1
  · rw [hd]
    exact hkeep.1
  · intro hall
    constructor
    · rw [hd]
      have h1 : (unlockWrite env (dldbfreeall env
          (DLERR (sys env s [] Call.sceKernelLockWriteRWLock).2 (noModuleMsg path))).2)._dl_err
          = true := herr.1
      have h2 : (unlockWrite env (dldbfreeall env
          (DLERR (sys env s [] Call.sceKernelLockWriteRWLock).2 (noModuleMsg path))).2)._dl_errmsg
          = (noModuleMsg path).take DLERRMSG_LENGTH_MAX := herr.2 (hall _)
      simp only [dlerror, h1, if_true, h2]
    · rw [hd, unlockWrite_db]
      exact dldbfreeall_db env _ (hall _)

/-- C19 on the source `*bar 0x0000AAAA`, `$f foo.suprx`, read while `foo.suprx` is
registered: the symbol is attached to no module. -/
theorem dldbadd_rejects_line_before_module_witness :
    moduleNames db_foo = ["foo.suprx".toList] ∧
    (dldbadd (Env.ok "*baz 0x00000003\n$f foo.suprx\n".toList) db_foo db_path).2._dl_err = true ∧
    (dlerror (dldbadd (Env.ok "*baz 0x00000003\n$f foo.suprx\n".toList) db_foo db_path).2).1
      = some "Error: no modules found in ux0:data/nid.db\n".toList ∧
    (dldbadd (Env.noRelock "*baz 0x00000003\n$f foo.suprx\n".toList) db_foo
      db_path).2._dl_module_db = db_foo._dl_module_db :=
  have h := dldbadd_rejects_line_before_module (Env.ok "*baz 0x00000003\n$f foo.suprx\n".toList)
    db_foo db_path "*baz 0x00000003\n$f foo.suprx\n".toList [] "*baz 0x00000003\n".toList
    ["$f foo.suprx\n".toList] (by decide) rfl (by decide)
    (fun _ h => absurd h (List.not_mem_nil _)) (Or.inr (by decide))
  ⟨by decide, h.2.1, (h.2.2.2 (fun _ => Int.le_refl 0)).1.trans (by decide), by decide⟩

/-! ## C20: the refcount and the open handles -/

theorem OpenOutcome_delta {n : CStr} {ty : Char} {rc : Int} {res : Option dl_handle} {d : Int}
    {X : List Event} (h : OpenOutcome n ty rc res d X) :
    (res = some ⟨n⟩ ∧ d = 1) ∨ (res = none ∧ d = 0) := by
  cases h with
  | reuse _ => exact .inl ⟨rfl, rfl⟩
  | load _ _ _ _ _ _ => exact .inl ⟨rfl, rfl⟩
  | refused => exact .inr ⟨rfl, rfl⟩
  | loadFailed _ _ _ _ _ => exact .inr ⟨rfl, rfl⟩
  | rolledBack _ _ _ _ _ _ _ _ _ => exact .inr ⟨rfl, rfl⟩

theorem CloseOutcome_delta {n : CStr} {ty : Char} {rc r d : Int} {X : List Event}
    (h : CloseOutcome n ty rc r d X) : (r = 0 ∧ d = -1) ∨ (r = -1 ∧ d = 0) := by
  cases h with
  | refused => exact .inr ⟨rfl, rfl⟩
  | last _ _ _ _ _ => exact .inl ⟨rfl, rfl⟩
  | lastNoUnloader _ _ => exact .inl ⟨rfl, rfl⟩
  | notLast _ => exact .inl ⟨rfl, rfl⟩

theorem RcInv_congr (s s1 : State) (hs : List dl_handle)
    (hdb : s1._dl_module_db = s._dl_module_db) (h : RcInv s hs) : RcInv s1 hs := by
  unfold RcInv getModule at *
  rw [hdb]
  exact h

/-- One write of `dlopen` or `dlclose` to the record that the name `n` finds, the
refcount moved by `d` and the open handles of the name `n` by as much. -/
theorem RcInv_step (s s1 : State) (hs hs1 : List dl_handle) (n : CStr) (j : Nat) (u d : Int)
    (hf : HASH_FIND_STR s._dl_module_db n = some j)
    (hdb : s1._dl_module_db = updateAt (touch u d) s._dl_module_db j)
    (hself : ((hs1.count ⟨n⟩ : Nat) : Int) = ((hs.count ⟨n⟩ : Nat) : Int) + d)
    (hother : ∀ k, k ≠ n → hs1.count ⟨k⟩ = hs.count ⟨k⟩)
    (hmem : ∀ h ∈ hs1, h ∈ hs ∨ h.name = n)
    (h : RcInv s hs) : RcInv s1 hs1 := by
  obtain ⟨hj, hjn⟩ := HASH_FIND_STR_some _ _ _ hf
  obtain ⟨h1, h2, h3⟩ := h
  have hget : ∀ i, i ≠ j → getModule s1 i = getModule s i := by
    intro i hij
    simp [getModule, hdb, recordAt_updateAt, hij]
  have hgetj := getModule_touch s s1 j u d hdb hj
  refine ⟨?_, ?_, ?_⟩
  · intro k i hk
    rw [hdb, HASH_FIND_STR_touch] at hk
    by_cases hij : i = j
    · subst hij
      have hkn : k = n := HASH_FIND_STR_inj _ _ _ _ hk hf
      subst hkn
      rw [hgetj]
      show (getModule s i).refcount + d = _
      rw [h1 k i hk, hself]
    · have hkn : k ≠ n := by
        intro hkn
        rw [hkn, hf] at hk
        exact hij (Option.some.inj hk).symm
      rw [hget i hij, hother k hkn]
      exact h1 k i hk
  · intro i hi hne
    rw [hdb, updateAt_length_eq] at hi
    rw [hdb, HASH_FIND_STR_touch] at hne
    by_cases hij : i = j
    · subst hij
      rw [hgetj] at hne
      exact absurd (by rw [show (touch u d (getModule s i)).name = n from hjn]; exact hf) hne
    · rw [hget i hij] at hne ⊢
      exact h2 i hi hne
  · intro hd hmemd
    rw [hdb, HASH_FIND_STR_touch]
    rcases hmem hd hmemd with hin | hname
    · exact h3 hd hin
    · rw [hname, hf]
      exact Option.some_ne_none j

theorem RcInv_fresh (s : State) (h : Fresh s) : RcInv s [] := by
  refine ⟨?_, ?_, ?_⟩
  · intro k i hk
    obtain ⟨hi, -⟩ := HASH_FIND_STR_some _ _ _ hk
    simpa using h.1 _ (recordAt_mem _ i hi)
  · intro i hi _
    exact h.1 _ (recordAt_mem _ i hi)
  · intro hd hmem
    exact absurd hmem (List.not_mem_nil _)

theorem count_handle_other (hs : List dl_handle) (hd : dl_handle) (k : CStr)
    (hk : k ≠ hd.name) :
    (hd :: hs).count ⟨k⟩ = hs.count ⟨k⟩ ∧ (hs.erase hd).count ⟨k⟩ = hs.count ⟨k⟩ := by
  have hne : (⟨k⟩ : dl_handle) ≠ hd := by
    intro he
    exact hk (by rw [← he])
  exact ⟨List.count_cons_of_ne hne hs, List.count_erase_of_ne hne hs⟩

/-- Every state reached from a freshly populated database has its refcounts equal
to the numbers of open handles. -/
theorem RcInv_reachable (env : Env) (s : State) (hs : List dl_handle)
    (h : Reachable env s hs) : RcInv s hs := by
  induction h with
  | fresh s hfresh => exact RcInv_fresh s hfresh
  | dlopen_some s hs n hd s1 _ hop ih =>
    cases hf : HASH_FIND_STR s._dl_module_db n with
    | none => simp [dlopen, hf] at hop
    | some j =>
      obtain ⟨u, d, X, hdb, hev, hout⟩ := dlopen_summary env s n j hf
      rw [hop] at hdb hev hout
      rcases OpenOutcome_delta hout with ⟨hres, hd1⟩ | ⟨hres, -⟩
      · cases hres
        subst hd1
        refine RcInv_step s s1 hs _ n j u 1 hf hdb ?_ ?_ ?_ ih
        · rw [List.count_cons_self]
          push_cast
          rfl
        · intro k hk
          exact (count_handle_other hs ⟨n⟩ k hk).1
        · intro h hmem
          rcases List.mem_cons.mp hmem with rfl | hin
          · exact .inr rfl
          · exact .inl hin
      · exact absurd hres (by simp)
  | dlopen_none s hs n s1 _ hop ih =>
    cases hf : HASH_FIND_STR s._dl_module_db n with
    | none =>
      simp only [dlopen, hf, Prod.mk.injEq, true_and] at hop
      subst hop
      exact RcInv_congr s _ hs rfl ih
    | some j =>
      obtain ⟨u, d, X, hdb, hev, hout⟩ := dlopen_summary env s n j hf
      rw [hop] at hdb hev hout
      rcases OpenOutcome_delta hout with ⟨hres, -⟩ | ⟨-, hd0⟩
      · exact absurd hres (by simp)
      · subst hd0
        exact RcInv_step s s1 hs hs n j u 0 hf hdb (by simp) (fun _ _ => rfl)
          (fun h hmem => .inl hmem) ih
  | dlclose s hs hd r s1 _ hin hcl ih =>
    cases hf : HASH_FIND_STR s._dl_module_db hd.name with
    | none => exact absurd hf (ih.2.2 hd hin)
    | some j =>
      obtain ⟨r', s1', u, d, X, hcl', hdb, hev, hout⟩ := dlclose_summary env s hd j hf
      rw [hcl] at hcl'
      simp only [Option.some.injEq, Prod.mk.injEq] at hcl'
      obtain ⟨rfl, rfl⟩ := hcl'
      rcases CloseOutcome_delta hout with ⟨hr, hd1⟩ | ⟨hr, hd0⟩
      · subst hr
        subst hd1
        rw [if_pos rfl]
        refine RcInv_step s s1 hs _ hd.name j u (-1) hf hdb ?_ ?_ ?_ ih
        · have hpos : 0 < hs.count hd := List.count_pos_iff.mpr hin
          rw [show (⟨hd.name⟩ : dl_handle) = hd from rfl, List.count_erase_self]
          omega
        · intro k hk
          exact (count_handle_other hs hd k hk).2
        · intro h hmem
          exact .inl (List.mem_of_mem_erase hmem)
      · subst hr
        subst hd0
        rw [if_neg (by decide)]
        exact RcInv_step s s1 hs hs hd.name j u 0 hf hdb (by simp) (fun _ _ => rfl)
          (fun h hmem => .inl hmem) ih

/-- C20: in every state reached from a freshly populated database by `dlopen`
calls and by `dlclose` calls on handles that are open (a handle stays open when
its `dlclose` returns -1), the refcount of the record that a name finds is the
number of open handles of that name, and a record that its own name does not
find, which no `dlopen` can reach, has refcount 0. No refcount is negative, and
the record that a `dlclose` of an open handle decrements has a positive
refcount. -/
theorem refcount_counts_open_handles (env : Env) (s : State) (hs : List dl_handle)
    (hreach : Reachable env s hs) :
    (∀ k i, HASH_FIND_STR s._dl_module_db k = some i →
      (getModule s i).refcount = ((hs.count ⟨k⟩ : Nat) : Int)) ∧
    (∀ i, i < s._dl_module_db.length →
      HASH_FIND_STR s._dl_module_db (getModule s i).name ≠ some i →
      (getModule s i).refcount = 0) ∧
    (∀ i, i < s._dl_module_db.length → 0 ≤ (getModule s i).refcount) ∧
    (∀ h ∈ hs, ∃ i, HASH_FIND_STR s._dl_module_db h.name = some i ∧
      0 < (getModule s i).refcount ∧
      ∀ r s1, dlclose env s h = some (r, s1) → r = 0 →
        (getModule s1 i).refcount = (getModule s i).refcount - 1) := by
  obtain ⟨h1, h2, h3⟩ := RcInv_reachable env s hs hreach
  refine ⟨h1, h2, ?_, ?_⟩
  · intro i hi
    by_cases hfi : HASH_FIND_STR s._dl_module_db (getModule s i).name = some i
    · rw [h1 _ i hfi]
      exact Int.natCast_nonneg _
    · rw [h2 i hi hfi]
  · intro hd hin
    cases hf : HASH_FIND_STR s._dl_module_db hd.name with
    | none => exact absurd hf (h3 hd hin)
    | some j =>
      refine ⟨j, rfl, ?_, ?_⟩
      · rw [h1 _ j hf]
        exact Int.natCast_pos.mpr (List.count_pos_iff.mpr hin)
      · intro r s1 hcl hr
        obtain ⟨r', s1', u, d, X, hcl', hdb, hev, hout⟩ := dlclose_summary env s hd j hf
        rw [hcl] at hcl'
        simp only [Option.some.injEq, Prod.mk.injEq] at hcl'
        obtain ⟨rfl, rfl⟩ := hcl'
        rcases CloseOutcome_delta hout with ⟨-, hd1⟩ | ⟨hr', -⟩
        · subst hd1
          rw [(getModule_type_touch s s1 j u (-1) hdb (HASH_FIND_STR_some _ _ _ hf).1).2]
          rfl
        · rw [hr] at hr'
          exact absurd hr' (by decide)

/-- C20 on the state after `dlopen`, `dlclose`, `dlopen` of `SceNet`: one handle is
open and the refcount is 1. -/
theorem refcount_counts_open_handles_witness :
    Reachable (Env.ok []) scenet_after.1 scenet_after.2 ∧
    scenet_after.2 = [⟨"SceNet".toList⟩] ∧
    (getModule scenet_after.1 0).refcount = 1 := by
  have hr : Reachable (Env.ok []) scenet_after.1 scenet_after.2 := by
    have h0 : Reachable (Env.ok []) db_scenet [] := .fresh db_scenet (by decide)
    have h1 := Reachable.dlopen_some db_scenet [] "SceNet".toList ⟨"SceNet".toList⟩
      (dlopen (Env.ok []) db_scenet "SceNet".toList).2 h0 (by decide)
    have h2 := Reachable.dlclose _ _ ⟨"SceNet".toList⟩ 0
      ((dlclose (Env.ok []) (dlopen (Env.ok []) db_scenet "SceNet".toList).2
        ⟨"SceNet".toList⟩).getD (0, db_scenet)).2 h1 (List.mem_cons_self _ _) (by decide)
    have h3 := Reachable.dlopen_some _ _ "SceNet".toList ⟨"SceNet".toList⟩
      scenet_after.1 h2 (by decide)
    simpa using h3
  refine ⟨hr, by decide, ?_⟩
  have h := (refcount_counts_open_handles (Env.ok []) scenet_after.1 scenet_after.2 hr).1
    "SceNet".toList 0 (by decide)
  rw [h]
  decide

end VitaLibdl
